import Mathlib

/-!
# pdf_to_audio: command-line front end of the Supertonic TTS pipeline

A shallow embedding of `src/cpp/pdf_to_audio.cpp` (`PDFToAudioArgs`,
`parseArgs`, `main`) and the properties of it that the specification states.

Modelling conventions.

* `float` values are rationals (`Rat`); infinities and NaN are not
  represented.  The program only copies samples and the speed.  The product
  `sample_rate * duration[0]`, whose truncation is the number of samples
  kept, is computed as the program computes it: the `int` is converted to
  `float` and the product is rounded to binary32 (`floatProduct`).  The
  arithmetic of the duration display is taken exactly, as the property
  stated about it stipulates.
* `int` values are integers; `std::stoi` rejects what does not fit in 32 bits
  and `static_cast<int>` of a value outside the 32-bit range is undefined
  behaviour.
* The functions declared in `helper.h` (text extraction, model loading, style
  loading, synthesis, WAV writing), `std::stof` and the file system are the
  fields of a `World`: each either returns a value or throws.  Every
  exception is taken to derive from `std::exception`, the one type the
  handler of `main` catches.
* A run is the list of observable events in program order together with the
  way the process ends.  Undefined behaviour of the C++ program is an explicit
  outcome: nothing is asserted about what happens after it.
-/

namespace PdfToAudio

/-! ## Values -/

/-- An exception derived from `std::exception`, as caught by `main`. -/
inductive Exn where
  | invalid_argument
  | out_of_range
  | runtime (what : String)
  deriving DecidableEq, Repr

/-- Modelled from the spec: the `Style` type of `helper.h`, "an immutable
fixed-length sequence of floating-point parameters identifying a voice". -/
abbrev Style := List Rat

/-- The fields of the synthesis result that `main` reads: `result.wav` and
`result.duration`. -/
structure SynthesisResult where
  wav : List Rat
  duration : List Rat
  deriving DecidableEq, Repr

/-- The record `PDFToAudioArgs` with its default member initialisers. -/
structure PDFToAudioArgs where
  pdf_path : String := ""
  output_path : String := ""
  voice_style : String := "../assets/voice_styles/M1.json"
  onnx_dir : String := "../assets/onnx"
  pdftotext_path : String := ""
  first_page : Int := -1
  last_page : Int := -1
  total_step : Int := 5
  speed : Rat := 1.05
  remove_footnotes : Bool := false
  debug : Bool := false
  verbose : Bool := true
  deriving DecidableEq, Repr

/-! ## Observable events and control flow -/

/-- One observable step of a run, in program order. `out`/`err` carry the
string literals of the source; the other output events carry the values sent
through the corresponding `operator<<` overload. -/
inductive Event where
  | out (s : String)
  | outStr (s : String)
  | outInt (i : Int)
  | outFloat (q : Rat)
  | outSize (n : Nat)
  | endl
  | err (s : String)
  | errStr (s : String)
  | errWhat (e : Exn)
  | printUsage (program_name : String)
  | fsExists (path : String)
  | timer (name : String)
  | extractTextFromPDF (pdf_path : String) (first_page last_page : Int)
      (pdftotext_path : String) (clean : Bool)
  | saveText (file : String) (content : String)
  | cleanFootnotes (text : String)
  | ortEnv
  | loadTextToSpeech (onnx_dir : String) (use_gpu : Bool)
  | loadVoiceStyle (paths : List String) (verbose : Bool)
  | call (text : String) (style : Style) (total_step : Int) (speed : Rat)
  | getSampleRate
  | writeWavFile (path : String) (samples : List Rat) (sample_rate : Int)
  | clearTensorBuffers
  deriving DecidableEq, Repr

/-- How a piece of code hands control back: it returns a value, calls
`exit(code)`, throws, or runs into undefined behaviour. -/
inductive Control (α : Type) where
  | ret (a : α)
  | exit (code : Int)
  | throw (e : Exn)
  | undefined
  deriving DecidableEq, Repr

/-- A computation: the events it produced and how it handed control back. -/
abbrev Exec (α : Type) := List Event × Control α

/-- The computation `r` after the events `t`. -/
def Exec.after {β : Type} (t : List Event) (r : Exec β) : Exec β := (t ++ r.1, r.2)

/-- Sequencing: the continuation runs only after a normal return. -/
def Exec.bind {α β : Type} (x : Exec α) (f : α → Exec β) : Exec β :=
  match x with
  | (t, .ret a) => Exec.after t (f a)
  | (t, .exit c) => (t, .exit c)
  | (t, .throw e) => (t, .throw e)
  | (t, .undefined) => (t, .undefined)

instance : Monad Exec where
  pure a := ([], .ret a)
  bind := Exec.bind

/-- Record one event. -/
def emit (e : Event) : Exec Unit := ([e], .ret ())

/-- Call an external function: the call is recorded, then its result is
returned or its exception propagates. -/
def invoke {α : Type} (e : Event) (r : Except Exn α) : Exec α :=
  match r with
  | .ok a => ([e], .ret a)
  | .error x => ([e], .throw x)

deriving instance DecidableEq for Except

/-- The external collaborators of the program. -/
structure World where
  fileExists : String → Except Exn Bool
  stof : String → Except Exn Rat
  extractTextFromPDF : String → Int → Int → String → Bool → Except Exn String
  cleanFootnotes : String → Except Exn String
  ortEnv : Except Exn Unit
  loadTextToSpeech : String → Bool → Except Exn Unit
  loadVoiceStyle : List String → Bool → Except Exn Style
  call : String → Style → Int → Rat → Except Exn SynthesisResult
  getSampleRate : Int
  writeWavFile : String → List Rat → Int → Except Exn Unit

/-! ## Library functions used by the program -/

def INT_MIN : Int := -2147483648

def INT_MAX : Int := 2147483647

/-- The characters `std::isspace` accepts in the C locale. -/
def isSpace (c : Char) : Bool :=
  c.toNat = 32 || (9 ≤ c.toNat && c.toNat ≤ 13)

/-- Value of a run of decimal digits. -/
def digitsValue (ds : List Char) : Nat :=
  ds.foldl (fun acc c => 10 * acc + (c.toNat - 48)) 0

/-- The function `std::stoi(str)` (base 10): leading white space is skipped,
an optional sign and the longest run of digits are read, what follows is
ignored; no digit throws `invalid_argument`, a value that does not fit in an
`int` throws `out_of_range`. -/
def stoi (s : String) : Except Exn Int :=
  let cs := s.toList.dropWhile isSpace
  let signed : Bool × List Char :=
    match cs with
    | '-' :: r => (true, r)
    | '+' :: r => (false, r)
    | r => (false, r)
  let ds := signed.2.takeWhile Char.isDigit
  if ds = [] then .error .invalid_argument
  else
    let v : Int := if signed.1 then -(digitsValue ds : Int) else (digitsValue ds : Int)
    if v < INT_MIN ∨ INT_MAX < v then .error .out_of_range else .ok v

/-- The last component of a path in generic format (`path::filename`): what
follows the last directory separator. -/
def filename (p : String) : List Char :=
  (p.toList.reverse.takeWhile (fun c => c ≠ '/')).reverse

/-- The function `path::stem`: the file name without its final extension. The
names `.` and `..` and a name whose only dot is its first character have no
extension. -/
def stem (p : String) : String :=
  let f := filename p
  if f = ['.'] ∨ f = ['.', '.'] then String.mk f
  else if '.' ∉ f then String.mk f
  else
    let ext := f.reverse.takeWhile (fun c => c ≠ '.')
    let base := f.take (f.length - ext.length - 1)
    if base = [] then String.mk f else String.mk base

/-- The power `2 ^ k` for an integer `k`. -/
def pow2 (k : Int) : Rat :=
  if 0 ≤ k then ((2 ^ k.toNat : Nat) : Rat) else 1 / ((2 ^ (-k).toNat : Nat) : Rat)

/-- The number of binary digits of `n`, by halving at most `fuel` times. -/
def bitLengthAux : Nat → Nat → Nat
  | 0, _ => 0
  | fuel + 1, n => if n = 0 then 0 else bitLengthAux fuel (n / 2) + 1

/-- The number of binary digits of `n`. -/
def bitLength (n : Nat) : Nat := bitLengthAux n n

/-- The binary exponent of a non-zero rational `q`: the `e` with
`2 ^ e ≤ |q| < 2 ^ (e + 1)`. -/
def binaryExponent (q : Rat) : Int :=
  let k : Int := (bitLength q.num.natAbs : Int) - (bitLength q.den : Int)
  if pow2 k ≤ |q| then k else k - 1

/-- Rounding to the nearest integer, ties to the even one. -/
def roundHalfEven (q : Rat) : Int :=
  let f : Int := q.num / (q.den : Int)
  let r : Rat := q - (f : Rat)
  if r < 1 / 2 then f else if 1 / 2 < r then f + 1 else if f % 2 = 0 then f else f + 1

/-- Rounding of a real value to IEEE 754 binary32 in the default mode (to
nearest, ties to even): a significand of 24 bits, the least exponent -126
(below it the subnormal spacing `2 ^ -149`). A result beyond the largest
finite `float`, which the program holds as an infinity, is not represented;
every such value lies outside the range of `int`. -/
def binary32 (q : Rat) : Rat :=
  if q = 0 then 0
  else
    let e := max (binaryExponent q) (-126)
    (roundHalfEven (q / pow2 (e - 23)) : Rat) * pow2 (e - 23)

/-- The value of the expression `sample_rate * result.duration[0]`: the `int`
is converted to `float` and the product is rounded to binary32. -/
def floatProduct (sample_rate : Int) (duration : Rat) : Rat :=
  binary32 (binary32 (sample_rate : Rat) * duration)

/-- Truncation toward zero, the value of `static_cast<int>` on a float. -/
def truncate (q : Rat) : Int := q.num.tdiv (q.den : Int)

/-- The conversion `static_cast<int>(x)` of a float: undefined when the
truncated value is not representable. -/
def static_cast_int (q : Rat) : Control Int :=
  if INT_MIN ≤ truncate q ∧ truncate q ≤ INT_MAX then .ret (truncate q) else .undefined

/-- The range constructor `std::vector<float>(v.begin(), v.begin() + n)`:
defined when `0 ≤ n ≤ v.size()`. -/
def vectorPrefix (v : List Rat) (n : Int) : Control (List Rat) :=
  if 0 ≤ n ∧ n ≤ (v.length : Int) then .ret (v.take n.toNat) else .undefined

/-- Lift a value-or-undefined result into a computation without events. -/
def step {α : Type} (c : Control α) : Exec α := ([], c)

/-! ## parseArgs -/

/-- The final `else` branch of the option chain. -/
def unknownArgument (program_name arg : String) : Exec PDFToAudioArgs :=
  ([.err "Unknown argument: ", .errStr arg, .err "\n\n", .printUsage program_name], .exit 1)

/-- The `for` loop of `parseArgs` over `argv[i..argc)`. The guard
`i + 1 < argc` of the options that take a value is the case distinction on
the tokens that remain after `arg`. -/
def parseLoop (w : World) (program_name : String) :
    List String → PDFToAudioArgs → Exec PDFToAudioArgs
  | [], args => ([], .ret args)
  | [arg], args =>
    if arg = "--help" ∨ arg = "-h" then ([.printUsage program_name], .exit 0)
    else if arg = "--remove-footnotes" then ([], .ret { args with remove_footnotes := true })
    else if arg = "--debug" then ([], .ret { args with debug := true })
    else if arg = "--quiet" then ([], .ret { args with verbose := false })
    else unknownArgument program_name arg
  | arg :: v :: rest, args =>
    if arg = "--help" ∨ arg = "-h" then ([.printUsage program_name], .exit 0)
    else if arg = "--pdf" then parseLoop w program_name rest { args with pdf_path := v }
    else if arg = "--output" then parseLoop w program_name rest { args with output_path := v }
    else if arg = "--first-page" then
      match stoi v with
      | .ok n => parseLoop w program_name rest { args with first_page := n }
      | .error e => ([], .throw e)
    else if arg = "--last-page" then
      match stoi v with
      | .ok n => parseLoop w program_name rest { args with last_page := n }
      | .error e => ([], .throw e)
    else if arg = "--voice-style" then parseLoop w program_name rest { args with voice_style := v }
    else if arg = "--onnx-dir" then parseLoop w program_name rest { args with onnx_dir := v }
    else if arg = "--total-step" then
      match stoi v with
      | .ok n => parseLoop w program_name rest { args with total_step := n }
      | .error e => ([], .throw e)
    else if arg = "--speed" then
      match w.stof v with
      | .ok q => parseLoop w program_name rest { args with speed := q }
      | .error e => ([], .throw e)
    else if arg = "--pdftotext-path" then
      parseLoop w program_name rest { args with pdftotext_path := v }
    else if arg = "--remove-footnotes" then
      parseLoop w program_name (v :: rest) { args with remove_footnotes := true }
    else if arg = "--debug" then
      parseLoop w program_name (v :: rest) { args with debug := true }
    else if arg = "--quiet" then
      parseLoop w program_name (v :: rest) { args with verbose := false }
    else unknownArgument program_name arg

/-- The checks of `parseArgs` after the loop: the required argument, the
existence of the file, the default output path. -/
def validateArgs (w : World) (program_name : String) (args : PDFToAudioArgs) :
    Exec PDFToAudioArgs :=
  if args.pdf_path = "" then
    ([.err "Error: --pdf argument is required\n\n", .printUsage program_name], .exit 1)
  else
    match w.fileExists args.pdf_path with
    | .error e => ([.fsExists args.pdf_path], .throw e)
    | .ok false =>
      ([.fsExists args.pdf_path, .err "Error: PDF file not found: ", .errStr args.pdf_path,
        .err "\n"], .exit 1)
    | .ok true =>
      if args.output_path = "" then
        ([.fsExists args.pdf_path], .ret { args with output_path := stem args.pdf_path ++ ".wav" })
      else ([.fsExists args.pdf_path], .ret args)

/-- The function `parseArgs(argc, argv)` with `argv[0] = program_name` and
`argv[1..argc) = argv`. -/
def parseArgs (w : World) (program_name : String) (argv : List String) : Exec PDFToAudioArgs :=
  if argv = [] then ([.printUsage program_name], .exit 1)
  else
    Exec.bind (parseLoop w program_name argv {}) (validateArgs w program_name)

/-! ## main -/

/-- The optional "Pages" line of the configuration banner. -/
def pagesLine (args : PDFToAudioArgs) : List Event :=
  if 0 < args.first_page ∨ 0 < args.last_page then
    [.out "  Pages: ",
     if 0 < args.first_page then .outInt args.first_page else .out "1",
     .out " to ",
     if 0 < args.last_page then .outInt args.last_page else .out "end",
     .out "\n"]
  else []

/-- The configuration banner, printed when `args.verbose` holds. -/
def printConfiguration (args : PDFToAudioArgs) : Exec Unit :=
  if args.verbose then
    ([.out "Configuration:\n", .out "  PDF file: ", .outStr args.pdf_path, .out "\n",
      .out "  Output: ", .outStr args.output_path, .out "\n"]
      ++ pagesLine args ++
     [.out "  Voice style: ", .outStr args.voice_style, .out "\n",
      .out "  Quality steps: ", .outInt args.total_step, .out "\n",
      .out "  Speed: ", .outFloat args.speed, .out "x\n\n"], .ret ())
  else ([], .ret ())

/-- Step 2 of `main`: text extraction, on the `--debug` path and on the
normal path. -/
def extractText (w : World) (args : PDFToAudioArgs) : Exec String :=
  if args.debug then do
    emit (.timer "Extracting text from PDF")
    let text_raw ← invoke
      (.extractTextFromPDF args.pdf_path args.first_page args.last_page args.pdftotext_path false)
      (w.extractTextFromPDF args.pdf_path args.first_page args.last_page args.pdftotext_path false)
    let debug_file_raw := stem args.pdf_path ++ "_extracted_raw.txt"
    emit (.saveText debug_file_raw text_raw)
    emit (.out "[DEBUG] Raw extracted text saved to: ")
    emit (.outStr debug_file_raw)
    emit (.out "\n")
    if args.remove_footnotes then do
      let text ← invoke (.cleanFootnotes text_raw) (w.cleanFootnotes text_raw)
      let debug_file_clean := stem args.pdf_path ++ "_extracted_cleaned.txt"
      emit (.saveText debug_file_clean text)
      emit (.out "[DEBUG] Cleaned text saved to: ")
      emit (.outStr debug_file_clean)
      emit (.out "\n")
      pure text
    else pure text_raw
  else do
    emit (.timer "Extracting text from PDF")
    invoke
      (.extractTextFromPDF args.pdf_path args.first_page args.last_page args.pdftotext_path
        args.remove_footnotes)
      (w.extractTextFromPDF args.pdf_path args.first_page args.last_page args.pdftotext_path
        args.remove_footnotes)

/-- The preview of the extracted text, printed when `args.verbose` holds. -/
def printPreview (args : PDFToAudioArgs) (text : String) : Exec Unit :=
  if args.verbose then
    ([.out "Extracted ", .outSize text.length, .out " characters\n", .out "Preview: ",
      .outStr (if 200 < text.length then String.mk (text.toList.take 200) ++ "..."
               else String.mk (text.toList.take 200)),
      .out "\n\n"], .ret ())
  else ([], .ret ())

/-- The element `result.duration[0]`: undefined on an empty vector. -/
def firstDuration (result : SynthesisResult) : Control Rat :=
  match result.duration with
  | d :: _ => .ret d
  | [] => .undefined

/-- The minutes and seconds shown on the "Duration" line. -/
def durationParts (duration_sec : Rat) : Int × Int :=
  (truncate (duration_sec / 60), (truncate duration_sec).tmod 60)

/-- The completion report, printed when `args.verbose` holds. -/
def printSummary (args : PDFToAudioArgs) (duration_sec : Rat) (sample_rate : Int) : Exec Unit :=
  if args.verbose then do
    let duration_min ← step (static_cast_int (duration_sec / 60))
    let whole ← step (static_cast_int duration_sec)
    let duration_sec_remainder := whole.tmod 60
    ([.out "\n=== Conversion completed successfully! ===\n",
      .out "Output file: ", .outStr args.output_path, .out "\n",
      .out "Duration: ", .outInt duration_min, .out "m ", .outInt duration_sec_remainder,
      .out "s\n",
      .out "Sample rate: ", .outInt sample_rate, .out " Hz\n"], .ret ())
  else ([], .ret ())

/-- Step 6 of `main`: trimming the buffer to the predicted duration, writing
the WAV file, the report and the buffer reset. -/
def saveAudio (w : World) (args : PDFToAudioArgs) (result : SynthesisResult) : Exec Unit := do
  emit .getSampleRate
  let sample_rate := w.getSampleRate
  let duration0 ← step (firstDuration result)
  let wav_len ← step (static_cast_int (floatProduct sample_rate duration0))
  let wav_out ← step (vectorPrefix result.wav wav_len)
  invoke (.writeWavFile args.output_path wav_out sample_rate)
    (w.writeWavFile args.output_path wav_out sample_rate)
  printSummary args duration0 sample_rate
  emit .clearTensorBuffers

/-- Steps 3 to 5 of `main`: runtime and model loading, style loading and the
synthesis call. -/
def synthesize (w : World) (args : PDFToAudioArgs) (text : String) : Exec SynthesisResult := do
  invoke .ortEnv w.ortEnv
  invoke (.loadTextToSpeech args.onnx_dir false) (w.loadTextToSpeech args.onnx_dir false)
  emit .endl
  let style ← invoke (.loadVoiceStyle [args.voice_style] args.verbose)
    (w.loadVoiceStyle [args.voice_style] args.verbose)
  emit (.timer "Synthesizing speech from text")
  invoke (.call text style args.total_step args.speed)
    (w.call text style args.total_step args.speed)

/-- The body of the `try` block of `main`. -/
def mainBody (w : World) (program_name : String) (argv : List String) : Exec Unit := do
  emit (.out "=== PDF to Audio Converter ===\n\n")
  let args ← parseArgs w program_name argv
  printConfiguration args
  let text ← extractText w args
  printPreview args text
  let result ← synthesize w args text
  saveAudio w args result

/-- How the process ends: with an exit status, or in undefined behaviour. -/
inductive Outcome where
  | exit (code : Int)
  | undefined
  deriving DecidableEq, Repr

/-- A run of the program. -/
structure Run where
  trace : List Event
  outcome : Outcome
  deriving DecidableEq, Repr

/-- The output of the handler `catch (const std::exception& e)`. -/
def errorReport (e : Exn) : List Event :=
  [.err "\n[ERROR] ", .errWhat e, .err "\n"]

/-- The function `main(argc, argv)`: a normal end of the `try` block returns
0, the handler of `std::exception` reports the error and returns 1, and
`exit(code)` inside `parseArgs` ends the process at once. -/
def main (w : World) (program_name : String) (argv : List String) : Run :=
  match mainBody w program_name argv with
  | (t, .ret _) => ⟨t, .exit 0⟩
  | (t, .exit c) => ⟨t, .exit c⟩
  | (t, .throw e) => ⟨t ++ errorReport e, .exit 1⟩
  | (t, .undefined) => ⟨t, .undefined⟩

/-! ## Argument lists as sequences of options

The shape of the argument lists the loop of `parseArgs` reads to the end: a
sequence of options with their value and of switches. These definitions
state which options an argument list gives; they are not part of the
program. -/

/-- The options that take a value. -/
inductive ValueOption where
  | pdf | output | first_page | last_page | voice_style | onnx_dir | total_step | speed
  | pdftotext_path
  deriving DecidableEq, Repr

/-- The options without a value. -/
inductive Switch where
  | remove_footnotes | debug | quiet
  deriving DecidableEq, Repr

/-- The command-line spelling of an option with a value. -/
def ValueOption.token : ValueOption → String
  | .pdf => "--pdf"
  | .output => "--output"
  | .first_page => "--first-page"
  | .last_page => "--last-page"
  | .voice_style => "--voice-style"
  | .onnx_dir => "--onnx-dir"
  | .total_step => "--total-step"
  | .speed => "--speed"
  | .pdftotext_path => "--pdftotext-path"

/-- The command-line spelling of a switch. -/
def Switch.token : Switch → String
  | .remove_footnotes => "--remove-footnotes"
  | .debug => "--debug"
  | .quiet => "--quiet"

/-- One option as given on the command line. -/
inductive Item where
  | value (o : ValueOption) (v : String)
  | switch (s : Switch)
  deriving DecidableEq, Repr

/-- The tokens of one option. -/
def Item.tokens : Item → List String
  | .value o v => [o.token, v]
  | .switch s => [s.token]

/-- The argument list that gives the options `items` in order. -/
def tokensOf : List Item → List String
  | [] => []
  | it :: rest => it.tokens ++ tokensOf rest

/-- The effect of one option on the record, or the exception of its
conversion. -/
def applyItem (w : World) (args : PDFToAudioArgs) : Item → Except Exn PDFToAudioArgs
  | .value .pdf v => .ok { args with pdf_path := v }
  | .value .output v => .ok { args with output_path := v }
  | .value .first_page v => (stoi v).map fun n => { args with first_page := n }
  | .value .last_page v => (stoi v).map fun n => { args with last_page := n }
  | .value .voice_style v => .ok { args with voice_style := v }
  | .value .onnx_dir v => .ok { args with onnx_dir := v }
  | .value .total_step v => (stoi v).map fun n => { args with total_step := n }
  | .value .speed v => (w.stof v).map fun q => { args with speed := q }
  | .value .pdftotext_path v => .ok { args with pdftotext_path := v }
  | .switch .remove_footnotes => .ok { args with remove_footnotes := true }
  | .switch .debug => .ok { args with debug := true }
  | .switch .quiet => .ok { args with verbose := false }

/-- The effect of a sequence of options, left to right. -/
def applyItems (w : World) (args : PDFToAudioArgs) : List Item → Except Exn PDFToAudioArgs
  | [] => .ok args
  | it :: rest =>
    match applyItem w args it with
    | .ok args1 => applyItems w args1 rest
    | .error e => .error e

/-- The tokens the option chain of `parseArgs` knows. -/
def knownTokens : List String :=
  ["--help", "-h", "--pdf", "--output", "--first-page", "--last-page", "--voice-style",
   "--onnx-dir", "--total-step", "--speed", "--pdftotext-path", "--remove-footnotes",
   "--debug", "--quiet"]

/-! ## A concrete world for examples -/

/-- A world in which the files `doc.pdf` and `books/doc.v2.pdf` exist,
extraction yields `"Hi."`,
and the model returns 1000 zero samples with the duration `0.01f`
(5368709 / 2^29, the `float` nearest to 0.01) at 16000 Hz. -/
def demoWorld : World where
  fileExists p := .ok (p = "doc.pdf" || p = "books/doc.v2.pdf")
  stof _ := .error .invalid_argument
  extractTextFromPDF _ _ _ _ _ := .ok "Hi."
  cleanFootnotes t := .ok t
  ortEnv := .ok ()
  loadTextToSpeech _ _ := .ok ()
  loadVoiceStyle _ _ := .ok []
  call _ _ _ _ := .ok ⟨List.replicate 1000 0, [5368709 / 536870912]⟩
  getSampleRate := 16000
  writeWavFile _ _ _ := .ok ()

/-! ## Definitions used to state the properties -/

/-- What an option with a value stores: the value itself, or its conversion
by `stoi` / `stof`. -/
def Stores (w : World) (a : PDFToAudioArgs) : ValueOption → String → Prop
  | .pdf, v => a.pdf_path = v
  | .output, v => a.output_path = v
  | .first_page, v => stoi v = .ok a.first_page
  | .last_page, v => stoi v = .ok a.last_page
  | .voice_style, v => a.voice_style = v
  | .onnx_dir, v => a.onnx_dir = v
  | .total_step, v => stoi v = .ok a.total_step
  | .speed, v => w.stof v = .ok a.speed
  | .pdftotext_path, v => a.pdftotext_path = v

/-- The event of the extraction call of `main`. -/
def extractionEvent (args : PDFToAudioArgs) : Event :=
  .extractTextFromPDF args.pdf_path args.first_page args.last_page args.pdftotext_path
    (!args.debug && args.remove_footnotes)

/-- The events the `--debug` path adds after the extraction call. -/
def Event.isDebugStep : Event → Bool
  | .saveText _ _ => true
  | .out _ => true
  | .outStr _ => true
  | .cleanFootnotes _ => true
  | _ => false

/-- The events of `synthesize` up to the style loading. -/
def loadEvents (args : PDFToAudioArgs) : List Event :=
  [.ortEnv, .loadTextToSpeech args.onnx_dir false, .endl,
   .loadVoiceStyle [args.voice_style] args.verbose]

/-- The events of the completion report. -/
def summaryEvents (args : PDFToAudioArgs) (duration_sec : Rat) (sample_rate : Int) : List Event :=
  [.out "\n=== Conversion completed successfully! ===\n",
   .out "Output file: ", .outStr args.output_path, .out "\n",
   .out "Duration: ", .outInt (durationParts duration_sec).1, .out "m ",
   .outInt (durationParts duration_sec).2, .out "s\n",
   .out "Sample rate: ", .outInt sample_rate, .out " Hz\n"]

/-- The conversions of the duration display are defined. -/
def DisplayDefined (d : Rat) : Prop :=
  (INT_MIN ≤ truncate (d / 60) ∧ truncate (d / 60) ≤ INT_MAX) ∧
    (INT_MIN ≤ truncate d ∧ truncate d ≤ INT_MAX)

/-- The number of samples `main` keeps: the binary32 product
`sample_rate * duration[0]` truncated. -/
def wavLen (w : World) (d : Rat) : Int := truncate (floatProduct w.getSampleRate d)

/-- The slicing of `main` is defined: the duration vector is not empty, the
sample count fits an `int` and lies within the buffer. -/
def SliceDefined (w : World) (result : SynthesisResult) : Prop :=
  ∃ d ds, result.duration = d :: ds ∧ INT_MIN ≤ wavLen w d ∧ wavLen w d ≤ INT_MAX ∧
    0 ≤ wavLen w d ∧ wavLen w d ≤ (result.wav.length : Int)

/-- The event of the call of `writeWavFile` in `main`. -/
def writeEvent (w : World) (args : PDFToAudioArgs) (result : SynthesisResult) (d : Rat) : Event :=
  .writeWavFile args.output_path (result.wav.take (wavLen w d).toNat) w.getSampleRate

/-- The first line `main` prints. -/
def startEvent : Event := .out "=== PDF to Audio Converter ===\n\n"

/-- The events of the configuration banner. -/
def configurationEvents (args : PDFToAudioArgs) : List Event := (printConfiguration args).1

/-- The events of the preview of the extracted text. -/
def previewEvents (args : PDFToAudioArgs) (text : String) : List Event :=
  (printPreview args text).1

/-- The events of a run up to the end of the extraction. -/
def extractionTrace (tp : List Event) (args : PDFToAudioArgs) (te : List Event) : List Event :=
  startEvent :: tp ++ configurationEvents args ++ te

/-- The events of a run up to the end of the synthesis call. -/
def synthesisTrace (tp : List Event) (args : PDFToAudioArgs) (te : List Event) (text : String)
    (ts : List Event) : List Event :=
  extractionTrace tp args te ++ previewEvents args text ++ ts

/-- The events that write to `std::cout`. -/
def Event.isPrint : Event → Bool
  | .out _ => true
  | .outStr _ => true
  | .outInt _ => true
  | .outFloat _ => true
  | .outSize _ => true
  | .endl => true
  | _ => false

/-- The events a run can produce between the return of `parseArgs` and the
return of the synthesis call, for the record `args`. -/
def Expected (args : PDFToAudioArgs) (e : Event) : Prop :=
  e.isPrint = true ∨ e.isDebugStep = true ∨ e = .fsExists args.pdf_path ∨
    (∃ n, e = .timer n) ∨ e = extractionEvent args ∨ e = .ortEnv ∨
    e = .loadTextToSpeech args.onnx_dir false ∨
    e = .loadVoiceStyle [args.voice_style] args.verbose ∨
    ∃ text style, e = .call text style args.total_step args.speed

/-- The calls of `writeWavFile`. -/
def Event.isWrite : Event → Bool
  | .writeWavFile _ _ _ => true
  | _ => false

/-- The events that write to `std::cerr`. -/
def Event.isError : Event → Bool
  | .err _ => true
  | .errStr _ => true
  | .errWhat _ => true
  | _ => false

/-- A world like `demoWorld` whose model returns 100 samples with the
duration 6744441 / 2^30 s, the `float` nearest to 100.5 / 16000: the product
of rate and duration exceeds the buffer length by about half a sample. -/
def fractionWorld : World :=
  { demoWorld with
    call := fun _ _ _ _ => .ok ⟨List.replicate 100 0, [6744441 / 1073741824]⟩ }

/-- A world like `demoWorld` whose model returns 100 samples with a duration
of 1 s: 16000 samples would be needed. -/
def overrunWorld : World :=
  { demoWorld with call := fun _ _ _ _ => .ok ⟨List.replicate 100 0, [1]⟩ }

/-- A world like `demoWorld` at 44100 Hz whose model returns 17673076 samples
with a duration of 400.75 s. -/
def longWorld : World :=
  { demoWorld with
    call := fun _ _ _ _ => .ok ⟨List.replicate 17673076 0, [1603 / 4]⟩
    getSampleRate := 44100 }

/-- A world like `demoWorld` whose synthesis call throws. -/
def failingWorld : World :=
  { demoWorld with call := fun _ _ _ _ => .error (.runtime "inference failed") }

/-- The synthesis calls. -/
def Event.isCall : Event → Bool
  | .call _ _ _ _ => true
  | _ => false

/-! ## The loop of parseArgs and sequences of options -/

theorem parseLoop_switch (w : World) (p : String) (s : Switch) (l : List String)
    (a : PDFToAudioArgs) :
    parseLoop w p (s.token :: l) a =
      match applyItem w a (.switch s) with
      | .ok a1 => parseLoop w p l a1
      | .error e => ([], .throw e) := by
  cases l <;> cases s <;> simp [parseLoop, applyItem, Switch.token]

theorem parseLoop_value (w : World) (p : String) (o : ValueOption) (v : String)
    (l : List String) (a : PDFToAudioArgs) :
    parseLoop w p (o.token :: v :: l) a =
      match applyItem w a (.value o v) with
      | .ok a1 => parseLoop w p l a1
      | .error e => ([], .throw e) := by
  cases o <;> simp [parseLoop, applyItem, ValueOption.token, Except.map] <;>
    split <;> simp_all

/-- The loop on the tokens of a sequence of options followed by any tokens:
the options are applied in order, then the loop goes on. -/
theorem parseLoop_tokensOf (w : World) (p : String) (items : List Item) (tail : List String)
    (a : PDFToAudioArgs) :
    parseLoop w p (tokensOf items ++ tail) a =
      match applyItems w a items with
      | .ok a1 => parseLoop w p tail a1
      | .error e => ([], .throw e) := by
  induction items generalizing a with
  | nil => simp [tokensOf, applyItems]
  | cons it rest ih =>
    cases it with
    | value o v =>
      simp only [tokensOf, Item.tokens, List.cons_append, List.nil_append, List.append_assoc]
      rw [parseLoop_value]
      simp only [applyItems]
      cases applyItem w a (.value o v) with
      | ok a1 => simpa using ih a1
      | error e => simp
    | switch s =>
      simp only [tokensOf, Item.tokens, List.cons_append, List.nil_append, List.append_assoc]
      rw [parseLoop_switch]
      simp only [applyItems]
      cases applyItem w a (.switch s) with
      | ok a1 => simpa using ih a1
      | error e => simp

/-- Every token is the help request, an option with a value, a switch, or
unknown to the option chain. -/
theorem token_cases (arg : String) :
    (arg = "--help" ∨ arg = "-h") ∨ (∃ o : ValueOption, arg = o.token) ∨
      (∃ s : Switch, arg = s.token) ∨ arg ∉ knownTokens := by
  by_cases h : arg ∈ knownTokens
  · simp only [knownTokens, List.mem_cons, List.mem_singleton, List.not_mem_nil, or_false] at h
    rcases h with h | h | h | h | h | h | h | h | h | h | h | h | h | h
    · exact Or.inl (Or.inl h)
    · exact Or.inl (Or.inr h)
    · exact Or.inr (Or.inl ⟨.pdf, h⟩)
    · exact Or.inr (Or.inl ⟨.output, h⟩)
    · exact Or.inr (Or.inl ⟨.first_page, h⟩)
    · exact Or.inr (Or.inl ⟨.last_page, h⟩)
    · exact Or.inr (Or.inl ⟨.voice_style, h⟩)
    · exact Or.inr (Or.inl ⟨.onnx_dir, h⟩)
    · exact Or.inr (Or.inl ⟨.total_step, h⟩)
    · exact Or.inr (Or.inl ⟨.speed, h⟩)
    · exact Or.inr (Or.inl ⟨.pdftotext_path, h⟩)
    · exact Or.inr (Or.inr (Or.inl ⟨.remove_footnotes, h⟩))
    · exact Or.inr (Or.inr (Or.inl ⟨.debug, h⟩))
    · exact Or.inr (Or.inr (Or.inl ⟨.quiet, h⟩))
  · exact Or.inr (Or.inr (Or.inr h))

theorem parseLoop_help (w : World) (p : String) (arg : String) (l : List String)
    (a : PDFToAudioArgs) (h : arg = "--help" ∨ arg = "-h") :
    parseLoop w p (arg :: l) a = ([.printUsage p], .exit 0) := by
  cases l <;> simp [parseLoop, h]

theorem parseLoop_unknown (w : World) (p : String) (arg : String) (l : List String)
    (a : PDFToAudioArgs) (h : arg ∉ knownTokens) :
    parseLoop w p (arg :: l) a = unknownArgument p arg := by
  simp only [knownTokens, List.mem_cons, List.mem_singleton, List.not_mem_nil, or_false,
    not_or] at h
  cases l <;> simp [parseLoop, h]

theorem parseLoop_value_last (w : World) (p : String) (o : ValueOption) (a : PDFToAudioArgs) :
    parseLoop w p [o.token] a = unknownArgument p o.token := by
  cases o <;> simp [parseLoop, ValueOption.token]

/-- The four ways the loop of `parseArgs` ends. -/
theorem parseLoop_cases (w : World) (p : String) (l : List String) (a : PDFToAudioArgs) :
    (∃ items a1, l = tokensOf items ∧ applyItems w a items = .ok a1 ∧
        parseLoop w p l a = ([], .ret a1)) ∨
    (∃ e, parseLoop w p l a = ([], .throw e)) ∨
    (("--help" ∈ l ∨ "-h" ∈ l) ∧ parseLoop w p l a = ([.printUsage p], .exit 0)) ∨
    (∃ x, x ∈ l ∧ parseLoop w p l a = unknownArgument p x) := by
  generalize hn : l.length = n
  induction n using Nat.strong_induction_on generalizing l a with
  | _ n ih =>
    subst hn
    match l with
    | [] => exact Or.inl ⟨[], a, rfl, rfl, rfl⟩
    | arg :: rest =>
      have step : ∀ (it : Item) (tail : List String), tail.length < (arg :: rest).length →
          arg :: rest = it.tokens ++ tail →
          (parseLoop w p (it.tokens ++ tail) a =
            match applyItem w a it with
            | .ok a1 => parseLoop w p tail a1
            | .error e => ([], .throw e)) →
          ((∃ items a1, arg :: rest = tokensOf items ∧ applyItems w a items = .ok a1 ∧
              parseLoop w p (arg :: rest) a = ([], .ret a1)) ∨
            (∃ e, parseLoop w p (arg :: rest) a = ([], .throw e)) ∨
            (("--help" ∈ arg :: rest ∨ "-h" ∈ arg :: rest) ∧
              parseLoop w p (arg :: rest) a = ([.printUsage p], .exit 0)) ∨
            (∃ x, x ∈ arg :: rest ∧ parseLoop w p (arg :: rest) a = unknownArgument p x)) := by
        intro it tail hlen heq hrun
        rw [heq, hrun]
        cases hit : applyItem w a it with
        | error e => exact Or.inr (Or.inl ⟨e, rfl⟩)
        | ok a1 =>
          rcases ih tail.length hlen tail a1 rfl with
            ⟨items, a2, h1, h2, h3⟩ | ⟨e, h⟩ | ⟨hm, h⟩ | ⟨x, hx, h⟩
          · refine Or.inl ⟨it :: items, a2, ?_, ?_, h3⟩
            · simp [tokensOf, h1]
            · simp [applyItems, hit, h2]
          · exact Or.inr (Or.inl ⟨e, h⟩)
          · refine Or.inr (Or.inr (Or.inl ⟨?_, h⟩))
            rcases hm with hm | hm
            · exact Or.inl (List.mem_append_right _ hm)
            · exact Or.inr (List.mem_append_right _ hm)
          · exact Or.inr (Or.inr (Or.inr ⟨x, List.mem_append_right _ hx, h⟩))
      rcases token_cases arg with hh | ⟨o, ho⟩ | ⟨s, hs⟩ | hu
      · refine Or.inr (Or.inr (Or.inl ⟨?_, parseLoop_help w p arg rest a hh⟩))
        rcases hh with hh | hh
        · exact Or.inl (by simp [hh])
        · exact Or.inr (by simp [hh])
      · cases rest with
        | nil =>
          refine Or.inr (Or.inr (Or.inr ⟨arg, by simp, ?_⟩))
          rw [ho]; exact parseLoop_value_last w p o a
        | cons v rest1 =>
          exact step (.value o v) rest1 (by simp only [List.length_cons]; omega)
            (by simp [Item.tokens, ho])
            (by simpa [Item.tokens] using parseLoop_value w p o v rest1 a)
      · exact step (.switch s) rest (by simp) (by simp [Item.tokens, hs])
          (by simpa [Item.tokens] using parseLoop_switch w p s rest a)
      · exact Or.inr (Or.inr (Or.inr ⟨arg, by simp, parseLoop_unknown w p arg rest a hu⟩))

/-! ## Fields of the record after a sequence of options -/

theorem token_mem_tokensOf_value {o : ValueOption} {v : String} {items : List Item}
    (h : Item.value o v ∈ items) : o.token ∈ tokensOf items := by
  induction items with
  | nil => simp at h
  | cons it rest ih =>
    rcases List.mem_cons.1 h with h | h
    · subst h; simp [tokensOf, Item.tokens]
    · exact List.mem_append_right _ (ih h)

theorem token_mem_tokensOf_switch {s : Switch} {items : List Item}
    (h : Item.switch s ∈ items) : s.token ∈ tokensOf items := by
  induction items with
  | nil => simp at h
  | cons it rest ih =>
    rcases List.mem_cons.1 h with h | h
    · subst h; simp [tokensOf, Item.tokens]
    · exact List.mem_append_right _ (ih h)

/-- A field that no option of the sequence sets keeps its value. -/
theorem applyItems_preserves {α : Type} (w : World) (f : PDFToAudioArgs → α) (P : Item → Prop)
    (hstep : ∀ a it a1, ¬ P it → applyItem w a it = .ok a1 → f a1 = f a) :
    ∀ (items : List Item) (a a1 : PDFToAudioArgs), (∀ it ∈ items, ¬ P it) →
      applyItems w a items = .ok a1 → f a1 = f a := by
  intro items
  induction items with
  | nil => intro a a1 _ h; simp [applyItems] at h; rw [h]
  | cons it rest ih =>
    intro a a1 hP h
    simp only [applyItems] at h
    cases hit : applyItem w a it with
    | error e => simp [hit] at h
    | ok a2 =>
      simp only [hit] at h
      rw [ih a2 a1 (fun x hx => hP x (List.mem_cons_of_mem _ hx)) h]
      exact hstep a it a2 (hP it (List.mem_cons_self _ _)) hit

theorem applyItems_append (w : World) (pre post : List Item) (a : PDFToAudioArgs) :
    applyItems w a (pre ++ post) =
      match applyItems w a pre with
      | .ok a1 => applyItems w a1 post
      | .error e => .error e := by
  induction pre generalizing a with
  | nil => simp [applyItems]
  | cons it rest ih =>
    simp only [List.cons_append, applyItems]
    cases applyItem w a it with
    | error e => simp
    | ok a1 => simpa using ih a1

/-- The record after `pre ++ it :: post`: the one `it` produced, carried
through `post`. -/
theorem applyItems_split (w : World) (pre post : List Item) (it : Item)
    (a a2 : PDFToAudioArgs) (h : applyItems w a (pre ++ it :: post) = .ok a2) :
    ∃ a0 a1, applyItems w a pre = .ok a0 ∧ applyItem w a0 it = .ok a1 ∧
      applyItems w a1 post = .ok a2 := by
  rw [applyItems_append] at h
  cases hpre : applyItems w a pre with
  | error e => simp [hpre] at h
  | ok a0 =>
    simp only [hpre, applyItems] at h
    cases hit : applyItem w a0 it with
    | error e => simp [hit] at h
    | ok a1 => exact ⟨a0, a1, rfl, hit, by simpa [hit] using h⟩

/-- The record `parseArgs` returns, in terms of the options given: the
argument list is a non-empty sequence of options, each conversion succeeds,
the PDF path is given and exists, and only `output_path` is completed. -/
theorem parseArgs_ret_iff (w : World) (p : String) (argv : List String) (t : List Event)
    (a : PDFToAudioArgs) :
    parseArgs w p argv = (t, .ret a) ↔
      ∃ items a0, argv = tokensOf items ∧ argv ≠ [] ∧ applyItems w {} items = .ok a0 ∧
        a0.pdf_path ≠ "" ∧ w.fileExists a0.pdf_path = .ok true ∧
        t = [.fsExists a0.pdf_path] ∧
        a = { a0 with output_path :=
                if a0.output_path = "" then stem a0.pdf_path ++ ".wav" else a0.output_path } := by
  constructor
  · intro h
    unfold parseArgs at h
    split at h
    · simp at h
    · rename_i hne
      rcases parseLoop_cases w p argv {} with
        ⟨items, a0, h1, h2, h3⟩ | ⟨e, h3⟩ | ⟨_, h3⟩ | ⟨x, _, h3⟩
      · rw [h3] at h
        simp only [Exec.bind, Exec.after, validateArgs, List.nil_append] at h
        refine ⟨items, a0, h1, hne, h2, ?_⟩
        split at h
        · simp at h
        · rename_i hpdf
          split at h
          · simp at h
          · simp at h
          · rename_i hex
            refine ⟨hpdf, hex, ?_⟩
            split at h
            · rename_i hout
              simp only [Prod.mk.injEq, Control.ret.injEq] at h
              exact ⟨h.1.symm, by rw [← h.2]; simp [hout]⟩
            · rename_i hout
              simp only [Prod.mk.injEq, Control.ret.injEq] at h
              exact ⟨h.1.symm, by rw [← h.2]; simp [hout]⟩
      · rw [h3] at h; simp [Exec.bind] at h
      · rw [h3] at h; simp [Exec.bind] at h
      · rw [h3] at h; simp [Exec.bind, unknownArgument] at h
  · rintro ⟨items, a0, h1, hne, h2, hpdf, hex, ht, ha⟩
    unfold parseArgs
    rw [if_neg hne]
    have hl := parseLoop_tokensOf w p items [] {}
    simp only [List.append_nil, h2] at hl
    rw [h1, hl]
    simp only [parseLoop, Exec.bind, Exec.after, validateArgs, if_neg hpdf, hex, List.nil_append]
    by_cases hout : a0.output_path = ""
    · simp [hout, ht, ha]
    · simp [hout, ht, ha]

/-- One option changes no field but its own. -/
theorem applyItem_frame (w : World) (a a1 : PDFToAudioArgs) (it : Item)
    (h : applyItem w a it = .ok a1) :
    ((∀ v, it ≠ .value .pdf v) → a1.pdf_path = a.pdf_path) ∧
    ((∀ v, it ≠ .value .output v) → a1.output_path = a.output_path) ∧
    ((∀ v, it ≠ .value .first_page v) → a1.first_page = a.first_page) ∧
    ((∀ v, it ≠ .value .last_page v) → a1.last_page = a.last_page) ∧
    ((∀ v, it ≠ .value .voice_style v) → a1.voice_style = a.voice_style) ∧
    ((∀ v, it ≠ .value .onnx_dir v) → a1.onnx_dir = a.onnx_dir) ∧
    ((∀ v, it ≠ .value .total_step v) → a1.total_step = a.total_step) ∧
    ((∀ v, it ≠ .value .speed v) → a1.speed = a.speed) ∧
    ((∀ v, it ≠ .value .pdftotext_path v) → a1.pdftotext_path = a.pdftotext_path) ∧
    (it ≠ .switch .remove_footnotes → a1.remove_footnotes = a.remove_footnotes) ∧
    (it ≠ .switch .debug → a1.debug = a.debug) ∧
    (it ≠ .switch .quiet → a1.verbose = a.verbose) := by
  cases it with
  | value o v =>
    cases o <;> simp only [applyItem, Except.map] at h
    all_goals
      first
      | (simp only [Except.ok.injEq] at h; subst h; simp)
      | (split at h <;> first
          | (simp only [Except.ok.injEq] at h; subst h; simp)
          | simp at h)
  | switch s =>
    cases s <;> simp only [applyItem, Except.ok.injEq] at h <;> subst h <;> simp

/-- A sequence of options changes no field but those of the options it
contains. -/
theorem applyItems_frame (w : World) (items : List Item) (a a1 : PDFToAudioArgs)
    (h : applyItems w a items = .ok a1) :
    ((∀ v, Item.value .pdf v ∉ items) → a1.pdf_path = a.pdf_path) ∧
    ((∀ v, Item.value .output v ∉ items) → a1.output_path = a.output_path) ∧
    ((∀ v, Item.value .first_page v ∉ items) → a1.first_page = a.first_page) ∧
    ((∀ v, Item.value .last_page v ∉ items) → a1.last_page = a.last_page) ∧
    ((∀ v, Item.value .voice_style v ∉ items) → a1.voice_style = a.voice_style) ∧
    ((∀ v, Item.value .onnx_dir v ∉ items) → a1.onnx_dir = a.onnx_dir) ∧
    ((∀ v, Item.value .total_step v ∉ items) → a1.total_step = a.total_step) ∧
    ((∀ v, Item.value .speed v ∉ items) → a1.speed = a.speed) ∧
    ((∀ v, Item.value .pdftotext_path v ∉ items) → a1.pdftotext_path = a.pdftotext_path) ∧
    (Item.switch .remove_footnotes ∉ items → a1.remove_footnotes = a.remove_footnotes) ∧
    (Item.switch .debug ∉ items → a1.debug = a.debug) ∧
    (Item.switch .quiet ∉ items → a1.verbose = a.verbose) := by
  refine ⟨?_, ?_, ?_, ?_, ?_, ?_, ?_, ?_, ?_, ?_, ?_, ?_⟩
  · intro hno
    exact applyItems_preserves w (fun x => x.pdf_path) (fun it => ∃ v, it = .value .pdf v)
      (fun a it a1 hP hit => (applyItem_frame w a a1 it hit).1
        (fun v hv => hP ⟨v, hv⟩))
      items a a1 (fun it hit ⟨v, hv⟩ => hno v (hv ▸ hit)) h
  · intro hno
    exact applyItems_preserves w (fun x => x.output_path) (fun it => ∃ v, it = .value .output v)
      (fun a it a1 hP hit => (applyItem_frame w a a1 it hit).2.1
        (fun v hv => hP ⟨v, hv⟩))
      items a a1 (fun it hit ⟨v, hv⟩ => hno v (hv ▸ hit)) h
  · intro hno
    exact applyItems_preserves w (fun x => x.first_page) (fun it => ∃ v, it = .value .first_page v)
      (fun a it a1 hP hit => (applyItem_frame w a a1 it hit).2.2.1
        (fun v hv => hP ⟨v, hv⟩))
      items a a1 (fun it hit ⟨v, hv⟩ => hno v (hv ▸ hit)) h
  · intro hno
    exact applyItems_preserves w (fun x => x.last_page) (fun it => ∃ v, it = .value .last_page v)
      (fun a it a1 hP hit => (applyItem_frame w a a1 it hit).2.2.2.1
        (fun v hv => hP ⟨v, hv⟩))
      items a a1 (fun it hit ⟨v, hv⟩ => hno v (hv ▸ hit)) h
  · intro hno
    exact applyItems_preserves w (fun x => x.voice_style) (fun it => ∃ v, it = .value .voice_style v)
      (fun a it a1 hP hit => (applyItem_frame w a a1 it hit).2.2.2.2.1
        (fun v hv => hP ⟨v, hv⟩))
      items a a1 (fun it hit ⟨v, hv⟩ => hno v (hv ▸ hit)) h
  · intro hno
    exact applyItems_preserves w (fun x => x.onnx_dir) (fun it => ∃ v, it = .value .onnx_dir v)
      (fun a it a1 hP hit => (applyItem_frame w a a1 it hit).2.2.2.2.2.1
        (fun v hv => hP ⟨v, hv⟩))
      items a a1 (fun it hit ⟨v, hv⟩ => hno v (hv ▸ hit)) h
  · intro hno
    exact applyItems_preserves w (fun x => x.total_step) (fun it => ∃ v, it = .value .total_step v)
      (fun a it a1 hP hit => (applyItem_frame w a a1 it hit).2.2.2.2.2.2.1
        (fun v hv => hP ⟨v, hv⟩))
      items a a1 (fun it hit ⟨v, hv⟩ => hno v (hv ▸ hit)) h
  · intro hno
    exact applyItems_preserves w (fun x => x.speed) (fun it => ∃ v, it = .value .speed v)
      (fun a it a1 hP hit => (applyItem_frame w a a1 it hit).2.2.2.2.2.2.2.1
        (fun v hv => hP ⟨v, hv⟩))
      items a a1 (fun it hit ⟨v, hv⟩ => hno v (hv ▸ hit)) h
  · intro hno
    exact applyItems_preserves w (fun x => x.pdftotext_path) (fun it => ∃ v, it = .value .pdftotext_path v)
      (fun a it a1 hP hit => (applyItem_frame w a a1 it hit).2.2.2.2.2.2.2.2.1
        (fun v hv => hP ⟨v, hv⟩))
      items a a1 (fun it hit ⟨v, hv⟩ => hno v (hv ▸ hit)) h
  · intro hno
    exact applyItems_preserves w (fun x => x.remove_footnotes) (fun it => it = .switch .remove_footnotes)
      (fun a it a1 hP hit => (applyItem_frame w a a1 it hit).2.2.2.2.2.2.2.2.2.1 hP)
      items a a1 (fun it hit hv => hno (hv ▸ hit)) h
  · intro hno
    exact applyItems_preserves w (fun x => x.debug) (fun it => it = .switch .debug)
      (fun a it a1 hP hit => (applyItem_frame w a a1 it hit).2.2.2.2.2.2.2.2.2.2.1 hP)
      items a a1 (fun it hit hv => hno (hv ▸ hit)) h
  · intro hno
    exact applyItems_preserves w (fun x => x.verbose) (fun it => it = .switch .quiet)
      (fun a it a1 hP hit => (applyItem_frame w a a1 it hit).2.2.2.2.2.2.2.2.2.2.2 hP)
      items a a1 (fun it hit hv => hno (hv ▸ hit)) h

theorem applyItem_stores (w : World) (a a1 : PDFToAudioArgs) (o : ValueOption) (v : String)
    (h : applyItem w a (.value o v) = .ok a1) : Stores w a1 o v := by
  cases o <;> simp only [applyItem, Except.map] at h
  all_goals
    first
    | (simp only [Except.ok.injEq] at h; subst h; simp [Stores])
    | (split at h <;> first
        | (rename_i n hn; simp only [Except.ok.injEq] at h; subst h; simp [Stores, hn])
        | simp at h)

/-- After a sequence of options, a field holds what the last occurrence of
its option stored. -/
theorem applyItems_last (w : World) (pre post : List Item) (o : ValueOption) (v : String)
    (a a2 : PDFToAudioArgs) (hpost : ∀ v1, Item.value o v1 ∉ post)
    (h : applyItems w a (pre ++ .value o v :: post) = .ok a2) : Stores w a2 o v := by
  obtain ⟨a0, a1, _, hit, hrest⟩ := applyItems_split w pre post (.value o v) a a2 h
  have hs := applyItem_stores w a0 a1 o v hit
  have hf := applyItems_frame w post a1 a2 hrest
  cases o <;> simp only [Stores] at hs ⊢
  · rw [hf.1 hpost]; exact hs
  · rw [hf.2.1 hpost]; exact hs
  · rw [hf.2.2.1 hpost]; exact hs
  · rw [hf.2.2.2.1 hpost]; exact hs
  · rw [hf.2.2.2.2.1 hpost]; exact hs
  · rw [hf.2.2.2.2.2.1 hpost]; exact hs
  · rw [hf.2.2.2.2.2.2.1 hpost]; exact hs
  · rw [hf.2.2.2.2.2.2.2.1 hpost]; exact hs
  · rw [hf.2.2.2.2.2.2.2.2.1 hpost]; exact hs

/-! ## Sequencing -/

@[simp] theorem bind_eq {α β : Type} (x : Exec α) (f : α → Exec β) :
    (x >>= f) = Exec.bind x f := rfl

@[simp] theorem pure_eq {α : Type} (a : α) : (pure a : Exec α) = ([], .ret a) := rfl

@[simp] theorem after_fst {β : Type} (t : List Event) (r : Exec β) :
    (Exec.after t r).1 = t ++ r.1 := rfl

@[simp] theorem after_snd {β : Type} (t : List Event) (r : Exec β) :
    (Exec.after t r).2 = r.2 := rfl

@[simp] theorem bind_ret {α β : Type} (t : List Event) (a : α) (f : α → Exec β) :
    Exec.bind (t, .ret a) f = Exec.after t (f a) := rfl

@[simp] theorem bind_exit {α β : Type} (t : List Event) (c : Int) (f : α → Exec β) :
    Exec.bind (t, .exit c) f = (t, .exit c) := rfl

@[simp] theorem bind_throw {α β : Type} (t : List Event) (e : Exn) (f : α → Exec β) :
    Exec.bind (t, .throw e) f = (t, .throw e) := rfl

@[simp] theorem bind_undefined {α β : Type} (t : List Event) (f : α → Exec β) :
    Exec.bind (t, (.undefined : Control α)) f = (t, .undefined) := rfl

@[simp] theorem bind_emit {β : Type} (e : Event) (f : Unit → Exec β) :
    Exec.bind (emit e) f = Exec.after [e] (f ()) := rfl

@[simp] theorem bind_invoke_ok {α β : Type} (e : Event) (a : α) (f : α → Exec β) :
    Exec.bind (invoke e (.ok a)) f = Exec.after [e] (f a) := rfl

@[simp] theorem bind_invoke_error {α β : Type} (e : Event) (x : Exn) (f : α → Exec β) :
    Exec.bind (invoke e (.error x : Except Exn α)) f = ([e], .throw x) := rfl

@[simp] theorem invoke_ok {α : Type} (e : Event) (a : α) :
    invoke e (.ok a : Except Exn α) = ([e], .ret a) := rfl

@[simp] theorem invoke_error {α : Type} (e : Event) (x : Exn) :
    invoke e (.error x : Except Exn α) = ([e], .throw x) := rfl

@[simp] theorem bind_step_ret {α β : Type} (a : α) (f : α → Exec β) :
    Exec.bind (step (.ret a)) f = f a := by
  simp [step, Exec.bind, Exec.after]

@[simp] theorem bind_step_undefined {α β : Type} (f : α → Exec β) :
    Exec.bind (step (.undefined : Control α)) f = ([], .undefined) := rfl

theorem bind_fst {α β : Type} (x : Exec α) (f : α → Exec β) :
    (Exec.bind x f).1 = x.1 ++ (match x.2 with
      | .ret a => (f a).1
      | _ => []) := by
  rcases x with ⟨t, c⟩
  cases c <;> simp [Exec.bind]

theorem bind_snd {α β : Type} (x : Exec α) (f : α → Exec β) :
    (Exec.bind x f).2 = (match x.2 with
      | .ret a => (f a).2
      | .exit c => .exit c
      | .throw e => .throw e
      | .undefined => .undefined) := by
  rcases x with ⟨t, c⟩
  cases c <;> simp [Exec.bind]

/-! ## The ways each phase of main ends -/

/-- The ways `validateArgs` ends. -/
theorem validateArgs_cases (w : World) (p : String) (a0 : PDFToAudioArgs) :
    (∃ a, validateArgs w p a0 = ([.fsExists a0.pdf_path], .ret a)) ∨
    (∃ e, validateArgs w p a0 = ([.fsExists a0.pdf_path], .throw e)) ∨
    (a0.pdf_path = "" ∧ validateArgs w p a0 =
      ([.err "Error: --pdf argument is required\n\n", .printUsage p], .exit 1)) ∨
    (w.fileExists a0.pdf_path = .ok false ∧ validateArgs w p a0 =
      ([.fsExists a0.pdf_path, .err "Error: PDF file not found: ", .errStr a0.pdf_path,
        .err "\n"], .exit 1)) := by
  unfold validateArgs
  by_cases hpdf : a0.pdf_path = ""
  · simp [hpdf]
  · rw [if_neg hpdf]
    cases hex : w.fileExists a0.pdf_path with
    | error e => simp
    | ok b =>
      cases b with
      | false => simp
      | true =>
        by_cases hout : a0.output_path = ""
        · simp [hout]
        · simp [hout]

/-- The ways `parseArgs` ends. -/
theorem parseArgs_cases (w : World) (p : String) (argv : List String) :
    (∃ a, parseArgs w p argv = ([.fsExists a.pdf_path], .ret a)) ∨
    (∃ e, parseArgs w p argv = ([], .throw e)) ∨
    (∃ e path, parseArgs w p argv = ([.fsExists path], .throw e)) ∨
    (("--help" ∈ argv ∨ "-h" ∈ argv) ∧ parseArgs w p argv = ([.printUsage p], .exit 0)) ∨
    (argv = [] ∧ parseArgs w p argv = ([.printUsage p], .exit 1)) ∨
    (∃ x, x ∈ argv ∧ parseArgs w p argv =
      ([.err "Unknown argument: ", .errStr x, .err "\n\n", .printUsage p], .exit 1)) ∨
    (parseArgs w p argv =
      ([.err "Error: --pdf argument is required\n\n", .printUsage p], .exit 1)) ∨
    (∃ path, w.fileExists path = .ok false ∧ parseArgs w p argv =
      ([.fsExists path, .err "Error: PDF file not found: ", .errStr path, .err "\n"],
        .exit 1)) := by
  unfold parseArgs
  by_cases hne : argv = []
  · simp [hne]
  · rw [if_neg hne]
    rcases parseLoop_cases w p argv {} with
      ⟨items, a0, _, _, h3⟩ | ⟨e, h3⟩ | ⟨hm, h3⟩ | ⟨x, hx, h3⟩
    · rw [h3]
      simp only [bind_ret, Exec.after, List.nil_append]
      rcases validateArgs_cases w p a0 with ⟨a, h⟩ | ⟨e, h⟩ | ⟨_, h⟩ | ⟨hf, h⟩
      · rw [h]
        have := (parseArgs_ret_iff w p argv [.fsExists a0.pdf_path] a).1
          (by unfold parseArgs; rw [if_neg hne, h3]; simp [Exec.after, h])
        obtain ⟨items1, a1, _, _, _, _, _, ht, ha⟩ := this
        left
        refine ⟨a, ?_⟩
        have hp : a.pdf_path = a1.pdf_path := by rw [ha]
        simp only [List.cons.injEq, Event.fsExists.injEq, and_true] at ht
        rw [hp, ← ht]
      · rw [h]; exact Or.inr (Or.inr (Or.inl ⟨e, _, rfl⟩))
      · rw [h]; simp
      · rw [h]; exact Or.inr (Or.inr (Or.inr (Or.inr (Or.inr (Or.inr (Or.inr ⟨_, hf, rfl⟩))))))
    · rw [h3]; simp
    · rw [h3]; simp [hm]
    · rw [h3]
      refine Or.inr (Or.inr (Or.inr (Or.inr (Or.inr (Or.inl ⟨x, hx, ?_⟩)))))
      simp [unknownArgument]

/-- The ways `extractText` ends: on both paths the extraction call comes
first, with the page range of the record. -/
theorem extractText_cases (w : World) (args : PDFToAudioArgs) :
    ∃ rest, (∀ e ∈ rest, e.isDebugStep = true) ∧ (∀ e ∈ rest, e ≠ .out "  Pages: ") ∧
      ((∃ text raw, w.extractTextFromPDF args.pdf_path args.first_page args.last_page
            args.pdftotext_path (!args.debug && args.remove_footnotes) = .ok raw ∧
          extractText w args =
            (.timer "Extracting text from PDF" :: extractionEvent args :: rest, .ret text)) ∨
       (∃ e, extractText w args =
            (.timer "Extracting text from PDF" :: extractionEvent args :: rest, .throw e))) := by
  unfold extractText extractionEvent
  cases hd : args.debug with
  | false =>
    simp only [Bool.false_eq_true, if_false, bind_eq, bind_emit, Bool.not_false, Bool.true_and]
    cases hx : w.extractTextFromPDF args.pdf_path args.first_page args.last_page
        args.pdftotext_path args.remove_footnotes with
    | error e => exact ⟨[], by simp, by simp, Or.inr ⟨e, by simp [Exec.after]⟩⟩
    | ok text => exact ⟨[], by simp, by simp, Or.inl ⟨text, text, rfl, by simp [Exec.after]⟩⟩
  | true =>
    simp only [if_true, bind_eq, bind_emit, Bool.not_true, Bool.false_and]
    cases hx : w.extractTextFromPDF args.pdf_path args.first_page args.last_page
        args.pdftotext_path false with
    | error e => exact ⟨[], by simp, by simp, Or.inr ⟨e, by simp [Exec.after]⟩⟩
    | ok raw =>
      cases hr : args.remove_footnotes with
      | false =>
        exact ⟨[.saveText (stem args.pdf_path ++ "_extracted_raw.txt") raw,
            .out "[DEBUG] Raw extracted text saved to: ",
            .outStr (stem args.pdf_path ++ "_extracted_raw.txt"), .out "\n"],
          by simp [Event.isDebugStep], by simp,
          Or.inl ⟨raw, raw, rfl, by simp [Exec.after]⟩⟩
      | true =>
        cases hc : w.cleanFootnotes raw with
        | error e =>
          exact ⟨[.saveText (stem args.pdf_path ++ "_extracted_raw.txt") raw,
            .out "[DEBUG] Raw extracted text saved to: ",
            .outStr (stem args.pdf_path ++ "_extracted_raw.txt"), .out "\n",
            .cleanFootnotes raw],
            by simp [Event.isDebugStep], by simp,
            Or.inr ⟨e, by simp [Exec.after, hc]⟩⟩
        | ok text =>
          exact ⟨[.saveText (stem args.pdf_path ++ "_extracted_raw.txt") raw,
            .out "[DEBUG] Raw extracted text saved to: ",
            .outStr (stem args.pdf_path ++ "_extracted_raw.txt"), .out "\n",
            .cleanFootnotes raw,
            .saveText (stem args.pdf_path ++ "_extracted_cleaned.txt") text,
            .out "[DEBUG] Cleaned text saved to: ",
            .outStr (stem args.pdf_path ++ "_extracted_cleaned.txt"), .out "\n"],
            by simp [Event.isDebugStep], by simp,
            Or.inl ⟨text, raw, rfl, by simp [Exec.after, hc]⟩⟩

/-- The ways `synthesize` ends. -/
theorem synthesize_cases (w : World) (args : PDFToAudioArgs) (text : String) :
    (∃ e, w.ortEnv = .error e ∧ synthesize w args text = ([.ortEnv], .throw e)) ∨
    (∃ e, w.loadTextToSpeech args.onnx_dir false = .error e ∧
      synthesize w args text = ([.ortEnv, .loadTextToSpeech args.onnx_dir false], .throw e)) ∨
    (∃ e, w.loadTextToSpeech args.onnx_dir false = .ok () ∧
      w.loadVoiceStyle [args.voice_style] args.verbose = .error e ∧
      synthesize w args text = (loadEvents args, .throw e)) ∨
    (∃ e style, w.loadTextToSpeech args.onnx_dir false = .ok () ∧
      w.loadVoiceStyle [args.voice_style] args.verbose = .ok style ∧
      w.call text style args.total_step args.speed = .error e ∧
      synthesize w args text =
        (loadEvents args ++ [.timer "Synthesizing speech from text",
          .call text style args.total_step args.speed], .throw e)) ∨
    (∃ style result, w.loadTextToSpeech args.onnx_dir false = .ok () ∧
      w.loadVoiceStyle [args.voice_style] args.verbose = .ok style ∧
      w.call text style args.total_step args.speed = .ok result ∧
      synthesize w args text =
        (loadEvents args ++ [.timer "Synthesizing speech from text",
          .call text style args.total_step args.speed], .ret result)) := by
  unfold synthesize loadEvents
  simp only [bind_eq]
  cases h1 : w.ortEnv with
  | error e => simp
  | ok u1 =>
    cases h2 : w.loadTextToSpeech args.onnx_dir false with
    | error e => simp [Exec.after]
    | ok u2 =>
      cases h3 : w.loadVoiceStyle [args.voice_style] args.verbose with
      | error e => simp [Exec.after]
      | ok style =>
        cases h4 : w.call text style args.total_step args.speed with
        | error e => simp [Exec.after, h4]
        | ok result => simp [Exec.after, h4]

/-- The ways `printSummary` ends. -/
theorem printSummary_cases (args : PDFToAudioArgs) (d : Rat) (sr : Int) :
    (args.verbose = false ∧ printSummary args d sr = ([], .ret ())) ∨
    (args.verbose = true ∧ DisplayDefined d ∧
      printSummary args d sr = (summaryEvents args d sr, .ret ())) ∨
    (args.verbose = true ∧ ¬ DisplayDefined d ∧ printSummary args d sr = ([], .undefined)) := by
  unfold printSummary DisplayDefined
  cases hv : args.verbose with
  | false => simp
  | true =>
    simp only [if_true, bind_eq, static_cast_int]
    by_cases h1 : INT_MIN ≤ truncate (d / 60) ∧ truncate (d / 60) ≤ INT_MAX
    · by_cases h2 : INT_MIN ≤ truncate d ∧ truncate d ≤ INT_MAX
      · simp [h1, h2, summaryEvents, durationParts]
      · simp [h1, h2]
    · simp [h1]

/-- The ways `saveAudio` ends. -/
theorem saveAudio_cases (w : World) (args : PDFToAudioArgs) (result : SynthesisResult) :
    (¬ SliceDefined w result ∧ saveAudio w args result = ([.getSampleRate], .undefined)) ∨
    (∃ d ds, result.duration = d :: ds ∧ SliceDefined w result ∧
      ((∃ e, w.writeWavFile args.output_path (result.wav.take (wavLen w d).toNat)
            w.getSampleRate = .error e ∧
          saveAudio w args result = ([.getSampleRate, writeEvent w args result d], .throw e)) ∨
       (w.writeWavFile args.output_path (result.wav.take (wavLen w d).toNat)
            w.getSampleRate = .ok () ∧
          ((∃ ts, (printSummary args d w.getSampleRate) = (ts, .ret ()) ∧
              saveAudio w args result =
                ([.getSampleRate, writeEvent w args result d] ++ ts ++ [.clearTensorBuffers],
                  .ret ())) ∨
           ((printSummary args d w.getSampleRate) = ([], .undefined) ∧
              saveAudio w args result =
                ([.getSampleRate, writeEvent w args result d], .undefined)))))) := by
  unfold saveAudio SliceDefined
  simp only [bind_eq, bind_emit, firstDuration]
  cases hd : result.duration with
  | nil => simp [Exec.after]
  | cons d ds =>
    simp only [bind_step_ret, static_cast_int]
    by_cases h1 : INT_MIN ≤ wavLen w d ∧ wavLen w d ≤ INT_MAX
    · by_cases h2 : 0 ≤ wavLen w d ∧ wavLen w d ≤ (result.wav.length : Int)
      · right
        refine ⟨d, ds, rfl, ⟨d, ds, rfl, h1.1, h1.2, h2.1, h2.2⟩, ?_⟩
        have h1a : INT_MIN ≤ truncate (floatProduct w.getSampleRate d) ∧
            truncate (floatProduct w.getSampleRate d) ≤ INT_MAX := h1
        have h2a : 0 ≤ truncate (floatProduct w.getSampleRate d) ∧
            truncate (floatProduct w.getSampleRate d) ≤ (result.wav.length : Int) := h2
        simp only [if_pos h1a, bind_step_ret, vectorPrefix, if_pos h2a]
        cases hw : w.writeWavFile args.output_path
            (result.wav.take (truncate (floatProduct w.getSampleRate d)).toNat) w.getSampleRate with
        | error e => left; exact ⟨e, hw, by simp [Exec.after, writeEvent, wavLen]⟩
        | ok u =>
          right
          refine ⟨hw, ?_⟩
          rcases printSummary_cases args d w.getSampleRate with ⟨_, h⟩ | ⟨_, _, h⟩ | ⟨_, _, h⟩
          · left; exact ⟨[], h, by simp [Exec.after, writeEvent, wavLen, h, emit]⟩
          · left; exact ⟨_, h, by simp [Exec.after, writeEvent, wavLen, h, emit]⟩
          · right; exact ⟨h, by simp [Exec.after, writeEvent, wavLen, h]⟩
      · left
        have h1a : INT_MIN ≤ truncate (floatProduct w.getSampleRate d) ∧
            truncate (floatProduct w.getSampleRate d) ≤ INT_MAX := h1
        have h2a : ¬ (0 ≤ truncate (floatProduct w.getSampleRate d) ∧
            truncate (floatProduct w.getSampleRate d) ≤ (result.wav.length : Int)) := h2
        refine ⟨?_, by simp [if_pos h1a, vectorPrefix, if_neg h2a, Exec.after]⟩
        rintro ⟨d1, ds1, heq, _, _, h3, h4⟩
        simp only [List.cons.injEq] at heq
        rw [← heq.1] at h3 h4
        exact h2 ⟨h3, h4⟩
    · left
      have h1a : ¬ (INT_MIN ≤ truncate (floatProduct w.getSampleRate d) ∧
          truncate (floatProduct w.getSampleRate d) ≤ INT_MAX) := h1
      refine ⟨?_, by simp [if_neg h1a, Exec.after]⟩
      rintro ⟨d1, ds1, heq, h3, h4, _, _⟩
      simp only [List.cons.injEq] at heq
      rw [← heq.1] at h3 h4
      exact h1 ⟨h3, h4⟩

/-! ## The ways main ends -/

theorem mainBody_eq (w : World) (p : String) (argv : List String) :
    mainBody w p argv =
      Exec.after [startEvent] (Exec.bind (parseArgs w p argv) fun args =>
        Exec.bind (printConfiguration args) fun _ =>
          Exec.bind (extractText w args) fun text =>
            Exec.bind (printPreview args text) fun _ =>
              Exec.bind (synthesize w args text) fun result => saveAudio w args result) := rfl

theorem printConfiguration_eq (args : PDFToAudioArgs) :
    printConfiguration args = (configurationEvents args, .ret ()) := by
  unfold configurationEvents printConfiguration
  split <;> rfl

theorem printPreview_eq (args : PDFToAudioArgs) (text : String) :
    printPreview args text = (previewEvents args text, .ret ()) := by
  unfold previewEvents printPreview
  split <;> rfl

/-- The ways a run of `main` ends, phase by phase. -/
theorem main_cases (w : World) (p : String) (argv : List String) :
    (∃ tp c, parseArgs w p argv = (tp, .exit c) ∧ main w p argv = ⟨startEvent :: tp, .exit c⟩) ∨
    (∃ tp e, parseArgs w p argv = (tp, .throw e) ∧
      main w p argv = ⟨startEvent :: tp ++ errorReport e, .exit 1⟩) ∨
    (∃ tp args, parseArgs w p argv = (tp, .ret args) ∧
      ((∃ te e, extractText w args = (te, .throw e) ∧
          main w p argv = ⟨extractionTrace tp args te ++ errorReport e, .exit 1⟩) ∨
       (∃ te text, extractText w args = (te, .ret text) ∧
          ((∃ ts e, synthesize w args text = (ts, .throw e) ∧
              main w p argv = ⟨synthesisTrace tp args te text ts ++ errorReport e, .exit 1⟩) ∨
           (∃ ts result, synthesize w args text = (ts, .ret result) ∧
              ((∃ tv, saveAudio w args result = (tv, .ret ()) ∧
                  main w p argv = ⟨synthesisTrace tp args te text ts ++ tv, .exit 0⟩) ∨
               (∃ tv e, saveAudio w args result = (tv, .throw e) ∧
                  main w p argv =
                    ⟨synthesisTrace tp args te text ts ++ tv ++ errorReport e, .exit 1⟩) ∨
               (∃ tv, saveAudio w args result = (tv, .undefined) ∧
                  main w p argv = ⟨synthesisTrace tp args te text ts ++ tv, .undefined⟩))))))) := by
  unfold main
  rw [mainBody_eq]
  rcases hP : parseArgs w p argv with ⟨tp, cp⟩
  cases cp with
  | exit c => left; exact ⟨tp, c, rfl, by simp [Exec.after]⟩
  | throw e => right; left; exact ⟨tp, e, rfl, by simp [Exec.after]⟩
  | undefined =>
    exfalso
    rcases parseArgs_cases w p argv with ⟨a, h⟩ | ⟨e, h⟩ | ⟨e, q, h⟩ | ⟨_, h⟩ | ⟨_, h⟩ |
      ⟨x, _, h⟩ | h | ⟨q, _, h⟩ <;> rw [hP] at h <;> simp at h
  | ret args =>
    right; right
    refine ⟨tp, args, rfl, ?_⟩
    simp only [bind_ret, printConfiguration_eq]
    rcases hE : extractText w args with ⟨te, ce⟩
    cases ce with
    | exit c =>
      exfalso
      obtain ⟨rest, _, _, h⟩ := extractText_cases w args
      rcases h with ⟨text, raw, _, h⟩ | ⟨e, h⟩ <;> rw [hE] at h <;> simp at h
    | undefined =>
      exfalso
      obtain ⟨rest, _, _, h⟩ := extractText_cases w args
      rcases h with ⟨text, raw, _, h⟩ | ⟨e, h⟩ <;> rw [hE] at h <;> simp at h
    | throw e =>
      left
      exact ⟨te, e, rfl, by simp [Exec.after, extractionTrace]⟩
    | ret text =>
      right
      refine ⟨te, text, rfl, ?_⟩
      simp only [bind_ret, printPreview_eq]
      rcases hS : synthesize w args text with ⟨ts, cs⟩
      cases cs with
      | exit c =>
        exfalso
        rcases synthesize_cases w args text with ⟨e, _, h⟩ | ⟨e, _, h⟩ | ⟨e, _, _, h⟩ |
          ⟨e, st, _, _, _, h⟩ | ⟨st, r, _, _, _, h⟩ <;> rw [hS] at h <;> simp at h
      | undefined =>
        exfalso
        rcases synthesize_cases w args text with ⟨e, _, h⟩ | ⟨e, _, h⟩ | ⟨e, _, _, h⟩ |
          ⟨e, st, _, _, _, h⟩ | ⟨st, r, _, _, _, h⟩ <;> rw [hS] at h <;> simp at h
      | throw e =>
        left
        exact ⟨ts, e, rfl, by simp [Exec.after, extractionTrace, synthesisTrace]⟩
      | ret result =>
        right
        refine ⟨ts, result, rfl, ?_⟩
        simp only [bind_ret]
        rcases hV : saveAudio w args result with ⟨tv, cv⟩
        cases cv with
        | exit c =>
          exfalso
          rcases saveAudio_cases w args result with ⟨_, h⟩ | ⟨d, ds, _, _, h⟩
          · rw [hV] at h; simp at h
          · rcases h with ⟨e, _, h⟩ | ⟨_, ⟨ts1, _, h⟩ | ⟨_, h⟩⟩ <;> rw [hV] at h <;> simp at h
        | ret u =>
          left
          exact ⟨tv, rfl, by simp [Exec.after, extractionTrace, synthesisTrace]⟩
        | throw e =>
          right; left
          exact ⟨tv, e, rfl, by simp [Exec.after, extractionTrace, synthesisTrace]⟩
        | undefined =>
          right; right
          exact ⟨tv, rfl, by simp [Exec.after, extractionTrace, synthesisTrace]⟩

/-! ## Arithmetic of the duration display -/

theorem truncate_eq_floor (q : Rat) (hq : 0 ≤ q) : truncate q = ⌊q⌋ := by
  unfold truncate
  rw [Rat.floor_def]
  exact Int.tdiv_eq_ediv (Rat.num_nonneg.2 hq) (Int.ofNat_nonneg _)

theorem floor_div_sixty (q : Rat) : ⌊q / 60⌋ = ⌊q⌋ / 60 := by
  rw [Int.floor_eq_iff]
  have h1 : ((⌊q⌋ : Int) : Rat) ≤ q := Int.floor_le q
  have h2 : q < ((⌊q⌋ : Int) : Rat) + 1 := Int.lt_floor_add_one q
  have h3 : 60 * (⌊q⌋ / 60) ≤ ⌊q⌋ := by
    have := Int.emod_nonneg ⌊q⌋ (show (60 : Int) ≠ 0 by norm_num)
    have := Int.emod_add_ediv ⌊q⌋ 60
    omega
  have h4 : ⌊q⌋ < 60 * (⌊q⌋ / 60) + 60 := by
    have := Int.emod_lt_of_pos ⌊q⌋ (show (0 : Int) < 60 by norm_num)
    have := Int.emod_add_ediv ⌊q⌋ 60
    omega
  have h3r : (60 : Rat) * ((⌊q⌋ / 60 : Int) : Rat) ≤ ((⌊q⌋ : Int) : Rat) := by exact_mod_cast h3
  have h4r : ((⌊q⌋ : Int) : Rat) + 1 ≤ 60 * ((⌊q⌋ / 60 : Int) : Rat) + 60 := by exact_mod_cast h4
  constructor
  · rw [le_div_iff₀ (by norm_num)]; linarith
  · rw [div_lt_iff₀ (by norm_num)]; linarith

/-! ## The record parseArgs returns -/

theorem validateArgs_ret (w : World) (p : String) (a0 a : PDFToAudioArgs) (t : List Event)
    (h : validateArgs w p a0 = (t, .ret a)) :
    a0.pdf_path ≠ "" ∧ w.fileExists a0.pdf_path = .ok true ∧ t = [.fsExists a0.pdf_path] ∧
      a = { a0 with output_path :=
              if a0.output_path = "" then stem a0.pdf_path ++ ".wav" else a0.output_path } := by
  unfold validateArgs at h
  split at h
  · simp at h
  · rename_i hpdf
    split at h
    · simp at h
    · simp at h
    · rename_i hex
      refine ⟨hpdf, hex, ?_⟩
      split at h
      · rename_i hout
        simp only [Prod.mk.injEq, Control.ret.injEq] at h
        exact ⟨h.1.symm, by rw [← h.2]; simp [hout]⟩
      · rename_i hout
        simp only [Prod.mk.injEq, Control.ret.injEq] at h
        exact ⟨h.1.symm, by rw [← h.2]; simp [hout]⟩

/-- The record `parseArgs` returns for the tokens of a sequence of options. -/
theorem parseArgs_tokensOf_ret (w : World) (p : String) (items : List Item) (t : List Event)
    (a : PDFToAudioArgs) (h : parseArgs w p (tokensOf items) = (t, .ret a)) :
    ∃ a0, applyItems w {} items = .ok a0 ∧ a0.pdf_path ≠ "" ∧
      w.fileExists a0.pdf_path = .ok true ∧
      a = { a0 with output_path :=
              if a0.output_path = "" then stem a0.pdf_path ++ ".wav" else a0.output_path } := by
  unfold parseArgs at h
  split at h
  · simp at h
  · have hl := parseLoop_tokensOf w p items [] {}
    simp only [List.append_nil] at hl
    rw [hl] at h
    cases happ : applyItems w {} items with
    | error e => simp [happ] at h
    | ok a0 =>
      simp only [happ, parseLoop, bind_ret, Exec.after, List.nil_append] at h
      obtain ⟨h1, h2, _, h4⟩ := validateArgs_ret w p a0 a _ h
      exact ⟨a0, rfl, h1, h2, h4⟩

/-- The stored value of the last occurrence of an option, in the record at
the end of the option loop. -/
theorem parseArgs_last (w : World) (p : String) (pre post : List Item) (o : ValueOption)
    (v : String) (t : List Event) (a : PDFToAudioArgs)
    (hpost : ∀ v1, Item.value o v1 ∉ post)
    (h : parseArgs w p (tokensOf (pre ++ .value o v :: post)) = (t, .ret a)) :
    ∃ a0, Stores w a0 o v ∧
      a = { a0 with output_path :=
              if a0.output_path = "" then stem a0.pdf_path ++ ".wav" else a0.output_path } := by
  obtain ⟨a0, happ, _, _, ha⟩ := parseArgs_tokensOf_ret w p _ t a h
  exact ⟨a0, applyItems_last w pre post o v {} a0 hpost happ, ha⟩

/-- The fields of the record `parseArgs` returns whose option the argument
list does not contain keep the value of the default record. -/
theorem parseArgs_absent (w : World) (p : String) (argv : List String) (t : List Event)
    (a : PDFToAudioArgs) (h : parseArgs w p argv = (t, .ret a)) :
    ∃ a0 : PDFToAudioArgs,
      a = { a0 with output_path :=
              if a0.output_path = "" then stem a0.pdf_path ++ ".wav" else a0.output_path } ∧
      ("--pdf" ∉ argv → a0.pdf_path = "") ∧
      ("--output" ∉ argv → a0.output_path = "") ∧
      ("--first-page" ∉ argv → a0.first_page = -1) ∧
      ("--last-page" ∉ argv → a0.last_page = -1) ∧
      ("--voice-style" ∉ argv → a0.voice_style = "../assets/voice_styles/M1.json") ∧
      ("--onnx-dir" ∉ argv → a0.onnx_dir = "../assets/onnx") ∧
      ("--total-step" ∉ argv → a0.total_step = 5) ∧
      ("--speed" ∉ argv → a0.speed = 1.05) ∧
      ("--pdftotext-path" ∉ argv → a0.pdftotext_path = "") ∧
      ("--remove-footnotes" ∉ argv → a0.remove_footnotes = false) ∧
      ("--debug" ∉ argv → a0.debug = false) ∧
      ("--quiet" ∉ argv → a0.verbose = true) := by
  obtain ⟨items, a0, hargv, _, happ, _, _, _, ha⟩ := (parseArgs_ret_iff w p argv t a).1 h
  have hf := applyItems_frame w items {} a0 happ
  have hv : ∀ (o : ValueOption), o.token ∉ argv → ∀ v, Item.value o v ∉ items :=
    fun o ho v hm => ho (hargv ▸ token_mem_tokensOf_value hm)
  have hs : ∀ (s : Switch), s.token ∉ argv → Item.switch s ∉ items :=
    fun s ho hm => ho (hargv ▸ token_mem_tokensOf_switch hm)
  refine ⟨a0, ha, ?_, ?_, ?_, ?_, ?_, ?_, ?_, ?_, ?_, ?_, ?_, ?_⟩
  · intro hn; exact hf.1 (hv .pdf hn)
  · intro hn; exact hf.2.1 (hv .output hn)
  · intro hn; exact hf.2.2.1 (hv .first_page hn)
  · intro hn; exact hf.2.2.2.1 (hv .last_page hn)
  · intro hn; exact hf.2.2.2.2.1 (hv .voice_style hn)
  · intro hn; exact hf.2.2.2.2.2.1 (hv .onnx_dir hn)
  · intro hn; exact hf.2.2.2.2.2.2.1 (hv .total_step hn)
  · intro hn; exact hf.2.2.2.2.2.2.2.1 (hv .speed hn)
  · intro hn; exact hf.2.2.2.2.2.2.2.2.1 (hv .pdftotext_path hn)
  · intro hn; exact hf.2.2.2.2.2.2.2.2.2.1 (hs .remove_footnotes hn)
  · intro hn; exact hf.2.2.2.2.2.2.2.2.2.2.1 (hs .debug hn)
  · intro hn; exact hf.2.2.2.2.2.2.2.2.2.2.2 (hs .quiet hn)

theorem append_wav_ne_empty (s : String) : s ++ ".wav" ≠ "" := by
  intro h
  have := congrArg String.length h
  simp only [String.length_append] at this
  have h4 : ".wav".length = 4 := by decide
  have h0 : "".length = 0 := by decide
  omega

/-- A switch that occurs in the sequence is set in the record. -/
theorem applyItems_switch (w : World) (items : List Item) (a a1 : PDFToAudioArgs)
    (h : applyItems w a items = .ok a1) :
    ((a.remove_footnotes = true ∨ Item.switch .remove_footnotes ∈ items) →
        a1.remove_footnotes = true) ∧
    ((a.debug = true ∨ Item.switch .debug ∈ items) → a1.debug = true) ∧
    ((a.verbose = false ∨ Item.switch .quiet ∈ items) → a1.verbose = false) := by
  induction items generalizing a with
  | nil => simp [applyItems] at h; subst h; simp
  | cons it rest ih =>
    simp only [applyItems] at h
    cases hit : applyItem w a it with
    | error e => simp [hit] at h
    | ok a2 =>
      simp only [hit] at h
      have hi := ih a2 h
      have hf := applyItem_frame w a a2 it hit
      cases it with
      | value o v =>
        have h1 := hf.2.2.2.2.2.2.2.2.2.1 (by simp)
        have h2 := hf.2.2.2.2.2.2.2.2.2.2.1 (by simp)
        have h3 := hf.2.2.2.2.2.2.2.2.2.2.2 (by simp)
        simp only [List.mem_cons, false_or, reduceCtorEq] at *
        rw [h1, h2, h3] at hi
        exact hi
      | switch s =>
        cases s <;> simp only [applyItem, Except.ok.injEq] at hit <;> subst hit <;>
          simp_all

/-! ## The stem of a path -/

theorem takeWhile_append_stop {α : Type} (q : α → Bool) (a b : List α) (x : α)
    (ha : ∀ y ∈ a, q y = true) (hx : q x = false) :
    (a ++ x :: b).takeWhile q = a := by
  induction a with
  | nil => simp [List.takeWhile, hx]
  | cons y rest ih =>
    have hy : q y = true := ha y (List.mem_cons_self _ _)
    simp only [List.cons_append, List.takeWhile_cons, hy, if_true]
    rw [ih (fun z hz => ha z (List.mem_cons_of_mem _ hz))]

theorem takeWhile_all {α : Type} (q : α → Bool) (a : List α) (ha : ∀ y ∈ a, q y = true) :
    a.takeWhile q = a := by
  induction a with
  | nil => rfl
  | cons y rest ih =>
    have hy : q y = true := ha y (List.mem_cons_self _ _)
    simp only [List.takeWhile_cons, hy, if_true]
    rw [ih (fun z hz => ha z (List.mem_cons_of_mem _ hz))]

/-- The file name of a path: what follows the last separator. -/
theorem filename_eq (dir name : List Char) (hdir : dir = [] ∨ ∃ d, dir = d ++ ['/'])
    (hname : '/' ∉ name) : filename (String.mk (dir ++ name)) = name := by
  unfold filename
  have hto : (String.mk (dir ++ name)).toList = dir ++ name := rfl
  rw [hto]
  have hq : ∀ y ∈ name.reverse, (fun c : Char => decide (c ≠ '/')) y = true := by
    intro y hy
    have : y ≠ '/' := fun h => hname (h ▸ List.mem_reverse.1 hy)
    simpa using this
  rcases hdir with h | ⟨d, h⟩
  · subst h
    simp only [List.nil_append]
    rw [takeWhile_all _ _ hq, List.reverse_reverse]
  · subst h
    have : (d ++ ['/'] ++ name).reverse = name.reverse ++ '/' :: d.reverse := by simp
    simp only [this]
    rw [takeWhile_append_stop _ _ _ _ hq (by simp), List.reverse_reverse]

/-- The stem of a path whose file name is `base.ext`: the directory and the
final extension are removed. -/
theorem stem_eq (dir base ext : List Char) (hdir : dir = [] ∨ ∃ d, dir = d ++ ['/'])
    (hbase : '/' ∉ base) (hext : '/' ∉ ext) (hdot : '.' ∉ ext) (hne : base ≠ [])
    (hdots : ¬ (base = ['.'] ∧ ext = [])) :
    stem (String.mk (dir ++ (base ++ '.' :: ext))) = String.mk base := by
  have hname : '/' ∉ base ++ '.' :: ext := by
    simp only [List.mem_append, List.mem_cons, not_or]
    exact ⟨hbase, by decide, hext⟩
  unfold stem
  simp only [filename_eq dir _ hdir hname]
  have h1 : ¬ (base ++ '.' :: ext = ['.'] ∨ base ++ '.' :: ext = ['.', '.']) := by
    rintro (h | h)
    · cases base with
      | nil => exact hne rfl
      | cons b rest =>
        simp only [List.cons_append, List.cons.injEq] at h
        cases rest <;> simp at h
    · cases base with
      | nil => exact hne rfl
      | cons b rest =>
        simp only [List.cons_append, List.cons.injEq] at h
        cases rest with
        | nil =>
          simp only [List.nil_append, List.cons.injEq] at h
          exact hdots ⟨by rw [h.1], h.2.2⟩
        | cons c r2 =>
          simp only [List.cons_append, List.cons.injEq] at h
          cases r2 <;> simp at h
  have h2 : '.' ∈ base ++ '.' :: ext := by simp
  have hq : ∀ y ∈ ext.reverse, (fun c : Char => decide (c ≠ '.')) y = true := by
    intro y hy
    have : y ≠ '.' := fun h => hdot (h ▸ List.mem_reverse.1 hy)
    simpa using this
  have h3 : (base ++ '.' :: ext).reverse = ext.reverse ++ '.' :: base.reverse := by simp
  rw [if_neg h1, if_neg (not_not.2 h2), h3, takeWhile_append_stop _ _ _ _ hq (by simp)]
  have h4 : (base ++ '.' :: ext).length - ext.reverse.length - 1 = base.length := by
    simp only [List.length_append, List.length_cons, List.length_reverse]
    omega
  rw [h4, List.take_left']
  · rw [if_neg hne]
  · rfl

/-! ## Claims about parseArgs -/

/-- C5 fails for `--output` with an empty value: the list is accepted and the
returned `output_path` is the default "doc.wav", not the empty value of the
last occurrence. -/
theorem empty_output_value_replaced :
    parseArgs demoWorld "prog" ["--pdf", "doc.pdf", "--output", "out.wav", "--output", ""] =
      ([.fsExists "doc.pdf"], .ret { pdf_path := "doc.pdf", output_path := "doc.wav" }) ∧
    ["--pdf", "doc.pdf", "--output", "out.wav", "--output", ""] =
      tokensOf [.value .pdf "doc.pdf", .value .output "out.wav", .value .output ""] ∧
    ("doc.wav" : String) ≠ "" := by
  decide!

/-- C5, amended: in a record returned by `parseArgs`, an option whose token
does not occur in the argument list has its documented default (total_step
5, speed 1.05, first_page and last_page -1, the default voice style and model
directory, remove_footnotes and debug false, verbose true), and an option
given with a value holds what its last occurrence gave: the string itself,
or its conversion by `std::stoi` / `std::stof`; except that for `--output`
an empty last value is replaced by the default output path. A switch that
is given is set. -/
theorem parseArgs_defaults_and_last_values (w : World) (p : String) (argv : List String)
    (t : List Event) (a : PDFToAudioArgs) (h : parseArgs w p argv = (t, .ret a)) :
    ("--total-step" ∉ argv → a.total_step = 5) ∧
    ("--speed" ∉ argv → a.speed = 1.05) ∧
    ("--first-page" ∉ argv → a.first_page = -1) ∧
    ("--last-page" ∉ argv → a.last_page = -1) ∧
    ("--voice-style" ∉ argv → a.voice_style = "../assets/voice_styles/M1.json") ∧
    ("--onnx-dir" ∉ argv → a.onnx_dir = "../assets/onnx") ∧
    ("--remove-footnotes" ∉ argv → a.remove_footnotes = false) ∧
    ("--debug" ∉ argv → a.debug = false) ∧
    ("--quiet" ∉ argv → a.verbose = true) ∧
    (∀ pre post v, argv = tokensOf (pre ++ .value .total_step v :: post) →
        (∀ v1, Item.value .total_step v1 ∉ post) → stoi v = .ok a.total_step) ∧
    (∀ pre post v, argv = tokensOf (pre ++ .value .speed v :: post) →
        (∀ v1, Item.value .speed v1 ∉ post) → w.stof v = .ok a.speed) ∧
    (∀ pre post v, argv = tokensOf (pre ++ .value .first_page v :: post) →
        (∀ v1, Item.value .first_page v1 ∉ post) → stoi v = .ok a.first_page) ∧
    (∀ pre post v, argv = tokensOf (pre ++ .value .last_page v :: post) →
        (∀ v1, Item.value .last_page v1 ∉ post) → stoi v = .ok a.last_page) ∧
    (∀ pre post v, argv = tokensOf (pre ++ .value .voice_style v :: post) →
        (∀ v1, Item.value .voice_style v1 ∉ post) → a.voice_style = v) ∧
    (∀ pre post v, argv = tokensOf (pre ++ .value .onnx_dir v :: post) →
        (∀ v1, Item.value .onnx_dir v1 ∉ post) → a.onnx_dir = v) ∧
    (∀ pre post v, argv = tokensOf (pre ++ .value .pdf v :: post) →
        (∀ v1, Item.value .pdf v1 ∉ post) → a.pdf_path = v) ∧
    (∀ pre post v, argv = tokensOf (pre ++ .value .pdftotext_path v :: post) →
        (∀ v1, Item.value .pdftotext_path v1 ∉ post) → a.pdftotext_path = v) ∧
    (∀ pre post v, argv = tokensOf (pre ++ .value .output v :: post) →
        (∀ v1, Item.value .output v1 ∉ post) → a.output_path = if v = "" then stem a.pdf_path ++ ".wav" else v) ∧
    (∀ items, argv = tokensOf items →
      (Item.switch .remove_footnotes ∈ items → a.remove_footnotes = true) ∧
      (Item.switch .debug ∈ items → a.debug = true) ∧
      (Item.switch .quiet ∈ items → a.verbose = false)) := by
  obtain ⟨a0, ha, _, _, hfp, hlp, hvs, hod, hts, hsp, _, hrf, hdb, hq⟩ :=
    parseArgs_absent w p argv t a h
  have key : ∀ (o : ValueOption) (pre post : List Item) (v : String),
      argv = tokensOf (pre ++ .value o v :: post) → (∀ v1, Item.value o v1 ∉ post) →
      ∃ a1, Stores w a1 o v ∧
        a = { a1 with output_path :=
                if a1.output_path = "" then stem a1.pdf_path ++ ".wav" else a1.output_path } :=
    fun o pre post v hargv hpost => parseArgs_last w p pre post o v t a hpost (hargv ▸ h)
  refine ⟨?_, ?_, ?_, ?_, ?_, ?_, ?_, ?_, ?_, ?_, ?_, ?_, ?_, ?_, ?_, ?_, ?_, ?_, ?_⟩
  · intro hn; rw [ha]; exact hts hn
  · intro hn; rw [ha]; exact hsp hn
  · intro hn; rw [ha]; exact hfp hn
  · intro hn; rw [ha]; exact hlp hn
  · intro hn; rw [ha]; exact hvs hn
  · intro hn; rw [ha]; exact hod hn
  · intro hn; rw [ha]; exact hrf hn
  · intro hn; rw [ha]; exact hdb hn
  · intro hn; rw [ha]; exact hq hn
  · intro pre post v h1 h2
    obtain ⟨a1, hs, ha1⟩ := key .total_step pre post v h1 h2
    rw [ha1]; exact hs
  · intro pre post v h1 h2
    obtain ⟨a1, hs, ha1⟩ := key .speed pre post v h1 h2
    rw [ha1]; exact hs
  · intro pre post v h1 h2
    obtain ⟨a1, hs, ha1⟩ := key .first_page pre post v h1 h2
    rw [ha1]; exact hs
  · intro pre post v h1 h2
    obtain ⟨a1, hs, ha1⟩ := key .last_page pre post v h1 h2
    rw [ha1]; exact hs
  · intro pre post v h1 h2
    obtain ⟨a1, hs, ha1⟩ := key .voice_style pre post v h1 h2
    rw [ha1]; exact hs
  · intro pre post v h1 h2
    obtain ⟨a1, hs, ha1⟩ := key .onnx_dir pre post v h1 h2
    rw [ha1]; exact hs
  · intro pre post v h1 h2
    obtain ⟨a1, hs, ha1⟩ := key .pdf pre post v h1 h2
    rw [ha1]; exact hs
  · intro pre post v h1 h2
    obtain ⟨a1, hs, ha1⟩ := key .pdftotext_path pre post v h1 h2
    rw [ha1]; exact hs
  · intro pre post v h1 h2
    obtain ⟨a1, hs, ha1⟩ := key .output pre post v h1 h2
    simp only [Stores] at hs
    rw [ha1]
    simp only [hs]
  · intro items hargv
    obtain ⟨a1, happ, _, _, ha1⟩ := parseArgs_tokensOf_ret w p items t a (hargv ▸ h)
    have hsw := applyItems_switch w items {} a1 happ
    rw [ha1]
    exact ⟨fun hm => hsw.1 (Or.inr hm), fun hm => hsw.2.1 (Or.inr hm),
      fun hm => hsw.2.2 (Or.inr hm)⟩

/-- An accepted argument list for C5: `--total-step` is given twice, the
second value is kept; the speed, not given, is the default. -/
theorem parseArgs_defaults_and_last_values_witness :
    parseArgs demoWorld "prog"
        ["--pdf", "doc.pdf", "--total-step", "7", "--total-step", "9"] =
      ([.fsExists "doc.pdf"],
        .ret { pdf_path := "doc.pdf", output_path := "doc.wav", total_step := 9 }) ∧
    (1.05 : Rat) = 1.05 ∧ stoi "9" = .ok 9 :=
  have h : parseArgs demoWorld "prog"
        ["--pdf", "doc.pdf", "--total-step", "7", "--total-step", "9"] =
      ([.fsExists "doc.pdf"],
        .ret { pdf_path := "doc.pdf", output_path := "doc.wav", total_step := 9 }) := by
    decide!
  have hc := parseArgs_defaults_and_last_values demoWorld "prog" _ _ _ h
  ⟨h, hc.2.1 (by decide),
    hc.2.2.2.2.2.2.2.2.2.1 [.value .pdf "doc.pdf", .value .total_step "7"] [] "9" rfl
      (by simp)⟩

/-- C6: without `--output` in the argument list, the output path of the
record `parseArgs` returns is the stem of the PDF path followed by ".wav":
for a path `dir/base.ext` (or `base.ext`) it is `base.wav`, the directory and
the final extension removed; when the last `--output` value is not empty, the
output path is that value; the output path of a returned record is never
empty. -/
theorem parseArgs_output_path (w : World) (p : String) (argv : List String)
    (t : List Event) (a : PDFToAudioArgs) (h : parseArgs w p argv = (t, .ret a)) :
    ("--output" ∉ argv → a.output_path = stem a.pdf_path ++ ".wav") ∧
    (∀ pre post v, argv = tokensOf (pre ++ .value .output v :: post) →
        (∀ v1, Item.value .output v1 ∉ post) → v ≠ "" → a.output_path = v) ∧
    a.output_path ≠ "" ∧
    (∀ dir base ext : List Char, "--output" ∉ argv →
      a.pdf_path = String.mk (dir ++ (base ++ '.' :: ext)) →
      (dir = [] ∨ ∃ d, dir = d ++ ['/']) → '/' ∉ base → '/' ∉ ext → '.' ∉ ext →
      base ≠ [] → ¬ (base = ['.'] ∧ ext = []) →
      a.output_path = String.mk base ++ ".wav") := by
  obtain ⟨a0, ha, _, hout, _⟩ := parseArgs_absent w p argv t a h
  have hdefault : "--output" ∉ argv → a.output_path = stem a.pdf_path ++ ".wav" := by
    intro hn
    rw [ha]
    simp [hout hn]
  refine ⟨?_, ?_, ?_, ?_⟩
  rotate_left 3
  · intro dir base ext hn hpath hdir hb he hd hne hdots
    rw [hdefault hn, hpath, stem_eq dir base ext hdir hb he hd hne hdots]
  · intro hn
    rw [ha]
    simp [hout hn]
  · intro pre post v hargv hpost hv
    obtain ⟨a1, hs, ha1⟩ := parseArgs_last w p pre post .output v t a hpost (hargv ▸ h)
    simp only [Stores] at hs
    rw [ha1]
    simp [hs, hv]
  · rw [ha]
    by_cases he : a0.output_path = ""
    · simp only [he, if_true]
      exact append_wav_ne_empty _
    · simp only [he, if_false]
      exact he

/-- An accepted argument list for C6: the PDF in a directory, no `--output`. -/
theorem parseArgs_output_path_witness :
    parseArgs demoWorld "prog" ["--pdf", "books/doc.v2.pdf", "--quiet"] =
      ([.fsExists "books/doc.v2.pdf"],
        .ret { pdf_path := "books/doc.v2.pdf", output_path := "doc.v2.wav",
               verbose := false }) ∧
    "doc.v2.wav" = stem "books/doc.v2.pdf" ++ ".wav" :=
  have h : parseArgs demoWorld "prog" ["--pdf", "books/doc.v2.pdf", "--quiet"] =
      ([.fsExists "books/doc.v2.pdf"],
        .ret { pdf_path := "books/doc.v2.pdf", output_path := "doc.v2.wav",
               verbose := false }) := by
    decide!
  ⟨h, (parseArgs_output_path demoWorld "prog" _ _ _ h).1 (by decide)⟩

/-! ## Claim about the duration display -/

/-- C10: for a duration `d ≥ 0`, the minutes and seconds of the "Duration"
line are `m = ⌊d / 60⌋` and `s = ⌊d⌋ mod 60`, so `0 ≤ s ≤ 59` and
`60 * m + s = ⌊d⌋`; and when `d` fits an `int` the verbose report prints
exactly these two values. -/
theorem duration_line_consistent (d : Rat) (hd : 0 ≤ d) :
    (durationParts d).1 = ⌊d / 60⌋ ∧ (durationParts d).2 = ⌊d⌋ % 60 ∧
    0 ≤ (durationParts d).2 ∧ (durationParts d).2 ≤ 59 ∧
    60 * (durationParts d).1 + (durationParts d).2 = ⌊d⌋ ∧
    (∀ (args : PDFToAudioArgs) (sr : Int), args.verbose = true → d < 2147483648 →
      printSummary args d sr =
        ([.out "\n=== Conversion completed successfully! ===\n",
          .out "Output file: ", .outStr args.output_path, .out "\n",
          .out "Duration: ", .outInt ⌊d / 60⌋, .out "m ", .outInt (⌊d⌋ % 60), .out "s\n",
          .out "Sample rate: ", .outInt sr, .out " Hz\n"], .ret ())) := by
  have hf : 0 ≤ ⌊d⌋ := Int.floor_nonneg.2 hd
  have h1 : (durationParts d).1 = ⌊d / 60⌋ := by
    simp only [durationParts]
    exact truncate_eq_floor _ (div_nonneg hd (by norm_num))
  have h2 : (durationParts d).2 = ⌊d⌋ % 60 := by
    simp only [durationParts]
    rw [truncate_eq_floor d hd]
    exact Int.tmod_eq_emod hf (by norm_num)
  have hm := Int.emod_add_ediv ⌊d⌋ 60
  have hlt := Int.emod_lt_of_pos ⌊d⌋ (show (0 : Int) < 60 by norm_num)
  have hnn := Int.emod_nonneg ⌊d⌋ (show (60 : Int) ≠ 0 by norm_num)
  refine ⟨h1, h2, ?_, ?_, ?_, ?_⟩
  · rw [h2]; exact hnn
  · rw [h2]; omega
  · rw [h1, h2, floor_div_sixty]; omega
  · intro args sr hv hmax
    have hfl : ⌊d⌋ < 2147483648 := by
      rw [Int.floor_lt]; exact_mod_cast hmax
    have hdef : DisplayDefined d := by
      unfold DisplayDefined INT_MIN INT_MAX
      rw [truncate_eq_floor d hd, truncate_eq_floor _ (div_nonneg hd (by norm_num)),
        floor_div_sixty]
      omega
    rcases printSummary_cases args d sr with ⟨hq, _⟩ | ⟨_, _, h⟩ | ⟨_, hnd, _⟩
    · rw [hv] at hq; simp at hq
    · rw [h, summaryEvents, h1, h2]
    · exact absurd hdef hnd

/-- A duration for C10: 125.5 s is shown as 2 m 5 s. -/
theorem duration_line_consistent_witness :
    (0 : Rat) ≤ 251 / 2 ∧
      60 * (durationParts (251 / 2)).1 + (durationParts (251 / 2)).2 = ⌊(251 / 2 : Rat)⌋ ∧
      durationParts (251 / 2) = (2, 5) :=
  ⟨by norm_num, (duration_line_consistent (251 / 2) (by norm_num)).2.2.2.2.1, by decide!⟩

/-! ## The events of a run before the audio is saved -/

theorem configurationEvents_isPrint (args : PDFToAudioArgs) :
    ∀ e ∈ configurationEvents args, e.isPrint = true := by
  intro e he
  unfold configurationEvents printConfiguration pagesLine at he
  split at he
  · split at he
    · simp only [List.cons_append, List.nil_append, List.mem_cons, List.mem_append,
        List.mem_singleton, List.not_mem_nil, or_false] at he
      rcases he with h | h | h | h | h | h | h | h | h | h | h | h | h | h | h | h | h | h |
        h | h | h <;> subst h <;> first | rfl | (split <;> rfl)
    · simp only [List.cons_append, List.nil_append, List.append_nil, List.mem_cons,
        List.mem_singleton, List.not_mem_nil, or_false] at he
      rcases he with h | h | h | h | h | h | h | h | h | h | h | h | h | h | h | h <;>
        subst h <;> rfl
  · simp at he

theorem previewEvents_isPrint (args : PDFToAudioArgs) (text : String) :
    ∀ e ∈ previewEvents args text, e.isPrint = true ∧ e ≠ .out "  Pages: " := by
  intro e he
  unfold previewEvents printPreview at he
  split at he
  · simp only [List.mem_cons, List.mem_singleton, List.not_mem_nil, or_false] at he
    rcases he with h | h | h | h | h | h <;> subst h <;> exact ⟨rfl, by simp⟩
  · simp at he

theorem summaryEvents_isPrint (args : PDFToAudioArgs) (d : Rat) (sr : Int) :
    ∀ e ∈ summaryEvents args d sr, e.isPrint = true ∧ e ≠ .out "  Pages: " := by
  intro e he
  unfold summaryEvents at he
  simp only [List.mem_cons, List.mem_singleton, List.not_mem_nil, or_false] at he
  rcases he with h | h | h | h | h | h | h | h | h | h | h | h <;> subst h <;>
    exact ⟨rfl, by simp⟩

/-- The trace of `parseArgs` when it returns. -/
theorem parseArgs_ret_trace (w : World) (p : String) (argv : List String) (tp : List Event)
    (args : PDFToAudioArgs) (h : parseArgs w p argv = (tp, .ret args)) :
    tp = [.fsExists args.pdf_path] := by
  obtain ⟨_, a0, _, _, _, _, _, ht, ha⟩ := (parseArgs_ret_iff w p argv tp args).1 h
  rw [ht, ha]

/-- The shape of the trace of `extractText`. -/
theorem extractText_trace (w : World) (args : PDFToAudioArgs) (te : List Event)
    (c : Control String) (h : extractText w args = (te, c)) :
    ∃ rest, te = .timer "Extracting text from PDF" :: extractionEvent args :: rest ∧
      (∀ e ∈ rest, e.isDebugStep = true ∧ e ≠ .out "  Pages: ") := by
  obtain ⟨rest, h1, h2, h3⟩ := extractText_cases w args
  refine ⟨rest, ?_, fun e he => ⟨h1 e he, h2 e he⟩⟩
  rcases h3 with ⟨text, raw, _, h3⟩ | ⟨e, h3⟩ <;> rw [h] at h3 <;>
    exact (Prod.mk.inj h3).1

/-- Every event up to the end of the extraction is expected. -/
theorem extractionTrace_expected (w : World) (p : String) (argv : List String)
    (tp te : List Event) (args : PDFToAudioArgs) (c : Control String)
    (hparse : parseArgs w p argv = (tp, .ret args)) (hext : extractText w args = (te, c)) :
    ∀ e ∈ extractionTrace tp args te, Expected args e := by
  intro e he
  obtain ⟨rest, hte, hrest⟩ := extractText_trace w args te c hext
  rw [extractionTrace, parseArgs_ret_trace w p argv tp args hparse, hte] at he
  simp only [List.cons_append, List.nil_append, List.mem_cons, List.mem_append] at he
  rcases he with h | h | h | h | h | h
  · subst h; exact Or.inl rfl
  · exact Or.inr (Or.inr (Or.inl h))
  · exact Or.inl (configurationEvents_isPrint args e h)
  · exact Or.inr (Or.inr (Or.inr (Or.inl ⟨_, h⟩)))
  · exact Or.inr (Or.inr (Or.inr (Or.inr (Or.inl h))))
  · exact Or.inr (Or.inl (hrest e h).1)

/-- Every event of `synthesize` is expected. -/
theorem synthesize_expected (w : World) (args : PDFToAudioArgs) (text : String)
    (ts : List Event) (c : Control SynthesisResult) (h : synthesize w args text = (ts, c)) :
    ∀ e ∈ ts, Expected args e := by
  intro e he
  have key : ∀ style, e ∈ loadEvents args ++ [.timer "Synthesizing speech from text",
      .call text style args.total_step args.speed] → Expected args e := by
    intro style hm
    simp only [loadEvents, List.cons_append, List.nil_append, List.mem_cons,
      List.mem_singleton, List.not_mem_nil, or_false] at hm
    rcases hm with h | h | h | h | h | h
    · exact Or.inr (Or.inr (Or.inr (Or.inr (Or.inr (Or.inl h)))))
    · exact Or.inr (Or.inr (Or.inr (Or.inr (Or.inr (Or.inr (Or.inl h))))))
    · subst h; exact Or.inl rfl
    · exact Or.inr (Or.inr (Or.inr (Or.inr (Or.inr (Or.inr (Or.inr (Or.inl h)))))))
    · exact Or.inr (Or.inr (Or.inr (Or.inl ⟨_, h⟩)))
    · exact Or.inr (Or.inr (Or.inr (Or.inr (Or.inr (Or.inr (Or.inr (Or.inr ⟨_, _, h⟩)))))))
  rcases synthesize_cases w args text with ⟨x, _, hs⟩ | ⟨x, _, hs⟩ | ⟨x, _, _, hs⟩ |
    ⟨x, st, _, _, _, hs⟩ | ⟨st, r, _, _, _, hs⟩ <;> rw [h] at hs <;>
    have hts := (Prod.mk.inj hs).1
  · exact key [] (by rw [hts] at he; simp [loadEvents] at he ⊢; exact Or.inl he)
  · exact key [] (by rw [hts] at he; simp [loadEvents] at he ⊢; tauto)
  · exact key [] (by rw [hts] at he; exact List.mem_append_left _ he)
  · exact key st (hts ▸ he)
  · exact key st (hts ▸ he)

/-- Every event up to the end of the synthesis call is expected. -/
theorem synthesisTrace_expected (w : World) (p : String) (argv : List String)
    (tp te ts : List Event) (args : PDFToAudioArgs) (text : String)
    (c : Control SynthesisResult)
    (hparse : parseArgs w p argv = (tp, .ret args))
    (hext : extractText w args = (te, .ret text))
    (hsyn : synthesize w args text = (ts, c)) :
    ∀ e ∈ synthesisTrace tp args te text ts, Expected args e := by
  intro e he
  simp only [synthesisTrace, List.mem_append] at he
  rcases he with (h | h) | h
  · exact extractionTrace_expected w p argv tp te args _ hparse hext e h
  · exact Or.inl (previewEvents_isPrint args text e h).1
  · exact synthesize_expected w args text ts c hsyn e h

/-! ## Claims about the trimming of the synthesised audio -/

theorem expected_not_write (args : PDFToAudioArgs) (e : Event) (h : Expected args e) :
    e.isWrite = false := by
  rcases h with h | h | h | ⟨n, h⟩ | h | h | h | h | ⟨t, s, h⟩
  · cases e <;> simp [Event.isPrint] at h <;> rfl
  · cases e <;> simp [Event.isDebugStep] at h <;> rfl
  all_goals subst h; rfl

theorem filter_isWrite_eq_nil {l : List Event} (h : ∀ e ∈ l, e.isWrite = false) :
    l.filter Event.isWrite = [] := by
  rw [List.filter_eq_nil_iff]
  intro e he
  simp [h e he]

theorem truncate_le (q : Rat) (hq : 0 ≤ q) : (truncate q : Rat) ≤ q := by
  rw [truncate_eq_floor q hq]
  exact Int.floor_le q

theorem nonneg_of_truncate_pos (q : Rat) (h : 0 < truncate q) : 0 ≤ q := by
  by_contra hq
  have hq1 : q < 0 := lt_of_not_ge hq
  have hn : q.num < 0 := Rat.num_neg.2 hq1
  have h1 : 0 ≤ (-q.num).tdiv (q.den : Int) :=
    Int.tdiv_nonneg (by omega) (Int.ofNat_nonneg _)
  rw [Int.neg_tdiv] at h1
  unfold truncate at h
  omega

/-- The writes of a run that reaches the synthesis result `result`, when the
slicing is defined. -/
theorem saveAudio_writes (w : World) (args : PDFToAudioArgs) (result : SynthesisResult)
    (d : Rat) (ds : List Rat) (hdur : result.duration = d :: ds) (hdef : SliceDefined w result) :
    (saveAudio w args result).1.filter Event.isWrite = [writeEvent w args result d] ∧
      (saveAudio w args result).2 ≠ .exit 0 ∧
      ∀ e ∈ (saveAudio w args result).1, e = .getSampleRate ∨ e = writeEvent w args result d ∨
        e = .clearTensorBuffers ∨ (e.isPrint = true ∧ e ≠ .out "  Pages: ") := by
  have hsum : (summaryEvents args d w.getSampleRate).filter Event.isWrite = [] :=
    filter_isWrite_eq_nil fun e he => by
      have := (summaryEvents_isPrint args d w.getSampleRate e he).1
      cases e <;> simp [Event.isPrint] at this <;> rfl
  rcases saveAudio_cases w args result with ⟨hnd, _⟩ | ⟨d1, ds1, hd1, _, hc⟩
  · exact absurd hdef hnd
  · rw [hdur] at hd1
    simp only [List.cons.injEq] at hd1
    obtain ⟨hdd, _⟩ := hd1
    subst hdd
    rcases hc with ⟨e, _, h⟩ | ⟨_, ⟨ts1, hps, h⟩ | ⟨_, h⟩⟩
    · rw [h]; simp [writeEvent, Event.isWrite, List.filter]
    · rw [h]
      rcases printSummary_cases args d w.getSampleRate with ⟨_, h2⟩ | ⟨_, _, h2⟩ | ⟨_, _, h2⟩
      · rw [hps] at h2
        simp only [Prod.mk.injEq] at h2
        rw [h2.1]
        simp [writeEvent, Event.isWrite, List.filter]
      · rw [hps] at h2
        simp only [Prod.mk.injEq] at h2
        rw [h2.1]
        refine ⟨?_, by simp, ?_⟩
        · simp only [List.filter_append, hsum]
          simp [writeEvent, Event.isWrite, List.filter]
        · intro e he
          simp only [List.cons_append, List.nil_append, List.mem_cons, List.mem_append,
            List.mem_singleton, List.not_mem_nil, or_false] at he
          rcases he with he | he | he | he
          · exact Or.inl he
          · exact Or.inr (Or.inl he)
          · exact Or.inr (Or.inr (Or.inr (summaryEvents_isPrint args d w.getSampleRate e he)))
          · exact Or.inr (Or.inr (Or.inl he))
      · rw [hps] at h2; simp at h2
    · rw [h]; simp [writeEvent, Event.isWrite, List.filter]

/-- The ways a run ends once the synthesis call has returned. -/
theorem main_reach_cases (w : World) (p : String) (argv : List String)
    (tp te ts : List Event) (args : PDFToAudioArgs) (text : String) (result : SynthesisResult)
    (hparse : parseArgs w p argv = (tp, .ret args))
    (hext : extractText w args = (te, .ret text))
    (hsyn : synthesize w args text = (ts, .ret result)) :
    (∃ tv, saveAudio w args result = (tv, .ret ()) ∧
      main w p argv = ⟨synthesisTrace tp args te text ts ++ tv, .exit 0⟩) ∨
    (∃ tv e, saveAudio w args result = (tv, .throw e) ∧
      main w p argv = ⟨synthesisTrace tp args te text ts ++ tv ++ errorReport e, .exit 1⟩) ∨
    (∃ tv, saveAudio w args result = (tv, .undefined) ∧
      main w p argv = ⟨synthesisTrace tp args te text ts ++ tv, .undefined⟩) := by
  rcases main_cases w p argv with ⟨tp1, c, h1, _⟩ | ⟨tp1, e, h1, _⟩ | ⟨tp1, args1, h1, h2⟩
  · rw [hparse] at h1; simp at h1
  · rw [hparse] at h1; simp at h1
  · rw [hparse] at h1
    simp only [Prod.mk.injEq, Control.ret.injEq] at h1
    obtain ⟨htp, hargs⟩ := h1
    subst htp; subst hargs
    rcases h2 with ⟨te1, e, h3, _⟩ | ⟨te1, text1, h3, h4⟩
    · rw [hext] at h3; simp at h3
    · rw [hext] at h3
      simp only [Prod.mk.injEq, Control.ret.injEq] at h3
      obtain ⟨hte, htext⟩ := h3
      subst hte; subst htext
      rcases h4 with ⟨ts1, e, h5, _⟩ | ⟨ts1, result1, h5, h6⟩
      · rw [hsyn] at h5; simp at h5
      · rw [hsyn] at h5
        simp only [Prod.mk.injEq, Control.ret.injEq] at h5
        obtain ⟨hts, hres⟩ := h5
        subst hts; subst hres
        exact h6

/-- The ways a run ends when the extraction throws. -/
theorem main_extract_throw (w : World) (p : String) (argv : List String)
    (tp te : List Event) (args : PDFToAudioArgs) (e : Exn)
    (hparse : parseArgs w p argv = (tp, .ret args))
    (hext : extractText w args = (te, .throw e)) :
    main w p argv = ⟨extractionTrace tp args te ++ errorReport e, .exit 1⟩ := by
  rcases main_cases w p argv with ⟨tp1, c, h1, _⟩ | ⟨tp1, e1, h1, _⟩ | ⟨tp1, args1, h1, h2⟩
  · rw [hparse] at h1; simp at h1
  · rw [hparse] at h1; simp at h1
  · rw [hparse] at h1
    simp only [Prod.mk.injEq, Control.ret.injEq] at h1
    obtain ⟨htp, hargs⟩ := h1
    subst htp; subst hargs
    rcases h2 with ⟨te1, e1, h3, hm⟩ | ⟨te1, text1, h3, _⟩
    · rw [hext] at h3
      simp only [Prod.mk.injEq, Control.throw.injEq] at h3
      obtain ⟨hte, he⟩ := h3
      subst hte; subst he
      exact hm
    · rw [hext] at h3; simp at h3

/-- The ways a run ends when loading or the synthesis call throws. -/
theorem main_synthesize_throw (w : World) (p : String) (argv : List String)
    (tp te ts : List Event) (args : PDFToAudioArgs) (text : String) (e : Exn)
    (hparse : parseArgs w p argv = (tp, .ret args))
    (hext : extractText w args = (te, .ret text))
    (hsyn : synthesize w args text = (ts, .throw e)) :
    main w p argv = ⟨synthesisTrace tp args te text ts ++ errorReport e, .exit 1⟩ := by
  rcases main_cases w p argv with ⟨tp1, c, h1, _⟩ | ⟨tp1, e1, h1, _⟩ | ⟨tp1, args1, h1, h2⟩
  · rw [hparse] at h1; simp at h1
  · rw [hparse] at h1; simp at h1
  · rw [hparse] at h1
    simp only [Prod.mk.injEq, Control.ret.injEq] at h1
    obtain ⟨htp, hargs⟩ := h1
    subst htp; subst hargs
    rcases h2 with ⟨te1, e1, h3, _⟩ | ⟨te1, text1, h3, h4⟩
    · rw [hext] at h3; simp at h3
    · rw [hext] at h3
      simp only [Prod.mk.injEq, Control.ret.injEq] at h3
      obtain ⟨hte, htext⟩ := h3
      subst hte; subst htext
      rcases h4 with ⟨ts1, e1, h5, hm⟩ | ⟨ts1, result1, h5, _⟩
      · rw [hsyn] at h5
        simp only [Prod.mk.injEq, Control.throw.injEq] at h5
        obtain ⟨hts, he⟩ := h5
        subst hts; subst he
        exact hm
      · rw [hsyn] at h5; simp at h5

/-- The samples a run hands to `writeWavFile` when the slicing is defined:
the first `n` samples of the buffer, `n` the truncated binary32 product. -/
theorem main_trimmed_write (w : World) (p : String) (argv : List String)
    (tp te ts : List Event) (args : PDFToAudioArgs) (text : String)
    (result : SynthesisResult) (d : Rat) (ds : List Rat)
    (hparse : parseArgs w p argv = (tp, .ret args))
    (hext : extractText w args = (te, .ret text))
    (hsyn : synthesize w args text = (ts, .ret result))
    (hdur : result.duration = d :: ds)
    (h0 : 0 ≤ truncate (floatProduct w.getSampleRate d))
    (hlen : truncate (floatProduct w.getSampleRate d) ≤ (result.wav.length : Int))
    (hint : truncate (floatProduct w.getSampleRate d) ≤ INT_MAX) :
    (main w p argv).trace.filter Event.isWrite =
      [.writeWavFile args.output_path
        (result.wav.take (truncate (floatProduct w.getSampleRate d)).toNat) w.getSampleRate] ∧
    (result.wav.take (truncate (floatProduct w.getSampleRate d)).toNat).length =
      (truncate (floatProduct w.getSampleRate d)).toNat ∧
    (∀ i, i < (truncate (floatProduct w.getSampleRate d)).toNat →
      (result.wav.take (truncate (floatProduct w.getSampleRate d)).toNat)[i]? = result.wav[i]?) ∧
    (∀ i : Nat, i < (truncate (floatProduct w.getSampleRate d)).toNat →
      (i : Rat) < floatProduct w.getSampleRate d) := by
  have hdef : SliceDefined w result :=
    ⟨d, ds, hdur, by unfold wavLen INT_MIN; omega, hint, h0, hlen⟩
  obtain ⟨hw, _, _⟩ := saveAudio_writes w args result d ds hdur hdef
  have hpre : (synthesisTrace tp args te text ts).filter Event.isWrite = [] :=
    filter_isWrite_eq_nil fun e he =>
      expected_not_write args e (synthesisTrace_expected w p argv tp te ts args text _
        hparse hext hsyn e he)
  refine ⟨?_, ?_, ?_, ?_⟩
  · rcases main_reach_cases w p argv tp te ts args text result hparse hext hsyn with
      ⟨tv, hv, hm⟩ | ⟨tv, e, hv, hm⟩ | ⟨tv, hv, hm⟩
    · rw [hm]; rw [hv] at hw
      show (synthesisTrace tp args te text ts ++ tv).filter Event.isWrite = _
      rw [List.filter_append, hpre, List.nil_append]
      exact hw
    · rw [hm]; rw [hv] at hw
      show (synthesisTrace tp args te text ts ++ tv ++ errorReport e).filter
        Event.isWrite = _
      have herr : (errorReport e).filter Event.isWrite = [] := rfl
      rw [List.filter_append, List.filter_append, hpre, List.nil_append, herr,
        List.append_nil]
      exact hw
    · rw [hm]; rw [hv] at hw
      show (synthesisTrace tp args te text ts ++ tv).filter Event.isWrite = _
      rw [List.filter_append, hpre, List.nil_append]
      exact hw
  · rw [List.length_take]
    omega
  · intro i hi
    rw [List.getElem?_take_of_lt hi]
  · intro i hi
    have hpos : 0 < truncate (floatProduct w.getSampleRate d) := by omega
    have hq := nonneg_of_truncate_pos _ hpos
    have hle := truncate_le _ hq
    have hi2 : (i : Int) + 1 ≤ truncate (floatProduct w.getSampleRate d) := by omega
    have hi3 : ((i : Int) : Rat) + 1 ≤ (truncate (floatProduct w.getSampleRate d) : Rat) := by
      exact_mod_cast hi2
    have : ((i : Int) : Rat) = (i : Rat) := by norm_cast
    linarith

/-- A run in which every collaborator returns: the trace and result of
`synthesize`. -/
theorem synthesize_ok (w : World) (args : PDFToAudioArgs) (text : String) (style : Style)
    (result : SynthesisResult) (h1 : w.ortEnv = .ok ())
    (h2 : w.loadTextToSpeech args.onnx_dir false = .ok ())
    (h3 : w.loadVoiceStyle [args.voice_style] args.verbose = .ok style)
    (h4 : w.call text style args.total_step args.speed = .ok result) :
    synthesize w args text =
      (loadEvents args ++ [.timer "Synthesizing speech from text",
        .call text style args.total_step args.speed], .ret result) := by
  rcases synthesize_cases w args text with ⟨x, hx, _⟩ | ⟨x, hx, _⟩ | ⟨x, _, hx, _⟩ |
    ⟨x, st, _, hst, hx, _⟩ | ⟨st, r, _, hst, hr, hs⟩
  · rw [h1] at hx; cases hx
  · rw [h2] at hx; cases hx
  · rw [h3] at hx; cases hx
  · rw [h3] at hst
    cases hst
    rw [h4] at hx; cases hx
  · rw [h3] at hst
    cases hst
    rw [h4] at hr
    cases hr
    exact hs

/-- C2 fails when the product is read exactly: the rate 44100 Hz and the
duration 400.75 s are both `float` values, their exact product is 17673075,
and binary32 rounds it to 17673076. `main` hands 17673076 samples to
`writeWavFile`: the count is not the exact product truncated, and the sample
at index 17673075, which is not below `d * sr`, is written. -/
theorem rounded_count_exceeds_exact_product :
    binary32 (1603 / 4) = 1603 / 4 ∧
    truncate ((44100 : Rat) * (1603 / 4)) = 17673075 ∧
    (main longWorld "prog" ["--pdf", "doc.pdf", "--quiet"]).trace.filter Event.isWrite =
      [.writeWavFile "doc.wav" (List.replicate 17673076 0) 44100] ∧
    (44100 : Rat) * (1603 / 4) ≤ ((17673075 : Nat) : Rat) := by
  have hparse : parseArgs longWorld "prog" ["--pdf", "doc.pdf", "--quiet"] =
      ([.fsExists "doc.pdf"],
        .ret { pdf_path := "doc.pdf", output_path := "doc.wav", verbose := false }) := by
    decide!
  have hext : extractText longWorld
      { pdf_path := "doc.pdf", output_path := "doc.wav", verbose := false } =
      ((extractText longWorld
        { pdf_path := "doc.pdf", output_path := "doc.wav", verbose := false }).1,
        .ret "Hi.") := by
    decide!
  have hsyn := synthesize_ok longWorld
    { pdf_path := "doc.pdf", output_path := "doc.wav", verbose := false } "Hi." []
    ⟨List.replicate 17673076 0, [1603 / 4]⟩ rfl rfl rfl rfl
  have hn : truncate (floatProduct longWorld.getSampleRate (1603 / 4)) = 17673076 := by
    decide!
  have hlen : truncate (floatProduct longWorld.getSampleRate (1603 / 4)) ≤
      (((List.replicate 17673076 (0 : Rat)).length : Nat) : Int) := by
    rw [hn, List.length_replicate]
    decide
  have h := (main_trimmed_write longWorld "prog" ["--pdf", "doc.pdf", "--quiet"] _ _ _ _
    "Hi." ⟨List.replicate 17673076 0, [1603 / 4]⟩ (1603 / 4) [] hparse hext hsyn rfl
    (by rw [hn]; decide) hlen (by rw [hn]; decide)).1
  rw [hn] at h
  have htake : List.take (17673076 : Int).toNat (List.replicate 17673076 (0 : Rat)) =
      List.replicate 17673076 0 := by
    have h1 : (17673076 : Int).toNat = 17673076 := by decide
    rw [h1, List.take_replicate, Nat.min_self]
  refine ⟨by decide!, by decide!, ?_, by norm_num⟩
  rw [h]
  show [Event.writeWavFile "doc.wav"
    (List.take (17673076 : Int).toNat (List.replicate 17673076 (0 : Rat))) 44100] = _
  rw [htake]

/-- C2, amended: in a run that reaches a synthesis result with buffer `wav`
and first duration `d`, where `n`, the binary32 product `sample_rate * d`
truncated to an integer, lies within the buffer (and fits an `int`), the one
call of `writeWavFile` receives exactly the first `n` samples of `wav` in
their order: `n` samples, the `i`-th being `wav[i]`, and every index written
is below the binary32 product. -/
theorem trimmed_samples_written (w : World) (p : String) (argv : List String)
    (tp te ts : List Event) (args : PDFToAudioArgs) (text : String)
    (result : SynthesisResult) (d : Rat) (ds : List Rat)
    (hparse : parseArgs w p argv = (tp, .ret args))
    (hext : extractText w args = (te, .ret text))
    (hsyn : synthesize w args text = (ts, .ret result))
    (hdur : result.duration = d :: ds)
    (h0 : 0 ≤ truncate (floatProduct w.getSampleRate d))
    (hlen : truncate (floatProduct w.getSampleRate d) ≤ (result.wav.length : Int))
    (hint : truncate (floatProduct w.getSampleRate d) ≤ INT_MAX) :
    (main w p argv).trace.filter Event.isWrite =
      [.writeWavFile args.output_path
        (result.wav.take (truncate (floatProduct w.getSampleRate d)).toNat) w.getSampleRate] ∧
    (result.wav.take (truncate (floatProduct w.getSampleRate d)).toNat).length =
      (truncate (floatProduct w.getSampleRate d)).toNat ∧
    (∀ i, i < (truncate (floatProduct w.getSampleRate d)).toNat →
      (result.wav.take (truncate (floatProduct w.getSampleRate d)).toNat)[i]? = result.wav[i]?) ∧
    (∀ i : Nat, i < (truncate (floatProduct w.getSampleRate d)).toNat →
      (i : Rat) < floatProduct w.getSampleRate d) :=
  main_trimmed_write w p argv tp te ts args text result d ds hparse hext hsyn hdur h0 hlen hint

set_option maxRecDepth 100000 in
/-- The scenario of the specification for C2: a buffer of 1000 zero samples,
the duration `0.01f` and 16000 Hz give 160 samples, all zero. -/
theorem trimmed_samples_written_witness :
    parseArgs demoWorld "prog" ["--pdf", "doc.pdf"] =
      ([.fsExists "doc.pdf"], .ret { pdf_path := "doc.pdf", output_path := "doc.wav" }) ∧
    binary32 (5368709 / 536870912) = 5368709 / 536870912 ∧
    truncate (floatProduct demoWorld.getSampleRate (5368709 / 536870912)) = 160 ∧
    (main demoWorld "prog" ["--pdf", "doc.pdf"]).trace.filter Event.isWrite =
      [.writeWavFile "doc.wav" (List.replicate 160 0) 16000] :=
  have hparse : parseArgs demoWorld "prog" ["--pdf", "doc.pdf"] =
      ([.fsExists "doc.pdf"], .ret { pdf_path := "doc.pdf", output_path := "doc.wav" }) := by
    decide!
  have hext : extractText demoWorld { pdf_path := "doc.pdf", output_path := "doc.wav" } =
      ((extractText demoWorld { pdf_path := "doc.pdf", output_path := "doc.wav" }).1,
        .ret "Hi.") := by
    decide!
  have hsyn : synthesize demoWorld { pdf_path := "doc.pdf", output_path := "doc.wav" } "Hi." =
      ((synthesize demoWorld { pdf_path := "doc.pdf", output_path := "doc.wav" } "Hi.").1,
        .ret ⟨List.replicate 1000 0, [5368709 / 536870912]⟩) := by
    decide!
  have hn : truncate (floatProduct demoWorld.getSampleRate (5368709 / 536870912)) = 160 := by
    decide!
  ⟨hparse, by decide!, hn,
    (trimmed_samples_written demoWorld "prog" ["--pdf", "doc.pdf"] _ _ _ _ "Hi."
      ⟨List.replicate 1000 0, [5368709 / 536870912]⟩ (5368709 / 536870912) [] hparse hext
      hsyn rfl (by rw [hn]; decide) (by rw [hn]; decide) (by rw [hn]; decide)).1.trans
      (by decide!)⟩

theorem expected_not_error (args : PDFToAudioArgs) (e : Event) (h : Expected args e) :
    e.isError = false := by
  rcases h with h | h | h | ⟨n, h⟩ | h | h | h | h | ⟨t, s, h⟩
  · cases e <;> simp [Event.isPrint] at h <;> rfl
  · cases e <;> simp [Event.isDebugStep] at h <;> rfl
  all_goals subst h; rfl

set_option maxRecDepth 100000 in
/-- C3 fails: the model returns 100 samples and a `float` duration with
`sample_rate * duration > 100` (about 100.4999995 exactly, 100.5 in binary32);
`main` reports no error, writes the 100 samples and exits with status 0. -/
theorem overrun_not_fatal :
    fractionWorld.call "Hi." [] 5 1.05 =
      .ok ⟨List.replicate 100 0, [6744441 / 1073741824]⟩ ∧
    binary32 (6744441 / 1073741824) = 6744441 / 1073741824 ∧
    (((List.replicate 100 (0 : Rat)).length : Nat) : Rat) <
      (fractionWorld.getSampleRate : Rat) * (6744441 / 1073741824) ∧
    floatProduct fractionWorld.getSampleRate (6744441 / 1073741824) = 201 / 2 ∧
    main fractionWorld "prog" ["--pdf", "doc.pdf", "--quiet"] =
      ⟨[.out "=== PDF to Audio Converter ===\n\n", .fsExists "doc.pdf",
        .timer "Extracting text from PDF",
        .extractTextFromPDF "doc.pdf" (-1) (-1) "" false,
        .ortEnv, .loadTextToSpeech "../assets/onnx" false, .endl,
        .loadVoiceStyle ["../assets/voice_styles/M1.json"] false,
        .timer "Synthesizing speech from text", .call "Hi." [] 5 1.05, .getSampleRate,
        .writeWavFile "doc.wav" (List.replicate 100 0) 16000, .clearTensorBuffers],
       .exit 0⟩ := by
  refine ⟨rfl, by decide!, ?_, by decide!, ?_⟩
  · simp [fractionWorld, demoWorld]; norm_num
  · decide!

/-- C3, amended: `main` does not compare `sample_rate * duration[0]` with the
buffer length. When the sample count `n`, the binary32 product truncated as
line 241 computes it, satisfies `0 ≤ n ≤ size`
(and fits an `int`) the prefix of `n` samples is passed to `writeWavFile`;
when `n` exceeds the size the construction of the slice is undefined
behaviour: the run ends there, after the query of the sample rate, with no
call of `writeWavFile` and no error report. -/
theorem overrun_unchecked (w : World) (p : String) (argv : List String)
    (tp te ts : List Event) (args : PDFToAudioArgs) (text : String)
    (result : SynthesisResult) (d : Rat) (ds : List Rat)
    (hparse : parseArgs w p argv = (tp, .ret args))
    (hext : extractText w args = (te, .ret text))
    (hsyn : synthesize w args text = (ts, .ret result))
    (hdur : result.duration = d :: ds) :
    (0 ≤ truncate (floatProduct w.getSampleRate d) →
      truncate (floatProduct w.getSampleRate d) ≤ (result.wav.length : Int) →
      truncate (floatProduct w.getSampleRate d) ≤ INT_MAX →
      Event.writeWavFile args.output_path
        (result.wav.take (truncate (floatProduct w.getSampleRate d)).toNat) w.getSampleRate ∈
          (main w p argv).trace) ∧
    ((result.wav.length : Int) < truncate (floatProduct w.getSampleRate d) →
      main w p argv = ⟨synthesisTrace tp args te text ts ++ [.getSampleRate], .undefined⟩ ∧
      ∀ e ∈ (main w p argv).trace, e.isWrite = false ∧ e.isError = false) := by
  constructor
  · intro h0 hlen hint
    have h := (main_trimmed_write w p argv tp te ts args text result d ds hparse hext
      hsyn hdur h0 hlen hint).1
    have hm : Event.writeWavFile args.output_path
        (result.wav.take (truncate (floatProduct w.getSampleRate d)).toNat) w.getSampleRate ∈
        (main w p argv).trace.filter Event.isWrite := by rw [h]; simp
    exact (List.mem_filter.1 hm).1
  · intro hover
    have hnd : ¬ SliceDefined w result := by
      rintro ⟨d1, ds1, heq, _, _, _, h4⟩
      rw [hdur] at heq
      simp only [List.cons.injEq] at heq
      rw [← heq.1] at h4
      unfold wavLen at h4
      omega
    have hsave : saveAudio w args result = ([.getSampleRate], .undefined) := by
      rcases saveAudio_cases w args result with ⟨_, h⟩ | ⟨_, _, _, hdef, _⟩
      · exact h
      · exact absurd hdef hnd
    have hmain : main w p argv =
        ⟨synthesisTrace tp args te text ts ++ [.getSampleRate], .undefined⟩ := by
      rcases main_reach_cases w p argv tp te ts args text result hparse hext hsyn with
        ⟨tv, hv, _⟩ | ⟨tv, e, hv, _⟩ | ⟨tv, hv, hm⟩
      · rw [hsave] at hv; simp at hv
      · rw [hsave] at hv; simp at hv
      · rw [hsave] at hv
        simp only [Prod.mk.injEq, and_true] at hv
        rw [hm, ← hv]
    refine ⟨hmain, ?_⟩
    rw [hmain]
    intro e he
    simp only [List.mem_append, List.mem_singleton] at he
    rcases he with he | he
    · have hx := synthesisTrace_expected w p argv tp te ts args text _ hparse hext hsyn e he
      exact ⟨expected_not_write args e hx, expected_not_error args e hx⟩
    · subst he; exact ⟨rfl, rfl⟩

set_option maxRecDepth 100000 in
/-- A run for the amended C3: 100 samples, 1 s at 16000 Hz. -/
theorem overrun_unchecked_witness :
    ((List.replicate 100 (0 : Rat)).length : Int) <
      truncate (floatProduct overrunWorld.getSampleRate 1) ∧
    (main overrunWorld "prog" ["--pdf", "doc.pdf"]).outcome = .undefined :=
  have hparse : parseArgs overrunWorld "prog" ["--pdf", "doc.pdf"] =
      ([.fsExists "doc.pdf"], .ret { pdf_path := "doc.pdf", output_path := "doc.wav" }) := by
    decide!
  have hext : extractText overrunWorld { pdf_path := "doc.pdf", output_path := "doc.wav" } =
      ((extractText overrunWorld { pdf_path := "doc.pdf", output_path := "doc.wav" }).1,
        .ret "Hi.") := by
    decide!
  have hsyn : synthesize overrunWorld { pdf_path := "doc.pdf", output_path := "doc.wav" }
      "Hi." =
      ((synthesize overrunWorld { pdf_path := "doc.pdf", output_path := "doc.wav" } "Hi.").1,
        .ret ⟨List.replicate 100 0, [1]⟩) := by
    decide!
  have hover : ((List.replicate 100 (0 : Rat)).length : Int) <
      truncate (floatProduct overrunWorld.getSampleRate 1) := by decide!
  ⟨hover, congrArg Run.outcome
    ((overrun_unchecked overrunWorld "prog" ["--pdf", "doc.pdf"] _ _ _ _ "Hi."
      ⟨List.replicate 100 0, [1]⟩ 1 [] hparse hext hsyn rfl).2 hover).1⟩

/-! ## The events of the last phase -/

/-- The trace of `saveAudio` when it returns: the query of the sample rate,
the write, the report, the buffer reset. -/
theorem saveAudio_ret (w : World) (args : PDFToAudioArgs) (result : SynthesisResult)
    (tv : List Event) (h : saveAudio w args result = (tv, .ret ())) :
    ∃ d ds ts1, result.duration = d :: ds ∧ SliceDefined w result ∧
      w.writeWavFile args.output_path (result.wav.take (wavLen w d).toNat)
        w.getSampleRate = .ok () ∧
      tv = [.getSampleRate, writeEvent w args result d] ++ ts1 ++ [.clearTensorBuffers] ∧
      ∀ x ∈ ts1, x.isPrint = true ∧ x ≠ .out "  Pages: " := by
  rcases saveAudio_cases w args result with ⟨_, h1⟩ | ⟨d, ds, hd, hdef, hc⟩
  · rw [h] at h1; simp at h1
  · rcases hc with ⟨e, _, h1⟩ | ⟨hw, ⟨ts1, hps, h1⟩ | ⟨_, h1⟩⟩
    · rw [h] at h1; simp at h1
    · rw [h] at h1
      refine ⟨d, ds, ts1, hd, hdef, hw, (Prod.mk.inj h1).1, ?_⟩
      rcases printSummary_cases args d w.getSampleRate with ⟨_, h2⟩ | ⟨_, _, h2⟩ | ⟨_, _, h2⟩
      · rw [hps] at h2
        have := (Prod.mk.inj h2).1
        subst this
        simp
      · rw [hps] at h2
        have := (Prod.mk.inj h2).1
        subst this
        exact summaryEvents_isPrint args d w.getSampleRate
      · rw [hps] at h2; simp at h2
    · rw [h] at h1; simp at h1

/-- The trace of `saveAudio` when it does not return: it stops after the
query of the sample rate (undefined slicing), or after the write. -/
theorem saveAudio_not_ret (w : World) (args : PDFToAudioArgs) (result : SynthesisResult)
    (tv : List Event) (c : Control Unit) (h : saveAudio w args result = (tv, c))
    (hc : c ≠ .ret ()) :
    (¬ SliceDefined w result ∧ tv = [.getSampleRate] ∧ c = .undefined) ∨
    (∃ d ds, result.duration = d :: ds ∧ SliceDefined w result ∧
      tv = [.getSampleRate, writeEvent w args result d] ∧
      ((∃ e, c = .throw e ∧
          w.writeWavFile args.output_path (result.wav.take (wavLen w d).toNat)
            w.getSampleRate = .error e) ∨
       (c = .undefined ∧ args.verbose = true ∧ ¬ DisplayDefined d))) := by
  rcases saveAudio_cases w args result with ⟨hnd, h1⟩ | ⟨d, ds, hd, hdef, hcs⟩
  · rw [h] at h1
    simp only [Prod.mk.injEq] at h1
    exact Or.inl ⟨hnd, h1.1, h1.2⟩
  · rcases hcs with ⟨e, hw, h1⟩ | ⟨_, ⟨ts1, _, h1⟩ | ⟨hps, h1⟩⟩
    · rw [h] at h1
      simp only [Prod.mk.injEq] at h1
      exact Or.inr ⟨d, ds, hd, hdef, h1.1, Or.inl ⟨e, h1.2, hw⟩⟩
    · rw [h] at h1
      simp only [Prod.mk.injEq] at h1
      exact absurd h1.2 hc
    · rw [h] at h1
      simp only [Prod.mk.injEq] at h1
      refine Or.inr ⟨d, ds, hd, hdef, h1.1, Or.inr ⟨h1.2, ?_⟩⟩
      rcases printSummary_cases args d w.getSampleRate with ⟨_, h2⟩ | ⟨_, _, h2⟩ | ⟨hv, hnd, _⟩
      · rw [hps] at h2; simp at h2
      · rw [hps] at h2; simp at h2
      · exact ⟨hv, hnd⟩

/-- The events of `parseArgs`: error output, the usage text, the test of
the file. -/
theorem parseArgs_events (w : World) (p : String) (argv : List String) :
    ∀ e ∈ (parseArgs w p argv).1, e.isError = true ∨ e = .printUsage p ∨
      ∃ path, e = .fsExists path := by
  intro e he
  rcases parseArgs_cases w p argv with ⟨a, h⟩ | ⟨x, h⟩ | ⟨x, q, h⟩ | ⟨_, h⟩ | ⟨_, h⟩ |
    ⟨x, _, h⟩ | h | ⟨q, _, h⟩ <;> rw [h] at he <;>
    simp only [List.mem_cons, List.mem_singleton, List.not_mem_nil, or_false] at he
  · exact Or.inr (Or.inr ⟨_, he⟩)
  · exact Or.inr (Or.inr ⟨_, he⟩)
  · exact Or.inr (Or.inl he)
  · exact Or.inr (Or.inl he)
  · rcases he with he | he | he | he
    · subst he; exact Or.inl rfl
    · subst he; exact Or.inl rfl
    · subst he; exact Or.inl rfl
    · exact Or.inr (Or.inl he)
  · rcases he with he | he
    · subst he; exact Or.inl rfl
    · exact Or.inr (Or.inl he)
  · rcases he with he | he | he | he
    · exact Or.inr (Or.inr ⟨_, he⟩)
    · subst he; exact Or.inl rfl
    · subst he; exact Or.inl rfl
    · subst he; exact Or.inl rfl

/-! ## Claim about the deferred write -/

theorem errorReport_not_write (x : Exn) : ∀ e ∈ errorReport x, e.isWrite = false := by
  intro e he
  simp only [errorReport, List.mem_cons, List.mem_singleton, List.not_mem_nil, or_false] at he
  rcases he with h | h | h <;> subst h <;> rfl

theorem parseArgs_not_write (w : World) (p : String) (argv : List String) :
    ∀ e ∈ (parseArgs w p argv).1, e.isWrite = false := by
  intro e he
  rcases parseArgs_events w p argv e he with h | h | ⟨q, h⟩
  · cases e <;> simp [Event.isError] at h <;> rfl
  · subst h; rfl
  · subst h; rfl

theorem print_not_write (e : Event) (h : e.isPrint = true) : e.isWrite = false := by
  cases e <;> simp [Event.isPrint] at h <;> rfl

/-- If the extraction call throws, so does `extractText`. -/
theorem extractText_throws (w : World) (args : PDFToAudioArgs) (e : Exn)
    (h : w.extractTextFromPDF args.pdf_path args.first_page args.last_page
      args.pdftotext_path (!args.debug && args.remove_footnotes) = .error e) :
    ∃ te x, extractText w args = (te, .throw x) := by
  obtain ⟨rest, _, _, hc⟩ := extractText_cases w args
  rcases hc with ⟨text, raw, hok, _⟩ | ⟨x, hx⟩
  · rw [h] at hok; simp at hok
  · exact ⟨_, x, hx⟩

/-- If the model loading, the style loading or the synthesis call throws, so
does `synthesize`. -/
theorem synthesize_throws (w : World) (args : PDFToAudioArgs) (text : String)
    (h : (∃ e, w.loadTextToSpeech args.onnx_dir false = .error e) ∨
      (∃ e, w.loadVoiceStyle [args.voice_style] args.verbose = .error e) ∨
      (∃ style e, w.loadVoiceStyle [args.voice_style] args.verbose = .ok style ∧
        w.call text style args.total_step args.speed = .error e)) :
    ∃ ts x, synthesize w args text = (ts, .throw x) := by
  rcases synthesize_cases w args text with ⟨x, _, hs⟩ | ⟨x, _, hs⟩ | ⟨x, _, _, hs⟩ |
    ⟨x, st, _, _, _, hs⟩ | ⟨st, r, h1, h2, h3, hs⟩
  · exact ⟨_, x, hs⟩
  · exact ⟨_, x, hs⟩
  · exact ⟨_, x, hs⟩
  · exact ⟨_, x, hs⟩
  · exfalso
    rcases h with ⟨e, he⟩ | ⟨e, he⟩ | ⟨style, e, hst, he⟩
    · rw [h1] at he; simp at he
    · rw [h2] at he; simp at he
    · rw [h2] at hst
      simp only [Except.ok.injEq] at hst
      subst hst
      rw [h3] at he; simp at he

/-- What `synthesize` returning says about the collaborators. -/
theorem synthesize_ret (w : World) (args : PDFToAudioArgs) (text : String) (ts : List Event)
    (result : SynthesisResult) (h : synthesize w args text = (ts, .ret result)) :
    ∃ style, w.loadTextToSpeech args.onnx_dir false = .ok () ∧
      w.loadVoiceStyle [args.voice_style] args.verbose = .ok style ∧
      w.call text style args.total_step args.speed = .ok result ∧
      ts = loadEvents args ++ [.timer "Synthesizing speech from text",
        .call text style args.total_step args.speed] := by
  rcases synthesize_cases w args text with ⟨x, _, hs⟩ | ⟨x, _, hs⟩ | ⟨x, _, _, hs⟩ |
    ⟨x, st, _, _, _, hs⟩ | ⟨st, r, h1, h2, h3, hs⟩
  · rw [h] at hs; simp at hs
  · rw [h] at hs; simp at hs
  · rw [h] at hs; simp at hs
  · rw [h] at hs; simp at hs
  · rw [h] at hs
    simp only [Prod.mk.injEq, Control.ret.injEq] at hs
    obtain ⟨hts, hr⟩ := hs
    subst hr
    exact ⟨st, h1, h2, h3, hts⟩

/-- What `extractText` returning says about the extraction call. -/
theorem extractText_ret (w : World) (args : PDFToAudioArgs) (te : List Event) (text : String)
    (h : extractText w args = (te, .ret text)) :
    ∃ raw, w.extractTextFromPDF args.pdf_path args.first_page args.last_page
      args.pdftotext_path (!args.debug && args.remove_footnotes) = .ok raw := by
  obtain ⟨rest, _, _, hc⟩ := extractText_cases w args
  rcases hc with ⟨text1, raw, hok, _⟩ | ⟨x, hx⟩
  · exact ⟨raw, hok⟩
  · rw [h] at hx; simp at hx

/-- The writes of a run: none, or one that follows the whole trace of a
successful parsing, extraction, loading and synthesis. -/
theorem main_writes (w : World) (p : String) (argv : List String) :
    ((∀ e ∈ (main w p argv).trace, e.isWrite = false) ∧
      ((main w p argv).outcome = .exit 0 →
        ∃ tp c, parseArgs w p argv = (tp, .exit c))) ∨
    (∃ tp te ts args text result d ds post,
      parseArgs w p argv = (tp, .ret args) ∧ extractText w args = (te, .ret text) ∧
      synthesize w args text = (ts, .ret result) ∧ result.duration = d :: ds ∧
      SliceDefined w result ∧
      (main w p argv).trace =
        synthesisTrace tp args te text ts ++
          .getSampleRate :: writeEvent w args result d :: post ∧
      ∀ x ∈ post, x.isWrite = false) := by
  rcases main_cases w p argv with ⟨tp, c, h1, hm⟩ | ⟨tp, e, h1, hm⟩ | ⟨tp, args, h1, h2⟩
  · left
    refine ⟨?_, fun _ => ⟨tp, c, h1⟩⟩
    rw [hm]
    intro e he
    simp only [List.mem_cons] at he
    rcases he with he | he
    · subst he; rfl
    · exact parseArgs_not_write w p argv e (by rw [h1]; exact he)
  · left
    rw [hm]
    refine ⟨?_, by simp⟩
    intro x hx
    simp only [List.cons_append, List.mem_cons, List.mem_append] at hx
    rcases hx with hx | hx | hx
    · subst hx; rfl
    · exact parseArgs_not_write w p argv x (by rw [h1]; exact hx)
    · exact errorReport_not_write e x hx
  · rcases h2 with ⟨te, e, h3, hm⟩ | ⟨te, text, h3, h4⟩
    · left
      rw [hm]
      refine ⟨?_, by simp⟩
      intro x hx
      simp only [List.mem_append] at hx
      rcases hx with hx | hx
      · exact expected_not_write args x
          (extractionTrace_expected w p argv tp te args _ h1 h3 x hx)
      · exact errorReport_not_write e x hx
    · rcases h4 with ⟨ts, e, h5, hm⟩ | ⟨ts, result, h5, h6⟩
      · left
        rw [hm]
        refine ⟨?_, by simp⟩
        intro x hx
        simp only [List.mem_append] at hx
        rcases hx with hx | hx
        · exact expected_not_write args x
            (synthesisTrace_expected w p argv tp te ts args text _ h1 h3 h5 x hx)
        · exact errorReport_not_write e x hx
      · have hS : ∀ x ∈ synthesisTrace tp args te text ts, x.isWrite = false := fun x hx =>
          expected_not_write args x
            (synthesisTrace_expected w p argv tp te ts args text _ h1 h3 h5 x hx)
        rcases h6 with ⟨tv, hv, hm⟩ | ⟨tv, e, hv, hm⟩ | ⟨tv, hv, hm⟩
        · right
          obtain ⟨d, ds, ts1, hd, hdef, _, htv, hts1⟩ := saveAudio_ret w args result tv hv
          refine ⟨tp, te, ts, args, text, result, d, ds, ts1 ++ [.clearTensorBuffers],
            h1, h3, h5, hd, hdef, ?_, ?_⟩
          · rw [hm, htv]; simp
          · intro x hx
            simp only [List.mem_append, List.mem_singleton] at hx
            rcases hx with hx | hx
            · exact print_not_write x (hts1 x hx).1
            · subst hx; rfl
        · rcases saveAudio_not_ret w args result tv _ hv (by simp) with
            ⟨_, _, hc⟩ | ⟨d, ds, hd, hdef, htv, _⟩
          · simp at hc
          · right
            refine ⟨tp, te, ts, args, text, result, d, ds, errorReport e,
              h1, h3, h5, hd, hdef, ?_, errorReport_not_write e⟩
            rw [hm, htv]; simp
        · rcases saveAudio_not_ret w args result tv _ hv (by simp) with
            ⟨_, htv, _⟩ | ⟨d, ds, hd, hdef, htv, _⟩
          · left
            rw [hm, htv]
            refine ⟨?_, by simp⟩
            intro x hx
            simp only [List.mem_append, List.mem_singleton] at hx
            rcases hx with hx | hx
            · exact hS x hx
            · subst hx; rfl
          · right
            refine ⟨tp, te, ts, args, text, result, d, ds, [],
              h1, h3, h5, hd, hdef, ?_, by simp⟩
            rw [hm, htv]

/-- C4: in every run `writeWavFile` is called at most once; a call comes
after the whole trace of a successful argument parsing, extraction, model
loading, style loading and synthesis call (each collaborator returned
normally and its event precedes the write); and if the extraction, the model
loading, the style loading or the synthesis call throws, `writeWavFile` is
not called and the exit code is 1. -/
theorem write_deferred (w : World) (p : String) (argv : List String) :
    ((main w p argv).trace.filter Event.isWrite).length ≤ 1 ∧
    (∀ e ∈ (main w p argv).trace, e.isWrite = true →
      ∃ tp te ts args text result raw style post,
        parseArgs w p argv = (tp, .ret args) ∧
        extractText w args = (te, .ret text) ∧
        w.extractTextFromPDF args.pdf_path args.first_page args.last_page
          args.pdftotext_path (!args.debug && args.remove_footnotes) = .ok raw ∧
        w.loadTextToSpeech args.onnx_dir false = .ok () ∧
        w.loadVoiceStyle [args.voice_style] args.verbose = .ok style ∧
        w.call text style args.total_step args.speed = .ok result ∧
        (main w p argv).trace =
          synthesisTrace tp args te text ts ++ .getSampleRate :: e :: post ∧
        extractionEvent args ∈ synthesisTrace tp args te text ts ∧
        Event.loadTextToSpeech args.onnx_dir false ∈ synthesisTrace tp args te text ts ∧
        Event.loadVoiceStyle [args.voice_style] args.verbose ∈
          synthesisTrace tp args te text ts ∧
        Event.call text style args.total_step args.speed ∈
          synthesisTrace tp args te text ts ∧
        (∀ x ∈ synthesisTrace tp args te text ts, x.isWrite = false) ∧
        (∀ x ∈ post, x.isWrite = false)) ∧
    (∀ tp args, parseArgs w p argv = (tp, .ret args) →
      ((∃ e, w.extractTextFromPDF args.pdf_path args.first_page args.last_page
          args.pdftotext_path (!args.debug && args.remove_footnotes) = .error e) ∨
       (∃ te text, extractText w args = (te, .ret text) ∧
          ((∃ e, w.loadTextToSpeech args.onnx_dir false = .error e) ∨
           (∃ e, w.loadVoiceStyle [args.voice_style] args.verbose = .error e) ∨
           (∃ style e, w.loadVoiceStyle [args.voice_style] args.verbose = .ok style ∧
              w.call text style args.total_step args.speed = .error e)))) →
      (∀ e ∈ (main w p argv).trace, e.isWrite = false) ∧
        (main w p argv).outcome = .exit 1) := by
  refine ⟨?_, ?_, ?_⟩
  · rcases main_writes w p argv with ⟨h, _⟩ |
      ⟨tp, te, ts, args, text, result, d, ds, post, h1, h3, h5, _, _, htr, hpost⟩
    · rw [filter_isWrite_eq_nil h]; simp
    · have hS : (synthesisTrace tp args te text ts).filter Event.isWrite = [] :=
        filter_isWrite_eq_nil fun x hx => expected_not_write args x
          (synthesisTrace_expected w p argv tp te ts args text _ h1 h3 h5 x hx)
      rw [htr, List.filter_append, hS, List.nil_append]
      have h2 : (Event.getSampleRate :: writeEvent w args result d :: post).filter
          Event.isWrite = [writeEvent w args result d] := by
        rw [List.filter_cons_of_neg (by simp [Event.isWrite]),
          List.filter_cons_of_pos (by simp [writeEvent, Event.isWrite]),
          filter_isWrite_eq_nil hpost]
      rw [h2]; simp
  · intro e he hw
    rcases main_writes w p argv with ⟨h, _⟩ |
      ⟨tp, te, ts, args, text, result, d, ds, post, h1, h3, h5, _, _, htr, hpost⟩
    · rw [h e he] at hw; simp at hw
    · have hS : ∀ x ∈ synthesisTrace tp args te text ts, x.isWrite = false := fun x hx =>
        expected_not_write args x
          (synthesisTrace_expected w p argv tp te ts args text _ h1 h3 h5 x hx)
      have hee : e = writeEvent w args result d := by
        rw [htr] at he
        simp only [List.mem_append, List.mem_cons] at he
        rcases he with he | he | he | he
        · rw [hS e he] at hw; simp at hw
        · subst he; simp [Event.isWrite] at hw
        · exact he
        · rw [hpost e he] at hw; simp at hw
      obtain ⟨raw, hraw⟩ := extractText_ret w args te text h3
      obtain ⟨style, hl, hst, hcall, hts⟩ := synthesize_ret w args text ts result h5
      obtain ⟨rest, hte, _⟩ := extractText_trace w args te _ h3
      refine ⟨tp, te, ts, args, text, result, raw, style, post, h1, h3, hraw, hl, hst, hcall,
        by rw [htr, hee], ?_, ?_, ?_, ?_, hS, hpost⟩
      · simp [synthesisTrace, extractionTrace, hte]
      · simp [synthesisTrace, hts, loadEvents]
      · simp [synthesisTrace, hts, loadEvents]
      · simp [synthesisTrace, hts]
  · intro tp args h1 hthrow
    rcases hthrow with ⟨e, he⟩ | ⟨te, text, h3, hs⟩
    · obtain ⟨te, x, hx⟩ := extractText_throws w args e he
      rw [main_extract_throw w p argv tp te args x h1 hx]
      refine ⟨?_, rfl⟩
      intro y hy
      simp only [List.mem_append] at hy
      rcases hy with hy | hy
      · exact expected_not_write args y
          (extractionTrace_expected w p argv tp te args _ h1 hx y hy)
      · exact errorReport_not_write x y hy
    · obtain ⟨ts, x, hx⟩ := synthesize_throws w args text hs
      rw [main_synthesize_throw w p argv tp te ts args text x h1 h3 hx]
      refine ⟨?_, rfl⟩
      intro y hy
      simp only [List.mem_append] at hy
      rcases hy with hy | hy
      · exact expected_not_write args y
          (synthesisTrace_expected w p argv tp te ts args text _ h1 h3 hx y hy)
      · exact errorReport_not_write x y hy

/-- A run for C4: the synthesis call throws, nothing is written and the
exit code is 1. -/
theorem write_deferred_witness :
    parseArgs failingWorld "prog" ["--pdf", "doc.pdf"] =
      ([.fsExists "doc.pdf"], .ret { pdf_path := "doc.pdf", output_path := "doc.wav" }) ∧
    failingWorld.call "Hi." [] 5 1.05 = .error (.runtime "inference failed") ∧
    (main failingWorld "prog" ["--pdf", "doc.pdf"]).outcome = .exit 1 :=
  have hparse : parseArgs failingWorld "prog" ["--pdf", "doc.pdf"] =
      ([.fsExists "doc.pdf"], .ret { pdf_path := "doc.pdf", output_path := "doc.wav" }) := by
    decide!
  have hext : extractText failingWorld { pdf_path := "doc.pdf", output_path := "doc.wav" } =
      ((extractText failingWorld { pdf_path := "doc.pdf", output_path := "doc.wav" }).1,
        .ret "Hi.") := by
    decide!
  ⟨hparse, rfl,
    ((write_deferred failingWorld "prog" ["--pdf", "doc.pdf"]).2.2 _ _ hparse
      (Or.inr ⟨_, "Hi.", hext, Or.inr (Or.inr ⟨[], _, rfl, rfl⟩)⟩)).2⟩

/-! ## The shape of every run -/

theorem extractionEvent_mem (tp te rest : List Event) (args : PDFToAudioArgs)
    (hte : te = .timer "Extracting text from PDF" :: extractionEvent args :: rest) :
    extractionEvent args ∈ extractionTrace tp args te := by
  simp [extractionTrace, hte]

theorem synthesize_not_pages (w : World) (args : PDFToAudioArgs) (text : String)
    (ts : List Event) (c : Control SynthesisResult) (h : synthesize w args text = (ts, c)) :
    ∀ e ∈ ts, e ≠ .out "  Pages: " := by
  intro e he hp
  subst hp
  rcases synthesize_cases w args text with ⟨x, _, hs⟩ | ⟨x, _, hs⟩ | ⟨x, _, _, hs⟩ |
    ⟨x, st, _, _, _, hs⟩ | ⟨st, r, _, _, _, hs⟩ <;> rw [h] at hs <;>
    have hts := (Prod.mk.inj hs).1 <;> rw [hts] at he <;> simp [loadEvents] at he

/-- Every run of `main` has one of seven shapes: `parseArgs` exits; it
throws; a later step before the end of the synthesis call throws; the slicing
is undefined; the write throws; the duration display is undefined; the run
succeeds. -/
theorem main_shape (w : World) (p : String) (argv : List String) :
    (∃ tp c, parseArgs w p argv = (tp, .exit c) ∧
      main w p argv = ⟨startEvent :: tp, .exit c⟩) ∨
    (∃ tp x, parseArgs w p argv = (tp, .throw x) ∧
      main w p argv = ⟨startEvent :: tp ++ errorReport x, .exit 1⟩) ∨
    (∃ tp args t x, parseArgs w p argv = (tp, .ret args) ∧ (∀ e ∈ t, Expected args e) ∧
      extractionEvent args ∈ t ∧ (∀ e ∈ configurationEvents args, e ∈ t) ∧
      (∀ e ∈ t, e = .out "  Pages: " → e ∈ configurationEvents args) ∧
      main w p argv = ⟨t ++ errorReport x, .exit 1⟩) ∨
    (∃ tp te ts args text result, parseArgs w p argv = (tp, .ret args) ∧
      extractText w args = (te, .ret text) ∧ synthesize w args text = (ts, .ret result) ∧
      (∀ e ∈ synthesisTrace tp args te text ts, e = .out "  Pages: " →
        e ∈ configurationEvents args) ∧
      ((¬ SliceDefined w result ∧
          main w p argv =
            ⟨synthesisTrace tp args te text ts ++ [.getSampleRate], .undefined⟩) ∨
       (∃ d ds, result.duration = d :: ds ∧ SliceDefined w result ∧
          ((∃ x, w.writeWavFile args.output_path (result.wav.take (wavLen w d).toNat)
                w.getSampleRate = .error x ∧
              main w p argv =
                ⟨synthesisTrace tp args te text ts ++
                  [.getSampleRate, writeEvent w args result d] ++ errorReport x, .exit 1⟩) ∨
           (args.verbose = true ∧ ¬ DisplayDefined d ∧
              main w p argv =
                ⟨synthesisTrace tp args te text ts ++
                  [.getSampleRate, writeEvent w args result d], .undefined⟩) ∨
           (∃ ts1, (∀ x ∈ ts1, x.isPrint = true ∧ x ≠ .out "  Pages: ") ∧
              main w p argv =
                ⟨synthesisTrace tp args te text ts ++
                  [.getSampleRate, writeEvent w args result d] ++ ts1 ++
                  [.clearTensorBuffers], .exit 0⟩))))) := by
  rcases main_cases w p argv with ⟨tp, c, h1, hm⟩ | ⟨tp, e, h1, hm⟩ | ⟨tp, args, h1, h2⟩
  · exact Or.inl ⟨tp, c, h1, hm⟩
  · exact Or.inr (Or.inl ⟨tp, e, h1, hm⟩)
  · rcases h2 with ⟨te, e, h3, hm⟩ | ⟨te, text, h3, h4⟩
    · obtain ⟨rest, hte, hrest⟩ := extractText_trace w args te _ h3
      refine Or.inr (Or.inr (Or.inl ⟨tp, args, extractionTrace tp args te, e, h1,
        extractionTrace_expected w p argv tp te args _ h1 h3,
        extractionEvent_mem tp te rest args hte, ?_, ?_, hm⟩))
      · intro x hx; simp [extractionTrace, hx]
      · intro x hx hp
        subst hp
        rw [extractionTrace, parseArgs_ret_trace w p argv tp args h1, hte] at hx
        simp only [List.cons_append, List.nil_append, List.mem_cons, List.mem_append] at hx
        rcases hx with hx | hx | hx | hx | hx | hx
        · simp [startEvent] at hx
        · simp at hx
        · exact hx
        · simp at hx
        · simp [extractionEvent] at hx
        · exact absurd rfl (hrest _ hx).2
    · obtain ⟨rest, hte, hrest⟩ := extractText_trace w args te _ h3
      have hpages : ∀ ts1 : List Event, (∀ e ∈ ts1, e ≠ .out "  Pages: ") →
          ∀ e ∈ synthesisTrace tp args te text ts1, e = .out "  Pages: " →
            e ∈ configurationEvents args := by
        intro ts1 hts1 x hx hp
        subst hp
        rw [synthesisTrace, extractionTrace, parseArgs_ret_trace w p argv tp args h1, hte]
          at hx
        simp only [List.cons_append, List.nil_append, List.mem_cons, List.mem_append,
          or_assoc] at hx
        rcases hx with hx | hx | hx | hx | hx | hx | hx | hx
        · simp [startEvent] at hx
        · simp at hx
        · exact hx
        · simp at hx
        · simp [extractionEvent] at hx
        · exact absurd rfl (hrest _ hx).2
        · exact absurd rfl (previewEvents_isPrint args text _ hx).2
        · exact absurd rfl (hts1 _ hx)
      rcases h4 with ⟨ts, e, h5, hm⟩ | ⟨ts, result, h5, h6⟩
      · refine Or.inr (Or.inr (Or.inl ⟨tp, args, synthesisTrace tp args te text ts, e, h1,
          synthesisTrace_expected w p argv tp te ts args text _ h1 h3 h5, ?_, ?_, ?_, hm⟩))
        · simp [synthesisTrace, extractionTrace, hte]
        · intro x hx; simp [synthesisTrace, extractionTrace, hx]
        · exact hpages ts (synthesize_not_pages w args text ts _ h5)
      · refine Or.inr (Or.inr (Or.inr ⟨tp, te, ts, args, text, result, h1, h3, h5,
          hpages ts (synthesize_not_pages w args text ts _ h5), ?_⟩))
        rcases h6 with ⟨tv, hv, hm⟩ | ⟨tv, e, hv, hm⟩ | ⟨tv, hv, hm⟩
        · obtain ⟨d, ds, ts1, hd, hdef, _, htv, hts1⟩ := saveAudio_ret w args result tv hv
          refine Or.inr ⟨d, ds, hd, hdef, Or.inr (Or.inr ⟨ts1, hts1, ?_⟩)⟩
          rw [hm, htv]; simp
        · rcases saveAudio_not_ret w args result tv _ hv (by simp) with
            ⟨_, _, hc⟩ | ⟨d, ds, hd, hdef, htv, hc⟩
          · simp at hc
          · rcases hc with ⟨x, hx, hw⟩ | ⟨hc, _⟩
            · simp only [Control.throw.injEq] at hx
              subst hx
              refine Or.inr ⟨d, ds, hd, hdef, Or.inl ⟨e, hw, ?_⟩⟩
              rw [hm, htv]
            · simp at hc
        · rcases saveAudio_not_ret w args result tv _ hv (by simp) with
            ⟨hnd, htv, _⟩ | ⟨d, ds, hd, hdef, htv, hc⟩
          · exact Or.inl ⟨hnd, by rw [hm, htv]⟩
          · rcases hc with ⟨x, hx, _⟩ | ⟨_, hv1, hnd⟩
            · simp at hx
            · refine Or.inr ⟨d, ds, hd, hdef, Or.inr (Or.inl ⟨hv1, hnd, ?_⟩)⟩
              rw [hm, htv]

/-! ## Claim about the reset of the scratch buffers -/

theorem expected_ne_clear (args : PDFToAudioArgs) (e : Event) (h : Expected args e) :
    e ≠ .clearTensorBuffers := by
  rintro rfl
  rcases h with h | h | h | ⟨n, h⟩ | h | h | h | h | ⟨t, s, h⟩ <;>
    simp [Event.isPrint, Event.isDebugStep, extractionEvent] at h

theorem parseArgs_ne_clear (w : World) (p : String) (argv : List String) :
    ∀ e ∈ (parseArgs w p argv).1, e ≠ .clearTensorBuffers ∧ e.isCall = false := by
  intro e he
  rcases parseArgs_events w p argv e he with h | h | ⟨q, h⟩
  · cases e <;> simp [Event.isError] at h <;> exact ⟨by simp, rfl⟩
  · subst h; exact ⟨by simp, rfl⟩
  · subst h; exact ⟨by simp, rfl⟩

theorem errorReport_ne_clear (x : Exn) :
    ∀ e ∈ errorReport x, e ≠ .clearTensorBuffers ∧ e.isCall = false := by
  intro e he
  simp only [errorReport, List.mem_cons, List.mem_singleton, List.not_mem_nil, or_false] at he
  rcases he with h | h | h <;> subst h <;> exact ⟨by simp, rfl⟩

set_option maxRecDepth 100000 in
/-- C8 fails: when the synthesis call throws, the run has performed a
synthesis call and `clearTensorBuffers` is not invoked at all. -/
theorem clear_skipped_when_call_throws :
    Event.call "Hi." [] 5 1.05 ∈ (main failingWorld "prog" ["--pdf", "doc.pdf"]).trace ∧
    (main failingWorld "prog" ["--pdf", "doc.pdf"]).trace.count .clearTensorBuffers = 0 ∧
    (main failingWorld "prog" ["--pdf", "doc.pdf"]).outcome = .exit 1 := by
  decide!

/-- The calls of `clearTensorBuffers` in a run: at most one; the last event
of a run with a synthesis call that ends with exit status 0; none in a run
that does not end with exit status 0. -/
theorem main_clear_events (w : World) (p : String) (argv : List String) :
    (main w p argv).trace.count .clearTensorBuffers ≤ 1 ∧
    ((∃ e ∈ (main w p argv).trace, e.isCall = true) → (main w p argv).outcome = .exit 0 →
      ∃ pre, (main w p argv).trace = pre ++ [.clearTensorBuffers] ∧
        Event.clearTensorBuffers ∉ pre ∧ ∃ e ∈ pre, e.isCall = true) ∧
    ((main w p argv).outcome ≠ .exit 0 →
      Event.clearTensorBuffers ∉ (main w p argv).trace) := by
  have hstart : startEvent ≠ .clearTensorBuffers ∧ startEvent.isCall = false :=
    ⟨by simp [startEvent], rfl⟩
  rcases main_shape w p argv with ⟨tp, c, h1, hm⟩ | ⟨tp, x, h1, hm⟩ |
    ⟨tp, args, t, x, h1, ht, _, _, _, hm⟩ | ⟨tp, te, ts, args, text, result, h1, h3, h5, _, h6⟩
  · have hno : ∀ e ∈ startEvent :: tp, e ≠ .clearTensorBuffers ∧ e.isCall = false := by
      intro e he
      rcases List.mem_cons.1 he with he | he
      · subst he; exact hstart
      · exact parseArgs_ne_clear w p argv e (by rw [h1]; exact he)
    rw [hm]
    refine ⟨?_, ?_, ?_⟩
    · rw [List.count_eq_zero.2 fun hc => (hno _ hc).1 rfl]; omega
    · rintro ⟨e, he, hc⟩
      rw [(hno e he).2] at hc; simp at hc
    · intro _ hc; exact (hno _ hc).1 rfl
  · have hno : ∀ e ∈ startEvent :: tp ++ errorReport x,
        e ≠ .clearTensorBuffers ∧ e.isCall = false := by
      intro e he
      simp only [List.cons_append, List.mem_cons, List.mem_append] at he
      rcases he with he | he | he
      · subst he; exact hstart
      · exact parseArgs_ne_clear w p argv e (by rw [h1]; exact he)
      · exact errorReport_ne_clear x e he
    rw [hm]
    refine ⟨?_, ?_, ?_⟩
    · rw [List.count_eq_zero.2 fun hc => (hno _ hc).1 rfl]; omega
    · intro _ ho; simp at ho
    · intro _ hc; exact (hno _ hc).1 rfl
  · have hno : Event.clearTensorBuffers ∉ t ++ errorReport x := by
      intro hc
      rcases List.mem_append.1 hc with hc | hc
      · exact expected_ne_clear args _ (ht _ hc) rfl
      · exact (errorReport_ne_clear x _ hc).1 rfl
    rw [hm]
    refine ⟨?_, ?_, ?_⟩
    · rw [List.count_eq_zero.2 hno]; omega
    · intro _ ho; simp at ho
    · intro _; exact hno
  · have hS : Event.clearTensorBuffers ∉ synthesisTrace tp args te text ts := fun hc =>
      expected_ne_clear args _
        (synthesisTrace_expected w p argv tp te ts args text _ h1 h3 h5 _ hc) rfl
    rcases h6 with ⟨_, hm⟩ | ⟨d, ds, _, _, ⟨x, _, hm⟩ | ⟨_, _, hm⟩ | ⟨ts1, hts1, hm⟩⟩
    · have hno : Event.clearTensorBuffers ∉
          synthesisTrace tp args te text ts ++ [.getSampleRate] := by
        intro hc
        rcases List.mem_append.1 hc with hc | hc
        · exact hS hc
        · simp at hc
      rw [hm]
      refine ⟨?_, ?_, ?_⟩
      · rw [List.count_eq_zero.2 hno]; omega
      · intro _ ho; simp at ho
      · intro _; exact hno
    · have hno : Event.clearTensorBuffers ∉ synthesisTrace tp args te text ts ++
          [.getSampleRate, writeEvent w args result d] ++ errorReport x := by
        intro hc
        simp only [List.mem_append, List.mem_cons, List.mem_singleton, List.not_mem_nil,
          or_false] at hc
        rcases hc with (hc | hc | hc) | hc
        · exact hS hc
        · simp at hc
        · simp [writeEvent] at hc
        · exact (errorReport_ne_clear x _ hc).1 rfl
      rw [hm]
      refine ⟨?_, ?_, ?_⟩
      · rw [List.count_eq_zero.2 hno]; omega
      · intro _ ho; simp at ho
      · intro _; exact hno
    · have hno : Event.clearTensorBuffers ∉ synthesisTrace tp args te text ts ++
          [.getSampleRate, writeEvent w args result d] := by
        intro hc
        simp only [List.mem_append, List.mem_cons, List.mem_singleton, List.not_mem_nil,
          or_false] at hc
        rcases hc with hc | hc | hc
        · exact hS hc
        · simp at hc
        · simp [writeEvent] at hc
      rw [hm]
      refine ⟨?_, ?_, ?_⟩
      · rw [List.count_eq_zero.2 hno]; omega
      · intro _ ho; simp at ho
      · intro _; exact hno
    · have hno : Event.clearTensorBuffers ∉ synthesisTrace tp args te text ts ++
          [.getSampleRate, writeEvent w args result d] ++ ts1 := by
        intro hc
        simp only [List.mem_append, List.mem_cons, List.mem_singleton, List.not_mem_nil,
          or_false] at hc
        rcases hc with (hc | hc | hc) | hc
        · exact hS hc
        · simp at hc
        · simp [writeEvent] at hc
        · have := (hts1 _ hc).1
          simp [Event.isPrint] at this
      obtain ⟨style, _, _, _, hts⟩ := synthesize_ret w args text ts result h5
      rw [hm]
      refine ⟨?_, ?_, ?_⟩
      · rw [List.count_append, List.count_eq_zero.2 hno]; simp
      · intro _ _
        refine ⟨_, rfl, hno, .call text style args.total_step args.speed, ?_, rfl⟩
        simp [synthesisTrace, hts]
      · intro ho; simp at ho

/-- C8, amended: `clearTensorBuffers` is invoked at most once in every run;
in a run that performs a synthesis call and ends with exit status 0 it is
invoked exactly once, as the last event of the run and after the synthesis
call; in a run that does not end with exit status 0 (a step threw, or the
behaviour is undefined) it is not invoked. -/
theorem clear_once_on_success (w : World) (p : String) (argv : List String) :
    (main w p argv).trace.count .clearTensorBuffers ≤ 1 ∧
    ((∃ e ∈ (main w p argv).trace, e.isCall = true) → (main w p argv).outcome = .exit 0 →
      ∃ pre, (main w p argv).trace = pre ++ [.clearTensorBuffers] ∧
        Event.clearTensorBuffers ∉ pre ∧ ∃ e ∈ pre, e.isCall = true) ∧
    ((main w p argv).outcome ≠ .exit 0 →
      Event.clearTensorBuffers ∉ (main w p argv).trace) :=
  main_clear_events w p argv

set_option maxRecDepth 100000 in
/-- A successful run for the amended C8. -/
theorem clear_once_on_success_witness :
    (main demoWorld "prog" ["--pdf", "doc.pdf", "--quiet"]).outcome = .exit 0 ∧
    ∃ pre, (main demoWorld "prog" ["--pdf", "doc.pdf", "--quiet"]).trace =
        pre ++ [.clearTensorBuffers] ∧
      Event.clearTensorBuffers ∉ pre ∧ ∃ e ∈ pre, e.isCall = true :=
  have ho : (main demoWorld "prog" ["--pdf", "doc.pdf", "--quiet"]).outcome = .exit 0 := by
    decide!
  have hc : ∃ e ∈ (main demoWorld "prog" ["--pdf", "doc.pdf", "--quiet"]).trace,
      e.isCall = true := ⟨.call "Hi." [] 5 1.05, by decide!, rfl⟩
  ⟨ho, (clear_once_on_success demoWorld "prog" ["--pdf", "doc.pdf", "--quiet"]).2.1 hc ho⟩

/-! ## Claim about the parameters of the synthesis call -/

theorem expected_call (args : PDFToAudioArgs) (text : String) (style : Style) (n : Int)
    (q : Rat) (h : Expected args (.call text style n q)) :
    n = args.total_step ∧ q = args.speed := by
  rcases h with h | h | h | ⟨m, h⟩ | h | h | h | h | ⟨t, s, h⟩ <;>
    simp [Event.isPrint, Event.isDebugStep, extractionEvent] at h
  exact ⟨h.2.2.1, h.2.2.2⟩

/-- The events of the whole run that are not among the expected ones of the
phases before the audio is saved carry no synthesis call. -/
theorem main_call_events (w : World) (p : String) (argv : List String) (text : String)
    (style : Style) (n : Int) (q : Rat)
    (h : Event.call text style n q ∈ (main w p argv).trace) :
    ∃ tp args, parseArgs w p argv = (tp, .ret args) ∧ n = args.total_step ∧
      q = args.speed := by
  rcases main_shape w p argv with ⟨tp, c, h1, hm⟩ | ⟨tp, x, h1, hm⟩ |
    ⟨tp, args, t, x, h1, ht, _, _, _, hm⟩ | ⟨tp, te, ts, args, text1, result, h1, h3, h5, _, h6⟩
  · rw [hm] at h
    rcases List.mem_cons.1 h with h | h
    · simp [startEvent] at h
    · have := (parseArgs_ne_clear w p argv _ (by rw [h1]; exact h)).2
      simp [Event.isCall] at this
  · rw [hm] at h
    simp only [List.cons_append, List.mem_cons, List.mem_append] at h
    rcases h with h | h | h
    · simp [startEvent] at h
    · have := (parseArgs_ne_clear w p argv _ (by rw [h1]; exact h)).2
      simp [Event.isCall] at this
    · have := (errorReport_ne_clear x _ h).2
      simp [Event.isCall] at this
  · rw [hm] at h
    rcases List.mem_append.1 h with h | h
    · exact ⟨tp, args, h1, expected_call args text style n q (ht _ h)⟩
    · have := (errorReport_ne_clear x _ h).2
      simp [Event.isCall] at this
  · have hS : Event.call text style n q ∈ synthesisTrace tp args te text1 ts →
        ∃ tp args, parseArgs w p argv = (tp, .ret args) ∧ n = args.total_step ∧
          q = args.speed := fun hc =>
      ⟨tp, args, h1, expected_call args text style n q
        (synthesisTrace_expected w p argv tp te ts args text1 _ h1 h3 h5 _ hc)⟩
    rcases h6 with ⟨_, hm⟩ | ⟨d, ds, _, _, ⟨x, _, hm⟩ | ⟨_, _, hm⟩ | ⟨ts1, hts1, hm⟩⟩ <;>
      rw [hm] at h <;>
      simp only [List.mem_append, List.mem_cons, List.mem_singleton, List.not_mem_nil,
        or_false, or_assoc] at h
    · rcases h with h | h
      · exact hS h
      · simp at h
    · rcases h with h | h | h | h
      · exact hS h
      · simp at h
      · simp [writeEvent] at h
      · have := (errorReport_ne_clear x _ h).2
        simp [Event.isCall] at this
    · rcases h with h | h | h
      · exact hS h
      · simp at h
      · simp [writeEvent] at h
    · rcases h with h | h | h | h | h
      · exact hS h
      · simp at h
      · simp [writeEvent] at h
      · have := (hts1 _ h).1
        simp [Event.isPrint] at this
      · simp at h

/-- A sequence of options with an option whose conversion fails is not read
to the end. -/
theorem applyItems_fails (w : World) (pre post : List Item) (it : Item) (a : PDFToAudioArgs)
    (hit : ∀ a0, ∃ x, applyItem w a0 it = .error x) :
    ∃ x, applyItems w a (pre ++ it :: post) = .error x := by
  rw [applyItems_append]
  cases hpre : applyItems w a pre with
  | error e => exact ⟨e, rfl⟩
  | ok a0 =>
    obtain ⟨x, hx⟩ := hit a0
    exact ⟨x, by simp [applyItems, hx]⟩

theorem tokensOf_ne_nil (pre post : List Item) (it : Item) :
    tokensOf (pre ++ it :: post) ≠ [] := by
  induction pre with
  | nil => cases it <;> simp [tokensOf, Item.tokens]
  | cons i rest ih => cases i <;> simp [tokensOf, Item.tokens]

/-- A run whose option loop throws ends at once with the error report. -/
theorem main_of_conversion_failure (w : World) (p : String) (pre post : List Item)
    (it : Item) (hit : ∀ a0, ∃ x, applyItem w a0 it = .error x) :
    ∃ x, main w p (tokensOf (pre ++ it :: post)) =
      ⟨startEvent :: errorReport x, .exit 1⟩ := by
  obtain ⟨x, hx⟩ := applyItems_fails w pre post it {} hit
  have hparse : parseArgs w p (tokensOf (pre ++ it :: post)) = ([], .throw x) := by
    unfold parseArgs
    rw [if_neg (tokensOf_ne_nil pre post it)]
    have hl := parseLoop_tokensOf w p (pre ++ it :: post) [] {}
    simp only [List.append_nil, hx] at hl
    rw [hl]; rfl
  refine ⟨x, ?_⟩
  rcases main_cases w p (tokensOf (pre ++ it :: post)) with
    ⟨tp, c, h1, _⟩ | ⟨tp, e, h1, hm⟩ | ⟨tp, args, h1, _⟩
  · rw [hparse] at h1; simp at h1
  · rw [hparse] at h1
    simp only [Prod.mk.injEq, Control.throw.injEq] at h1
    rw [hm, ← h1.1, ← h1.2]; rfl
  · rw [hparse] at h1; simp at h1

set_option maxRecDepth 100000 in
/-- C7 fails: `--total-step 0` is accepted, the synthesis call is made with
`total_step = 0` and the run ends with exit status 0. -/
theorem zero_steps_reach_the_call :
    stoi "0" = .ok 0 ∧
    Event.call "Hi." [] 0 1.05 ∈
      (main demoWorld "prog" ["--pdf", "doc.pdf", "--total-step", "0", "--quiet"]).trace ∧
    (main demoWorld "prog" ["--pdf", "doc.pdf", "--total-step", "0", "--quiet"]).outcome =
      .exit 0 := by
  decide!

/-- C7, amended: every synthesis call of `main` receives the `total_step` and
`speed` of the record `parseArgs` returned, with no check of their range: the
defaults 5 and 1.05 (which satisfy `total_step ≥ 1` and `speed > 0`) when the
options are absent; an argument list in which the value of `--total-step`
or `--speed` does not convert (`std::stoi` / `std::stof` throws) ends with
exit code 1 right after the first line of output, before any extraction or
inference work. -/
theorem call_parameters (w : World) (p : String) (argv : List String) :
    (∀ text style n q, Event.call text style n q ∈ (main w p argv).trace →
      ∃ tp args, parseArgs w p argv = (tp, .ret args) ∧ n = args.total_step ∧
        q = args.speed ∧
        ("--total-step" ∉ argv → n = 5 ∧ 1 ≤ n) ∧
        ("--speed" ∉ argv → q = 1.05 ∧ 0 < q)) ∧
    (∀ pre post v x, argv = tokensOf (pre ++ .value .total_step v :: post) →
      stoi v = .error x →
      ∃ y, main w p argv = ⟨.out "=== PDF to Audio Converter ===\n\n" :: errorReport y,
        .exit 1⟩) ∧
    (∀ pre post v x, argv = tokensOf (pre ++ .value .speed v :: post) →
      w.stof v = .error x →
      ∃ y, main w p argv = ⟨.out "=== PDF to Audio Converter ===\n\n" :: errorReport y,
        .exit 1⟩) := by
  refine ⟨?_, ?_, ?_⟩
  · intro text style n q h
    obtain ⟨tp, args, h1, hn, hq⟩ := main_call_events w p argv text style n q h
    obtain ⟨a0, ha, _, _, _, _, _, _, hts, hsp, _⟩ := parseArgs_absent w p argv tp args h1
    refine ⟨tp, args, h1, hn, hq, ?_, ?_⟩
    · intro habs
      have : n = 5 := by rw [hn, ha]; exact hts habs
      exact ⟨this, by rw [this]; decide⟩
    · intro habs
      have : q = 1.05 := by rw [hq, ha]; exact hsp habs
      exact ⟨this, by rw [this]; norm_num⟩
  · intro pre post v x hargv hv
    rw [hargv]
    exact main_of_conversion_failure w p pre post _
      (fun a0 => ⟨x, by simp [applyItem, hv, Except.map]⟩)
  · intro pre post v x hargv hv
    rw [hargv]
    exact main_of_conversion_failure w p pre post _
      (fun a0 => ⟨x, by simp [applyItem, hv, Except.map]⟩)

set_option maxRecDepth 100000 in
/-- A run for the amended C7: the default parameters reach the call. -/
theorem call_parameters_witness :
    Event.call "Hi." [] 5 1.05 ∈ (main demoWorld "prog" ["--pdf", "doc.pdf"]).trace ∧
    ∃ tp args, parseArgs demoWorld "prog" ["--pdf", "doc.pdf"] = (tp, .ret args) ∧
      (5 : Int) = args.total_step ∧ (1.05 : Rat) = args.speed ∧
      ("--total-step" ∉ ["--pdf", "doc.pdf"] → (5 : Int) = 5 ∧ (1 : Int) ≤ 5) ∧
      ("--speed" ∉ ["--pdf", "doc.pdf"] → (1.05 : Rat) = 1.05 ∧ (0 : Rat) < 1.05) :=
  have h : Event.call "Hi." [] 5 1.05 ∈ (main demoWorld "prog" ["--pdf", "doc.pdf"]).trace := by
    decide!
  ⟨h, (call_parameters demoWorld "prog" ["--pdf", "doc.pdf"]).1 "Hi." [] 5 1.05 h⟩

/-! ## Claim about the page range -/

/-- The events of a run whose arguments are accepted. -/
theorem main_accepted (w : World) (p : String) (argv : List String) (tp : List Event)
    (args : PDFToAudioArgs) (h : parseArgs w p argv = (tp, .ret args)) :
    extractionEvent args ∈ (main w p argv).trace ∧
    (Event.out "  Pages: " ∈ (main w p argv).trace ↔
      Event.out "  Pages: " ∈ configurationEvents args) ∧
    (∀ e ∈ configurationEvents args, e ∈ (main w p argv).trace) ∧
    (∀ e ∈ (main w p argv).trace, Expected args e ∨ e.isError = true ∨ e = .getSampleRate ∨
      e.isWrite = true ∨ e = .clearTensorBuffers) := by
  have herr : ∀ x, ∀ e ∈ errorReport x, e.isError = true ∧ e ≠ .out "  Pages: " := by
    intro x e he
    simp only [errorReport, List.mem_cons, List.mem_singleton, List.not_mem_nil, or_false]
      at he
    rcases he with h | h | h <;> subst h <;> exact ⟨rfl, by simp⟩
  rcases main_shape w p argv with ⟨tp1, c, h1, hm⟩ | ⟨tp1, x, h1, hm⟩ |
    ⟨tp1, args1, t, x, h1, ht, hext, hconf, hpages, hm⟩ |
    ⟨tp1, te, ts, args1, text, result, h1, h3, h5, hpages, h6⟩
  · rw [h] at h1; simp at h1
  · rw [h] at h1; simp at h1
  · rw [h] at h1
    simp only [Prod.mk.injEq, Control.ret.injEq] at h1
    obtain ⟨_, hargs⟩ := h1
    subst hargs
    rw [hm]
    refine ⟨List.mem_append_left _ hext, ⟨?_, ?_⟩, ?_, ?_⟩
    · intro hp
      rcases List.mem_append.1 hp with hp | hp
      · exact hpages _ hp rfl
      · exact absurd rfl (herr x _ hp).2
    · intro hp; exact List.mem_append_left _ (hconf _ hp)
    · intro e he; exact List.mem_append_left _ (hconf _ he)
    · intro e he
      rcases List.mem_append.1 he with he | he
      · exact Or.inl (ht e he)
      · exact Or.inr (Or.inl (herr x e he).1)
  · rw [h] at h1
    simp only [Prod.mk.injEq, Control.ret.injEq] at h1
    obtain ⟨htp, hargs⟩ := h1
    subst hargs; subst htp
    obtain ⟨rest, hte, _⟩ := extractText_trace w args te _ h3
    have hS := synthesisTrace_expected w p argv tp te ts args text _ h h3 h5
    have hextS : extractionEvent args ∈ synthesisTrace tp args te text ts := by
      simp [synthesisTrace, extractionTrace, hte]
    have hconfS : ∀ e ∈ configurationEvents args, e ∈ synthesisTrace tp args te text ts := by
      intro e he; simp [synthesisTrace, extractionTrace, he]
    have key : ∀ tail : List Event,
        (∀ e ∈ tail, e ≠ .out "  Pages: " ∧ (Expected args e ∨ e.isError = true ∨
          e = .getSampleRate ∨ e.isWrite = true ∨ e = .clearTensorBuffers)) →
        extractionEvent args ∈ synthesisTrace tp args te text ts ++ tail ∧
        (Event.out "  Pages: " ∈ synthesisTrace tp args te text ts ++ tail ↔
          Event.out "  Pages: " ∈ configurationEvents args) ∧
        (∀ e ∈ configurationEvents args, e ∈ synthesisTrace tp args te text ts ++ tail) ∧
        (∀ e ∈ synthesisTrace tp args te text ts ++ tail, Expected args e ∨
          e.isError = true ∨ e = .getSampleRate ∨ e.isWrite = true ∨
          e = .clearTensorBuffers) := by
      intro tail htail
      refine ⟨List.mem_append_left _ hextS, ⟨?_, ?_⟩, ?_, ?_⟩
      · intro hp
        rcases List.mem_append.1 hp with hp | hp
        · exact hpages _ hp rfl
        · exact absurd rfl (htail _ hp).1
      · intro hp; exact List.mem_append_left _ (hconfS _ hp)
      · intro e he; exact List.mem_append_left _ (hconfS _ he)
      · intro e he
        rcases List.mem_append.1 he with he | he
        · exact Or.inl (hS e he)
        · exact (htail e he).2
    have hgsr : (Event.getSampleRate) ≠ .out "  Pages: " ∧ (Expected args .getSampleRate ∨
        Event.getSampleRate.isError = true ∨ Event.getSampleRate = .getSampleRate ∨
        Event.getSampleRate.isWrite = true ∨ Event.getSampleRate = .clearTensorBuffers) :=
      ⟨by simp, Or.inr (Or.inr (Or.inl rfl))⟩
    have hwr : ∀ d, writeEvent w args result d ≠ .out "  Pages: " ∧
        (Expected args (writeEvent w args result d) ∨
        (writeEvent w args result d).isError = true ∨
        writeEvent w args result d = .getSampleRate ∨
        (writeEvent w args result d).isWrite = true ∨
        writeEvent w args result d = .clearTensorBuffers) :=
      fun d => ⟨by simp [writeEvent], Or.inr (Or.inr (Or.inr (Or.inl rfl)))⟩
    rcases h6 with ⟨_, hm⟩ | ⟨d, ds, _, _, ⟨x, _, hm⟩ | ⟨_, _, hm⟩ | ⟨ts1, hts1, hm⟩⟩
    · rw [hm]
      exact key [.getSampleRate] (by
        intro e he
        simp only [List.mem_singleton] at he
        subst he; exact hgsr)
    · rw [hm, List.append_assoc]
      exact key _ (by
        intro e he
        simp only [List.cons_append, List.nil_append, List.mem_cons] at he
        rcases he with he | he | he
        · subst he; exact hgsr
        · subst he; exact hwr d
        · exact ⟨(herr x e he).2, Or.inr (Or.inl (herr x e he).1)⟩)
    · rw [hm]
      exact key _ (by
        intro e he
        simp only [List.mem_cons, List.mem_singleton, List.not_mem_nil, or_false] at he
        rcases he with he | he
        · subst he; exact hgsr
        · subst he; exact hwr d)
    · rw [hm, List.append_assoc, List.append_assoc]
      exact key _ (by
        intro e he
        simp only [List.cons_append, List.nil_append, List.mem_cons, List.mem_append,
          List.mem_singleton, List.not_mem_nil, or_false] at he
        rcases he with he | he | he | he
        · subst he; exact hgsr
        · subst he; exact hwr d
        · exact ⟨(hts1 e he).2, Or.inl (Or.inl (hts1 e he).1)⟩
        · subst he; exact ⟨by simp, Or.inr (Or.inr (Or.inr (Or.inr rfl)))⟩)

theorem pages_mem_configurationEvents (args : PDFToAudioArgs) :
    Event.out "  Pages: " ∈ configurationEvents args ↔
      args.verbose = true ∧ (0 < args.first_page ∨ 0 < args.last_page) := by
  unfold configurationEvents printConfiguration pagesLine
  by_cases hv : args.verbose = true
  · by_cases hp : 0 < args.first_page ∨ 0 < args.last_page
    · simp [hv, hp]
    · simp [hv, hp]
  · simp [hv]

theorem expected_extraction (args : PDFToAudioArgs) (path : String) (a b : Int)
    (ptp : String) (c : Bool) (h : Expected args (.extractTextFromPDF path a b ptp c)) :
    a = args.first_page ∧ b = args.last_page := by
  rcases h with h | h | h | ⟨m, h⟩ | h | h | h | h | ⟨t, s, h⟩ <;>
    simp [Event.isPrint, Event.isDebugStep, extractionEvent] at h
  exact ⟨h.2.1, h.2.2.1⟩

theorem pagesLine_subset (args : PDFToAudioArgs) (hv : args.verbose = true) :
    ∀ e ∈ pagesLine args, e ∈ configurationEvents args := by
  intro e he
  unfold configurationEvents printConfiguration
  simp [hv, he]

/-- C9: for an accepted argument list, the extraction is called with the
first and last page of the record `parseArgs` returned, on the `--debug`
path (without cleaning) and on the normal path alike, and no extraction call
of the run carries another pair; these values are -1 when the option is
absent and the integer `std::stoi` reads from the last value when it is
given; with verbose output the banner has a "Pages" line iff one of the two
bounds is positive, showing "1" for a non-positive first page and "end" for
a non-positive last page; with `--quiet` there is no such line. -/
theorem page_range_handed_over (w : World) (p : String) (argv : List String)
    (tp : List Event) (args : PDFToAudioArgs) (h : parseArgs w p argv = (tp, .ret args)) :
    (args.debug = true →
      Event.extractTextFromPDF args.pdf_path args.first_page args.last_page
        args.pdftotext_path false ∈ (main w p argv).trace) ∧
    (args.debug = false →
      Event.extractTextFromPDF args.pdf_path args.first_page args.last_page
        args.pdftotext_path args.remove_footnotes ∈ (main w p argv).trace) ∧
    (∀ path a b ptp c, Event.extractTextFromPDF path a b ptp c ∈ (main w p argv).trace →
      a = args.first_page ∧ b = args.last_page) ∧
    ("--first-page" ∉ argv → args.first_page = -1) ∧
    ("--last-page" ∉ argv → args.last_page = -1) ∧
    (∀ pre post v, argv = tokensOf (pre ++ .value .first_page v :: post) →
      (∀ v1, Item.value .first_page v1 ∉ post) → stoi v = .ok args.first_page) ∧
    (∀ pre post v, argv = tokensOf (pre ++ .value .last_page v :: post) →
      (∀ v1, Item.value .last_page v1 ∉ post) → stoi v = .ok args.last_page) ∧
    (args.verbose = true →
      (Event.out "  Pages: " ∈ (main w p argv).trace ↔
        (0 < args.first_page ∨ 0 < args.last_page))) ∧
    (args.verbose = true → ∀ e ∈ pagesLine args, e ∈ (main w p argv).trace) ∧
    ((0 < args.first_page ∨ 0 < args.last_page) →
      pagesLine args =
        [.out "  Pages: ",
         if 0 < args.first_page then .outInt args.first_page else .out "1",
         .out " to ",
         if 0 < args.last_page then .outInt args.last_page else .out "end",
         .out "\n"]) ∧
    (args.verbose = false → Event.out "  Pages: " ∉ (main w p argv).trace) := by
  obtain ⟨hext, hpages, hconf, hall⟩ := main_accepted w p argv tp args h
  obtain ⟨a0, ha, _, _, hfp, hlp, _⟩ := parseArgs_absent w p argv tp args h
  refine ⟨?_, ?_, ?_, ?_, ?_, ?_, ?_, ?_, ?_, ?_, ?_⟩
  · intro hd
    simpa [extractionEvent, hd] using hext
  · intro hd
    simpa [extractionEvent, hd] using hext
  · intro path a b ptp c hm
    rcases hall _ hm with hx | hx | hx | hx | hx
    · exact expected_extraction args path a b ptp c hx
    · simp [Event.isError] at hx
    · simp at hx
    · simp [Event.isWrite] at hx
    · simp at hx
  · intro hn; rw [ha]; exact hfp hn
  · intro hn; rw [ha]; exact hlp hn
  · intro pre post v hargv hpost
    obtain ⟨a1, hs, ha1⟩ := parseArgs_last w p pre post .first_page v tp args hpost (hargv ▸ h)
    rw [ha1]; exact hs
  · intro pre post v hargv hpost
    obtain ⟨a1, hs, ha1⟩ := parseArgs_last w p pre post .last_page v tp args hpost (hargv ▸ h)
    rw [ha1]; exact hs
  · intro hv
    rw [hpages, pages_mem_configurationEvents]
    simp [hv]
  · intro hv e he
    exact hconf e (pagesLine_subset args hv e he)
  · intro hp
    simp [pagesLine, hp]
  · intro hv
    rw [hpages, pages_mem_configurationEvents]
    simp [hv]

set_option maxRecDepth 100000 in
/-- An accepted argument list for C9: pages 3 to the end. -/
theorem page_range_handed_over_witness :
    parseArgs demoWorld "prog" ["--pdf", "doc.pdf", "--first-page", "3"] =
      ([.fsExists "doc.pdf"],
        .ret { pdf_path := "doc.pdf", output_path := "doc.wav", first_page := 3 }) ∧
    Event.extractTextFromPDF "doc.pdf" 3 (-1) "" false ∈
      (main demoWorld "prog" ["--pdf", "doc.pdf", "--first-page", "3"]).trace ∧
    pagesLine { pdf_path := "doc.pdf", output_path := "doc.wav", first_page := 3 } =
      [.out "  Pages: ", .outInt 3, .out " to ", .out "end", .out "\n"] :=
  have h : parseArgs demoWorld "prog" ["--pdf", "doc.pdf", "--first-page", "3"] =
      ([.fsExists "doc.pdf"],
        .ret { pdf_path := "doc.pdf", output_path := "doc.wav", first_page := 3 }) := by
    decide!
  have hc := page_range_handed_over demoWorld "prog" _ _ _ h
  ⟨h, hc.2.1 rfl, (hc.2.2.2.2.2.2.2.2.2.1 (Or.inl (by decide))).trans (by decide!)⟩

/-! ## Claim about the exit code -/

/-- A run whose argument parsing exits with 1 or throws ends with exit
code 1. -/
theorem main_exit_one_of_parse (w : World) (p : String) (argv : List String)
    (h : (parseArgs w p argv).2 = .exit 1 ∨ ∃ x, (parseArgs w p argv).2 = .throw x) :
    (main w p argv).outcome = .exit 1 := by
  rcases main_cases w p argv with ⟨tp, c, h1, hm⟩ | ⟨tp, e, h1, hm⟩ | ⟨tp, args, h1, _⟩
  · rw [h1] at h
    rcases h with h | ⟨x, h⟩
    · simp only [Control.exit.injEq] at h
      rw [hm, h]
    · simp at h
  · rw [hm]
  · rw [h1] at h
    rcases h with h | ⟨x, h⟩
    · simp at h
    · simp at h

/-- The loop of `parseArgs` on a sequence of options followed by a token the
loop rejects: the run of `parseArgs` ends with exit code 1 or throws. -/
theorem parseArgs_rejected (w : World) (p : String) (items : List Item) (x : String)
    (rest : List String)
    (hx : ∀ a, parseLoop w p (x :: rest) a = unknownArgument p x) :
    (parseArgs w p (tokensOf items ++ x :: rest)).2 = .exit 1 ∨
      ∃ e, (parseArgs w p (tokensOf items ++ x :: rest)).2 = .throw e := by
  unfold parseArgs
  rw [if_neg (by simp)]
  rw [parseLoop_tokensOf]
  cases applyItems w {} items with
  | error e => right; exact ⟨e, rfl⟩
  | ok a1 => left; simp only [hx a1, unknownArgument, bind_exit]

/-- When the last `--pdf` value names a file that does not exist,
`parseArgs` ends with exit code 1 or throws. -/
theorem parseArgs_missing_file (w : World) (p : String) (pre post : List Item)
    (path : String) (hpost : ∀ v, Item.value .pdf v ∉ post)
    (hfile : w.fileExists path = .ok false) :
    (parseArgs w p (tokensOf (pre ++ .value .pdf path :: post))).2 = .exit 1 ∨
      ∃ e, (parseArgs w p (tokensOf (pre ++ .value .pdf path :: post))).2 = .throw e := by
  unfold parseArgs
  rw [if_neg (tokensOf_ne_nil pre post _)]
  have hl := parseLoop_tokensOf w p (pre ++ .value .pdf path :: post) [] {}
  simp only [List.append_nil] at hl
  rw [hl]
  cases happ : applyItems w {} (pre ++ .value .pdf path :: post) with
  | error e => right; exact ⟨e, rfl⟩
  | ok a0 =>
    have hs := applyItems_last w pre post .pdf path {} a0 hpost happ
    simp only [Stores] at hs
    left
    simp only [parseLoop, bind_ret, after_snd]
    rcases validateArgs_cases w p a0 with ⟨a, h⟩ | ⟨e, h⟩ | ⟨_, h⟩ | ⟨_, h⟩
    · obtain ⟨_, hex, _⟩ := validateArgs_ret w p a0 a _ h
      rw [hs, hfile] at hex; simp at hex
    · exfalso
      unfold validateArgs at h
      by_cases hp : a0.pdf_path = ""
      · simp [hp] at h
      · rw [if_neg hp, hs, hfile] at h; simp at h
    · rw [h]
    · rw [h]

/-- Without a help request and without `--pdf`, `parseArgs` ends with exit
code 1 or throws. -/
theorem parseArgs_no_pdf (w : World) (p : String) (argv : List String)
    (h1 : "--help" ∉ argv) (h2 : "-h" ∉ argv) (h3 : "--pdf" ∉ argv) :
    (parseArgs w p argv).2 = .exit 1 ∨ ∃ e, (parseArgs w p argv).2 = .throw e := by
  rcases parseArgs_cases w p argv with ⟨a, h⟩ | ⟨x, h⟩ | ⟨x, q, h⟩ | ⟨hm, h⟩ | ⟨_, h⟩ |
    ⟨x, _, h⟩ | h | ⟨q, _, h⟩
  · exfalso
    obtain ⟨a0, ha, hpdf, _⟩ := parseArgs_absent w p argv _ a h
    obtain ⟨_, a1, _, _, _, hne, _, _, ha1⟩ := (parseArgs_ret_iff w p argv _ a).1 h
    have e1 : a.pdf_path = a0.pdf_path := by rw [ha]
    have e2 : a.pdf_path = a1.pdf_path := by rw [ha1]
    exact hne (by rw [← e2, e1]; exact hpdf h3)
  · right; exact ⟨x, by rw [h]⟩
  · right; exact ⟨x, by rw [h]⟩
  · rcases hm with hm | hm
    · exact absurd hm h1
    · exact absurd hm h2
  · left; rw [h]
  · left; rw [h]
  · left; rw [h]
  · left; rw [h]

theorem expected_or_tail_not_error (args : PDFToAudioArgs) (e : Event)
    (h : Expected args e ∨ e = .getSampleRate ∨ e.isWrite = true ∨ e = .clearTensorBuffers ∨
      e.isPrint = true) : e.isError = false := by
  rcases h with h | h | h | h | h
  · exact expected_not_error args e h
  · subst h; rfl
  · cases e <;> simp [Event.isWrite] at h
    rfl
  · subst h; rfl
  · cases e <;> simp [Event.isPrint] at h <;> rfl

/-- The exit code of every run, and the presence of error output. -/
theorem main_outcome (w : World) (p : String) (argv : List String) :
    ((main w p argv).outcome = .exit 0 ∧
        (∀ e ∈ (main w p argv).trace, e.isError = false) ∧ argv ≠ [] ∧
        ((("--help" ∈ argv ∨ "-h" ∈ argv) ∧
            (main w p argv).trace = [startEvent, .printUsage p]) ∨
          Event.clearTensorBuffers ∈ (main w p argv).trace)) ∨
    ((main w p argv).outcome = .exit 1 ∧
        (argv = [] ∨ ∃ e ∈ (main w p argv).trace, e.isError = true) ∧
        Event.clearTensorBuffers ∉ (main w p argv).trace) ∨
    ((main w p argv).outcome = .undefined ∧
        (∀ e ∈ (main w p argv).trace, e.isError = false) ∧ argv ≠ [] ∧
        Event.getSampleRate ∈ (main w p argv).trace ∧
        Event.clearTensorBuffers ∉ (main w p argv).trace) := by
  have hrep : ∀ x, ∃ e ∈ errorReport x, e.isError = true :=
    fun x => ⟨.errWhat x, by simp [errorReport], rfl⟩
  have hclear := (main_clear_events w p argv).2
  rcases main_shape w p argv with ⟨tp, c, h1, hm⟩ | ⟨tp, x, h1, hm⟩ |
    ⟨tp, args, t, x, h1, ht, _, _, _, hm⟩ | ⟨tp, te, ts, args, text, result, h1, h3, h5, _, h6⟩
  · rcases parseArgs_cases w p argv with ⟨a, h⟩ | ⟨x, h⟩ | ⟨x, q, h⟩ | ⟨hh, h⟩ | ⟨he, h⟩ |
      ⟨x, _, h⟩ | h | ⟨q, _, h⟩ <;> rw [h1] at h <;>
      simp only [Prod.mk.injEq, Control.exit.injEq, reduceCtorEq, and_false] at h
    · obtain ⟨htp, hc⟩ := h
      subst htp; subst hc
      left
      rw [hm]
      refine ⟨rfl, ?_, ?_, Or.inl ⟨hh, rfl⟩⟩
      · intro e he
        simp only [List.mem_cons, List.mem_singleton, List.not_mem_nil, or_false] at he
        rcases he with he | he <;> subst he <;> rfl
      · rintro rfl
        simp at hh
    · obtain ⟨htp, hc⟩ := h
      subst htp; subst hc
      right; left
      rw [hm]
      exact ⟨rfl, Or.inl he, by simp [startEvent]⟩
    · obtain ⟨htp, hc⟩ := h
      subst htp; subst hc
      right; left
      rw [hm]
      exact ⟨rfl, Or.inr ⟨.err "Unknown argument: ", by simp, rfl⟩, by simp [startEvent]⟩
    · obtain ⟨htp, hc⟩ := h
      subst htp; subst hc
      right; left
      rw [hm]
      exact ⟨rfl, Or.inr ⟨.err "Error: --pdf argument is required\n\n", by simp, rfl⟩,
        by simp [startEvent]⟩
    · obtain ⟨htp, hc⟩ := h
      subst htp; subst hc
      right; left
      rw [hm]
      exact ⟨rfl, Or.inr ⟨.err "Error: PDF file not found: ", by simp, rfl⟩,
        by simp [startEvent]⟩
  · right; left
    refine ⟨by rw [hm], Or.inr ?_, hclear.2 (by rw [hm]; simp)⟩
    obtain ⟨e, he, herr⟩ := hrep x
    exact ⟨e, by rw [hm]; exact List.mem_append_right _ he, herr⟩
  · right; left
    refine ⟨by rw [hm], Or.inr ?_, hclear.2 (by rw [hm]; simp)⟩
    obtain ⟨e, he, herr⟩ := hrep x
    exact ⟨e, by rw [hm]; exact List.mem_append_right _ he, herr⟩
  · have hne : argv ≠ [] := by
      rintro rfl
      simp [parseArgs] at h1
    have hS : ∀ e ∈ synthesisTrace tp args te text ts, e.isError = false := fun e he =>
      expected_not_error args e
        (synthesisTrace_expected w p argv tp te ts args text _ h1 h3 h5 e he)
    rcases h6 with ⟨_, hm⟩ | ⟨d, ds, _, _, ⟨x, _, hm⟩ | ⟨_, _, hm⟩ | ⟨ts1, hts1, hm⟩⟩
    · right; right
      refine ⟨by rw [hm], ?_, hne, by rw [hm]; simp, hclear.2 (by rw [hm]; simp)⟩
      rw [hm]
      intro e he
      simp only [List.mem_append, List.mem_singleton] at he
      rcases he with he | he
      · exact hS e he
      · subst he; rfl
    · right; left
      refine ⟨by rw [hm], Or.inr ?_, hclear.2 (by rw [hm]; simp)⟩
      obtain ⟨e, he, herr⟩ := hrep x
      exact ⟨e, by rw [hm]; exact List.mem_append_right _ he, herr⟩
    · right; right
      refine ⟨by rw [hm], ?_, hne, by rw [hm]; simp, hclear.2 (by rw [hm]; simp)⟩
      rw [hm]
      intro e he
      simp only [List.mem_append, List.mem_cons, List.mem_singleton, List.not_mem_nil,
        or_false] at he
      rcases he with he | he | he
      · exact hS e he
      · subst he; rfl
      · subst he; rfl
    · left
      refine ⟨by rw [hm], ?_, hne, Or.inr (by rw [hm]; simp)⟩
      rw [hm]
      intro e he
      simp only [List.mem_append, List.mem_cons, List.mem_singleton, List.not_mem_nil,
        or_false] at he
      rcases he with ((he | he | he) | he) | he
      · exact hS e he
      · subst he; rfl
      · subst he; rfl
      · exact expected_or_tail_not_error args e (Or.inr (Or.inr (Or.inr (Or.inr (hts1 e he).1))))
      · subst he; rfl

/-- C1: the exit code of every run is 0 or 1 (the only other way a run ends
is undefined behaviour in the slicing of the synthesis result, after the
synthesis call has returned). It is 1 exactly when an error occurred (no
argument at all, or error output on `std::cerr`) and 0 exactly when help was
requested or the run reached its end. In particular it is 1 for an empty
argument list, for a list without `--pdf`, for `--pdf` as last token without
value, for a PDF path that does not exist, for an unknown token, for an
option value that `std::stoi` or `std::stof` rejects, and whenever an
exception reaches the handler of `main`. -/
theorem exit_code_zero_or_one (w : World) (p : String) :
    (∀ argv, (main w p argv).outcome = .exit 0 ∨ (main w p argv).outcome = .exit 1 ∨
      ((main w p argv).outcome = .undefined ∧
        Event.getSampleRate ∈ (main w p argv).trace)) ∧
    (∀ argv c, (main w p argv).outcome = .exit c → c = 0 ∨ c = 1) ∧
    (∀ argv, (main w p argv).outcome = .exit 1 ↔
      (argv = [] ∨ ∃ e ∈ (main w p argv).trace, e.isError = true)) ∧
    (∀ argv, (main w p argv).outcome = .exit 0 ↔
      ((("--help" ∈ argv ∨ "-h" ∈ argv) ∧
          (main w p argv).trace =
            [.out "=== PDF to Audio Converter ===\n\n", .printUsage p]) ∨
        Event.clearTensorBuffers ∈ (main w p argv).trace)) ∧
    (main w p []).outcome = .exit 1 ∧
    (∀ argv, "--help" ∉ argv → "-h" ∉ argv → "--pdf" ∉ argv →
      (main w p argv).outcome = .exit 1) ∧
    (∀ items, (main w p (tokensOf items ++ ["--pdf"])).outcome = .exit 1) ∧
    (∀ pre post path, (∀ v, Item.value .pdf v ∉ post) → w.fileExists path = .ok false →
      (main w p (tokensOf (pre ++ .value .pdf path :: post))).outcome = .exit 1) ∧
    (∀ items x rest, x ∉ knownTokens →
      (main w p (tokensOf items ++ x :: rest)).outcome = .exit 1) ∧
    (∀ pre post o v x, (o = .first_page ∨ o = .last_page ∨ o = .total_step) →
      stoi v = .error x →
      (main w p (tokensOf (pre ++ .value o v :: post))).outcome = .exit 1) ∧
    (∀ pre post v x, w.stof v = .error x →
      (main w p (tokensOf (pre ++ .value .speed v :: post))).outcome = .exit 1) ∧
    (∀ argv t x, mainBody w p argv = (t, .throw x) →
      main w p argv = ⟨t ++ errorReport x, .exit 1⟩) := by
  refine ⟨?_, ?_, ?_, ?_, ?_, ?_, ?_, ?_, ?_, ?_, ?_, ?_⟩
  · intro argv
    rcases main_outcome w p argv with ⟨h, _⟩ | ⟨h, _⟩ | ⟨h, _, _, hg, _⟩
    · exact Or.inl h
    · exact Or.inr (Or.inl h)
    · exact Or.inr (Or.inr ⟨h, hg⟩)
  · intro argv c hc
    rcases main_outcome w p argv with ⟨h, _⟩ | ⟨h, _⟩ | ⟨h, _⟩ <;> rw [h] at hc
    · simp only [Outcome.exit.injEq] at hc; exact Or.inl hc.symm
    · simp only [Outcome.exit.injEq] at hc; exact Or.inr hc.symm
    · simp at hc
  · intro argv
    rcases main_outcome w p argv with ⟨h, hno, hne, _⟩ | ⟨h, herr, _⟩ | ⟨h, hno, hne, _⟩
    · rw [h]
      constructor
      · intro hc; simp at hc
      · rintro (he | ⟨e, he, hx⟩)
        · exact absurd he hne
        · rw [hno e he] at hx; simp at hx
    · exact ⟨fun _ => herr, fun _ => h⟩
    · rw [h]
      constructor
      · intro hc; simp at hc
      · rintro (he | ⟨e, he, hx⟩)
        · exact absurd he hne
        · rw [hno e he] at hx; simp at hx
  · intro argv
    rcases main_outcome w p argv with ⟨h, _, _, hs⟩ | ⟨h, herr, hnc⟩ | ⟨h, hno, _, hgs, hnc⟩
    · exact ⟨fun _ => hs, fun _ => h⟩
    · rw [h]
      constructor
      · intro hc; simp at hc
      · rintro (⟨hh, ht⟩ | hc)
        · exfalso
          rcases herr with he | ⟨e, he, hx⟩
          · subst he
            simp at hh
          · rw [ht] at he
            simp only [List.mem_cons, List.mem_singleton, List.not_mem_nil, or_false] at he
            rcases he with he | he <;> subst he <;> simp [Event.isError] at hx
        · exact absurd hc hnc
    · rw [h]
      constructor
      · intro hc; simp at hc
      · rintro (⟨_, ht⟩ | hc)
        · exfalso
          rw [ht] at hgs
          simp at hgs
        · exact absurd hc hnc
  · exact main_exit_one_of_parse w p [] (Or.inl (by simp [parseArgs]))
  · intro argv h1 h2 h3
    exact main_exit_one_of_parse w p argv (parseArgs_no_pdf w p argv h1 h2 h3)
  · intro items
    exact main_exit_one_of_parse w p _
      (parseArgs_rejected w p items "--pdf" [] (fun a => parseLoop_value_last w p .pdf a))
  · intro pre post path hpost hfile
    exact main_exit_one_of_parse w p _ (parseArgs_missing_file w p pre post path hpost hfile)
  · intro items x rest hx
    exact main_exit_one_of_parse w p _
      (parseArgs_rejected w p items x rest (fun a => parseLoop_unknown w p x rest a hx))
  · intro pre post o v x ho hv
    obtain ⟨y, hy⟩ := main_of_conversion_failure w p pre post (.value o v)
      (fun a0 => ⟨x, by rcases ho with ho | ho | ho <;> subst ho <;>
        simp [applyItem, hv, Except.map]⟩)
    rw [hy]
  · intro pre post v x hv
    obtain ⟨y, hy⟩ := main_of_conversion_failure w p pre post (.value .speed v)
      (fun a0 => ⟨x, by simp [applyItem, hv, Except.map]⟩)
    rw [hy]
  · intro argv t x h
    unfold main
    rw [h]

set_option maxRecDepth 100000 in
/-- Runs for C1: an unknown flag and a value `std::stoi` rejects give exit
code 1; the complete run gives 0. -/
theorem exit_code_zero_or_one_witness :
    "--fast" ∉ knownTokens ∧
    (main demoWorld "prog"
      (tokensOf [.value .pdf "doc.pdf"] ++ "--fast" :: [])).outcome = .exit 1 ∧
    stoi "five" = .error .invalid_argument ∧
    (main demoWorld "prog"
      (tokensOf ([.value .pdf "doc.pdf"] ++ .value .total_step "five" :: []))).outcome =
        .exit 1 ∧
    (main demoWorld "prog" ["--pdf", "doc.pdf"]).outcome = .exit 0 :=
  have hc := exit_code_zero_or_one demoWorld "prog"
  ⟨by decide, hc.2.2.2.2.2.2.2.2.1 _ _ _ (by decide), by decide!,
    hc.2.2.2.2.2.2.2.2.2.1 _ _ _ _ .invalid_argument (Or.inr (Or.inr rfl)) (by decide!),
    (hc.2.2.2.1 _).2 (Or.inr (by decide!))⟩

end PdfToAudio
